import Mathlib

/-!
# simpleconf: the environment registry (`pkg/env`) and the binder (`pkg/config`)

A shallow embedding of `pkg/env/env.go` and `pkg/config/config.go`.

* Go pointers `*string` / `*int64` are addresses into a typed `Heap`.
* The Go map `map[string]*Env` is a function `String → Option (Option Env)`:
  `none` is an absent key, `some none` a key mapped to the nil pointer,
  `some (some env)` a key mapped to an `Env` object.  Every `*Env` is created in
  `Var` and reachable only through its own map entry, so the pointed-to object is
  kept in the entry itself.  A nil map reads like the empty map.
* `range e.envs` visits every key once in an unspecified order; `Parse` takes the
  visiting order as an argument.
* `os.Getenv` and `strconv.ParseInt(s, 0, strconv.IntSize)` belong to the Go
  runtime and standard library; they are arguments of the embedding.
* `os.Exit` and `panic` are outcomes of an operation.
-/

namespace simpleconf

/-! ## Process model -/

/-- Address of a memory cell (a non-nil Go pointer). -/
abbrev Addr := Nat

/-- Typed memory: the `string` cells and the `int64` cells that bound values point to. -/
structure Heap where
  strs : Addr → String
  ints : Addr → Int

/-- Go `error` values are represented by their message (`err.Error()`). -/
abbrev Error := String

/-- How a call ends: it returns, it terminates the process through `os.Exit`
after printing to standard output, or it panics. -/
inductive Outcome (σ : Type) (α : Type) where
  | ret (s : σ) (a : α)
  | exit (stdout : String) (code : Int)
  | panic (s : σ) (v : String)

/-- The process environment: `none` for an unset variable. -/
abbrev Environ := String → Option String

/-- Go `os.Getenv`: the value of the variable, empty when the variable is unset. -/
def Getenv (environ : Environ) (key : String) : String :=
  (environ key).getD ""

/-- The type of `strconv.ParseInt(s, 0, strconv.IntSize)`: the parsed integer, or the
message of the error it returns. -/
abbrev ParseIntFn := String → Except Error Int

/-- Message of the Go runtime panic raised by a nil pointer dereference. -/
def nilDereference : String :=
  "runtime error: invalid memory address or nil pointer dereference"

/-! ## pkg/env -/

def regexpString : String := "^[a-zA-Z_][a-zA-Z0-9_]*$"

/-- Character class `[a-zA-Z_]`. -/
def isFirstChar (c : Char) : Bool :=
  ('a'.toNat ≤ c.toNat && c.toNat ≤ 'z'.toNat) ||
  ('A'.toNat ≤ c.toNat && c.toNat ≤ 'Z'.toNat) || c.toNat == '_'.toNat

/-- Character class `[a-zA-Z0-9_]`. -/
def isRestChar (c : Char) : Bool :=
  isFirstChar c || ('0'.toNat ≤ c.toNat && c.toNat ≤ '9'.toNat)

/-- Matching of `regexpString` by `regexp.MatchString`: the whole text is one
character of `[a-zA-Z_]` followed by characters of `[a-zA-Z0-9_]`. -/
def matchRegexpString (name : String) : Bool :=
  match name.data with
  | [] => false
  | c :: cs => isFirstChar c && cs.all isRestChar

/-- Go `isValidEnvironment`: the match result and the error of `regexp.MatchString`,
which is non-nil only for a pattern that does not compile; `regexpString` compiles. -/
def isValidEnvironment (name : String) : Bool × Option Error :=
  (matchRegexpString name, none)

/-- The two implementations of the interface `Value`: `*stringValue` and `*intValue`,
each a pointer to the cell it converts into. -/
inductive Value where
  | stringValue (p : Addr)
  | intValue (p : Addr)
  deriving DecidableEq, Repr

/-- Go `(*stringValue).Set`. -/
def stringValue_Set (p : Addr) (val : String) (h : Heap) : Heap × Option Error :=
  ({ h with strs := fun a => if a = p then val else h.strs a }, none)

/-- Go `(*intValue).Set`. -/
def intValue_Set (parseInt : ParseIntFn) (p : Addr) (s : String) (h : Heap) :
    Heap × Option Error :=
  match parseInt s with
  | .error err => (h, some ("error setting int value: " ++ err))
  | .ok v => ({ h with ints := fun a => if a = p then v else h.ints a }, none)

/-- Dispatch of the interface method `Value.Set`. -/
def Value.Set (parseInt : ParseIntFn) (v : Value) (s : String) (h : Heap) :
    Heap × Option Error :=
  match v with
  | .stringValue p => stringValue_Set p s h
  | .intValue p => intValue_Set parseInt p s h

structure Env where
  Name : String
  Value : Value
  isSet : Bool
  deriving DecidableEq, Repr

def Env.IsSet (e : Env) : Bool := e.isSet

/-- Go `type ErrorHandling int`. -/
abbrev ErrorHandling := Int

def ContinueOnError : ErrorHandling := 0
def ExitOnError : ErrorHandling := 1
def PanicOnError : ErrorHandling := 2

structure EnvSet where
  name : String
  errorHandling : ErrorHandling
  envs : String → Option (Option Env)
  pfx : String
  parsed : Bool

/-- Go `e.envs[name] = env`. -/
def mapStore (m : String → Option (Option Env)) (name : String) (env : Option Env) :
    String → Option (Option Env) :=
  fun k => if k = name then some env else m k

/-- The `handleErrors` block shared by `Var` and `SetPrefix`: `none` when control
falls through to the code after the block. -/
def handleErrors (e : EnvSet) (err : Option Error) : Option (Outcome EnvSet (Option Error)) :=
  match err with
  | none => none
  | some msg =>
    if e.errorHandling = ContinueOnError then some (.ret e (some msg))
    else if e.errorHandling = ExitOnError then some (.exit (msg ++ "\n") 2)
    else if e.errorHandling = PanicOnError then some (.panic e msg)
    else none

/-- Go `(*EnvSet).Var`. -/
def EnvSet.Var (e : EnvSet) (value : Value) (name : String) :
    Outcome EnvSet (Option Error) :=
  let (valid, rerr) := isValidEnvironment name
  let (err, env) : Option Error × Option Env :=
    match rerr with
    | some r =>
      (some ("Var: error while parsing env: " ++ name ++ " with regexp: " ++
        regexpString ++ ": " ++ r), none)
    | none =>
      if !valid then
        (some ("Var: env name " ++ name ++
          " does not conform to regular expression: " ++ regexpString), none)
      else
        let env : Env := { Name := name, Value := value, isSet := false }
        if (e.envs name).isSome then
          (some (e.name ++ " flag redefined: " ++ name), some env)
        else (none, some env)
  match handleErrors e err with
  | some out => out
  | none => .ret { e with envs := mapStore e.envs name env } none

def NewEnvSet (name : String) (errorHandling : ErrorHandling) : EnvSet :=
  { name := name, errorHandling := errorHandling, envs := fun _ => none,
    pfx := "", parsed := false }

def EnvSet.Init (e : EnvSet) (name : String) (errorHandling : ErrorHandling) : EnvSet :=
  { e with name := name, errorHandling := errorHandling }

/-- Go `(*EnvSet).SetPrefix`. -/
def EnvSet.SetPrefix (e : EnvSet) (p : String) : Outcome EnvSet (Option Error) :=
  let (valid, rerr) := isValidEnvironment p
  let err : Option Error :=
    match rerr with
    | some r =>
      some ("SetPrefix: error while parsing env prefix: " ++ p ++ " with regexp: " ++
        regexpString ++ ": " ++ r)
    | none =>
      if !valid then
        some ("SetPrefix: prefix " ++ p ++
          " does not conform to regular expression: " ++ regexpString)
      else none
  match handleErrors e err with
  | some out => out
  | none => .ret { e with pfx := p } none

def EnvSet.Int64Var (e : EnvSet) (p : Addr) (name : String) :
    Outcome EnvSet (Option Error) :=
  e.Var (.intValue p) name

def EnvSet.StringVar (e : EnvSet) (p : Addr) (name : String) :
    Outcome EnvSet (Option Error) :=
  e.Var (.stringValue p) name

/-- The variable read for a registration: `fullname` in `Parse`. -/
def fullname (e : EnvSet) (name : String) : String :=
  if e.pfx ≠ "" then e.pfx ++ "_" ++ name else name

/-- Go `env.isSet = true` through the pointer stored under `name`. -/
def markSet (e : EnvSet) (name : String) (env : Env) : EnvSet :=
  { e with envs := mapStore e.envs name (some { env with isSet := true }) }

/-- Go `(*EnvSet).Parse`, the `range` loop visiting the keys in `order`. -/
def EnvSet.Parse (environ : Environ) (parseInt : ParseIntFn) :
    List String → EnvSet → Heap → Outcome (EnvSet × Heap) (Option Error)
  | [], e, h => .ret ({ e with parsed := true }, h) none
  | name :: rest, e, h =>
    match e.envs name with
    | none => EnvSet.Parse environ parseInt rest e h
    | some none => .panic (e, h) nilDereference
    | some (some env) =>
      let value := Getenv environ (fullname e name)
      let (h1, err) : Heap × Option Error :=
        if value ≠ "" then env.Value.Set parseInt value h else (h, none)
      match err with
      | some inner =>
        let msg := "Parse: error while parsing env: " ++ fullname e name ++ ": " ++ inner
        if e.errorHandling = ContinueOnError then .ret (e, h1) (some msg)
        else if e.errorHandling = ExitOnError then .exit (msg ++ "\n") 2
        else if e.errorHandling = PanicOnError then .panic (e, h1) msg
        else EnvSet.Parse environ parseInt rest e h1
      | none => EnvSet.Parse environ parseInt rest (markSet e name env) h1

def EnvSet.Parsed (e : EnvSet) : Bool := e.parsed

/-- Go `(*EnvSet).IsSet`. -/
def EnvSet.IsSet (e : EnvSet) (name : String) : Bool × Option Error :=
  match e.envs name with
  | some (some env) => (env.IsSet, none)
  | _ => (false, some ("IsSet: env not defined: " ++ name))

/-- What `range e.envs` guarantees about a visiting order: every key of the map is
visited, once, and nothing else is. -/
def RangeOrder (e : EnvSet) (order : List String) : Prop :=
  order.Nodup ∧ ∀ n, n ∈ order ↔ (e.envs n).isSome

/-- Go `any` holding what `Get` returns. -/
inductive Any where
  | string (s : String)
  | int64 (i : Int)
  deriving DecidableEq, Repr

/-- Go `Get` of `*stringValue` and `*intValue`: the content of the bound cell. -/
def Value.Get (v : Value) (h : Heap) : Any :=
  match v with
  | .stringValue p => .string (h.strs p)
  | .intValue p => .int64 (h.ints p)

/-- The state an outcome leaves behind (none once the process has exited). -/
def Outcome.state? {σ α : Type} : Outcome σ α → Option σ
  | .ret s _ => some s
  | .exit _ _ => none
  | .panic s _ => some s

/-- The bound value registered under a name, if the name maps to an `Env`. -/
def boundTo (e : EnvSet) (n : String) : Option Value :=
  match e.envs n with
  | some (some env) => some env.Value
  | _ => none

/-- The `isSet` flag registered under a name, if the name maps to an `Env`. -/
def flagOf (e : EnvSet) (n : String) : Option Bool :=
  match e.envs n with
  | some (some env) => some env.isSet
  | _ => none

/-! ## strconv.ParseInt

`intValue.Set` calls `strconv.ParseInt(s, 0, strconv.IntSize)` of the Go standard
library.  The general results below hold for any function in its place; the model here,
which follows `strconv/atoi.go`, instantiates them on concrete inputs. -/

/-- Go `strconv.IntSize` on a 64-bit platform. -/
def IntSize : Nat := 64

/-- Go `*strconv.NumError`. -/
structure NumError where
  Func : String
  Num : String
  Err : String
  deriving DecidableEq, Repr

def ErrRange : String := "value out of range"
def ErrSyntax : String := "invalid syntax"

/-- Go `(*NumError).Error`, the number quoted as `strconv.Quote` quotes a text of
printable characters other than the double quote and the backslash. -/
def NumError.Error (e : NumError) : String :=
  "strconv." ++ e.Func ++ ": parsing \"" ++ e.Num ++ "\": " ++ e.Err

/-- Go strconv `lower`: `c | ('x' - 'X')`. -/
def lower (c : Nat) : Nat := c ||| 0x20

/-- Go strconv `underscoreOK`, the scan of the number proper; `saw` is the last
character class seen (`'0'`, `'_'`, `'!'` or `'^'`). -/
def underscoreScan (hex : Bool) : List Char → Char → Bool
  | [], saw => saw != '_'
  | c :: cs, saw =>
    if ('0'.toNat ≤ c.toNat && c.toNat ≤ '9'.toNat) ||
        (hex && 'a'.toNat ≤ lower c.toNat && lower c.toNat ≤ 'f'.toNat) then
      underscoreScan hex cs '0'
    else if c = '_' then
      if saw != '0' then false else underscoreScan hex cs '_'
    else if saw = '_' then false
    else underscoreScan hex cs '!'

/-- Go strconv `underscoreOK`. -/
def underscoreOK (s : String) : Bool :=
  let s1 : List Char :=
    match s.data with
    | c :: cs => if c = '-' || c = '+' then cs else c :: cs
    | [] => []
  match s1 with
  | c0 :: c1 :: cs =>
    if c0 = '0' && (lower c1.toNat = 'b'.toNat || lower c1.toNat = 'o'.toNat ||
        lower c1.toNat = 'x'.toNat) then
      underscoreScan (lower c1.toNat = 'x'.toNat) cs '0'
    else underscoreScan false s1 '^'
  | _ => underscoreScan false s1 '^'

/-- The digit loop of `strconv.ParseUint`: the value so far and whether an underscore
was seen, or the value and error it returns with. -/
def parseUintLoop (base : Nat) (base0 : Bool) (cutoff maxVal : Nat) :
    List Char → Nat → Bool → Except (Nat × String) (Nat × Bool)
  | [], n, underscores => .ok (n, underscores)
  | c :: cs, n, underscores =>
    if c = '_' && base0 then parseUintLoop base base0 cutoff maxVal cs n true
    else
      let d : Option Nat :=
        if '0'.toNat ≤ c.toNat && c.toNat ≤ '9'.toNat then some (c.toNat - '0'.toNat)
        else if 'a'.toNat ≤ lower c.toNat && lower c.toNat ≤ 'z'.toNat then
          some (lower c.toNat - 'a'.toNat + 10)
        else none
      match d with
      | none => .error (0, ErrSyntax)
      | some d =>
        if d ≥ base then .error (0, ErrSyntax)
        else if n ≥ cutoff then .error (maxVal, ErrRange)
        else
          let n1 := (n * base + d) % 2 ^ 64
          if n1 < n * base || n1 > maxVal then .error (maxVal, ErrRange)
          else parseUintLoop base base0 cutoff maxVal cs n1 underscores

/-- Go `strconv.ParseUint`: the value and the error it returns. -/
def ParseUint (s : String) (base : Nat) (bitSize : Nat) : Nat × Option NumError :=
  if s = "" then (0, some ⟨"ParseUint", s, ErrSyntax⟩)
  else
    let picked : Option (Nat × List Char) :=
      if 2 ≤ base && base ≤ 36 then some (base, s.data)
      else if base = 0 then
        match s.data with
        | '0' :: c1 :: c2 :: cs =>
          if lower c1.toNat = 'b'.toNat then some (2, c2 :: cs)
          else if lower c1.toNat = 'o'.toNat then some (8, c2 :: cs)
          else if lower c1.toNat = 'x'.toNat then some (16, c2 :: cs)
          else some (8, c1 :: c2 :: cs)
        | '0' :: cs => some (8, cs)
        | cs => some (10, cs)
      else none
    match picked with
    | none => (0, some ⟨"ParseUint", s, "invalid base " ++ toString base⟩)
    | some (b, digits) =>
      if bitSize > 64 then
        (0, some ⟨"ParseUint", s, "invalid bit size " ++ toString bitSize⟩)
      else
        let bits := if bitSize = 0 then IntSize else bitSize
        let cutoff := (2 ^ 64 - 1) / b + 1
        let maxVal := 2 ^ bits - 1
        match parseUintLoop b (base = 0) cutoff maxVal digits 0 false with
        | .error (v, err) => (v, some ⟨"ParseUint", s, err⟩)
        | .ok (n, underscores) =>
          if underscores && !underscoreOK s then (0, some ⟨"ParseUint", s, ErrSyntax⟩)
          else (n, none)

/-- Conversion of an integer to Go `int64` (two's complement wrap-around). -/
def toInt64 (x : Int) : Int := (x + 2 ^ 63) % 2 ^ 64 - 2 ^ 63

/-- Go `strconv.ParseInt`: the value and the error it returns. -/
def ParseInt (s : String) (base : Nat) (bitSize : Nat) : Int × Option NumError :=
  match s.data with
  | [] => (0, some ⟨"ParseInt", s, ErrSyntax⟩)
  | c :: cs =>
    let neg := c = '-'
    let s1 : String := if c = '+' || c = '-' then ⟨cs⟩ else s
    let (un, err) := ParseUint s1 base bitSize
    match (if (err.map NumError.Err) = some ErrRange then none else err) with
    | some err => (0, some { err with Func := "ParseInt", Num := s })
    | none =>
      let bits := if bitSize = 0 then IntSize else bitSize
      let cutoff := 2 ^ (bits - 1)
      if !neg && un ≥ cutoff then (toInt64 (cutoff - 1), some ⟨"ParseInt", s, ErrRange⟩)
      else if neg && un > cutoff then (- toInt64 cutoff, some ⟨"ParseInt", s, ErrRange⟩)
      else
        let n := toInt64 un
        (if neg then toInt64 (- n) else n, none)

/-- The call `strconv.ParseInt(s, 0, strconv.IntSize)` of `intValue.Set`. -/
def parseIntBase0 : ParseIntFn := fun s =>
  match ParseInt s 0 IntSize with
  | (v, none) => .ok v
  | (_, some err) => .error err.Error

/-! ## pkg/config

The configuration record is reached through a pointer: its type is a `Config`, the
value of its field number `i` is the cell at address `i` of the memory (a `string` cell
for a field of kind String, an `int64` cell for a field of kind Int64).  The package
`flag` of the Go standard library is an argument of the embedding. -/

/-- Go `reflect.Kind` of a field's type, as far as `Parse` tells kinds apart. -/
inductive Kind where
  | String
  | Int64
  | other (name : String)
  deriving DecidableEq, Repr

/-- Go `reflect.StructField`: `Tag` is `field.Tag.Get`, empty on a key the tag lacks;
`PkgPath` is empty for an exported field and names the package for an unexported one;
`Kind` is `field.Type.Kind()` and `TypeName` is `field.Type.String()`, which for a
defined type such as `type Level int64` is the name of that type, not `int64`. -/
structure StructField where
  Name : String
  Kind : Kind
  Tag : String → String
  PkgPath : String := ""
  TypeName : String :=
    match Kind with
    | .String => "string"
    | .Int64 => "int64"
    | .other name => name

/-- The struct type `reflect.TypeOf(config).Elem()`. -/
structure Config where
  Name : String
  fields : List StructField

/-- The operations of Go `flag.FlagSet` the binder calls, on a flag set of type `φ`. -/
structure FlagPackage (φ : Type) where
  NewFlagSet : String → φ
  StringVar : φ → Addr → String → String → String → Heap → Outcome (φ × Heap) Unit
  Int64Var : φ → Addr → String → Int → String → Heap → Outcome (φ × Heap) Unit
  Parse : φ → List String → Heap → Outcome (φ × Heap) (Option Error)

structure parser (φ : Type) where
  flagSet : φ
  envSet : EnvSet
  config : Config

/-- Go `NewParser`; the flag set is created with `flag.ContinueOnError`. -/
def NewParser {φ : Type} (F : FlagPackage φ) (config : Config) : parser φ :=
  { flagSet := F.NewFlagSet config.Name,
    envSet := NewEnvSet config.Name ContinueOnError,
    config := config }

/-- Go `(*parser).SetEnvPrefix`: the error `SetPrefix` returns is dropped. -/
def parser.SetEnvPrefix {φ : Type} (p : parser φ) (pre : String) : Outcome (parser φ) Unit :=
  match p.envSet.SetPrefix pre with
  | .ret es _ => .ret { p with envSet := es } ()
  | .exit out code => .exit out code
  | .panic es v => .panic { p with envSet := es } v

/-- The two registrations of one field: the flag one when the tag `arg` is not empty,
then the environment one (`none` when the tag `env` is empty), whose error is dropped. -/
def parser.register {φ : Type} (p : parser φ) (flagOut : Outcome (φ × Heap) Unit)
    (envOut : Option (Outcome EnvSet (Option Error))) : Outcome (parser φ × Heap) Unit :=
  match flagOut with
  | .exit out code => .exit out code
  | .panic (fs, h1) v => .panic ({ p with flagSet := fs }, h1) v
  | .ret (fs, h1) _ =>
    match envOut with
    | none => .ret ({ p with flagSet := fs }, h1) ()
    | some (.ret es _) => .ret ({ p with flagSet := fs, envSet := es }, h1) ()
    | some (.exit out code) => .exit out code
    | some (.panic es v) => .panic ({ p with flagSet := fs, envSet := es }, h1) v

/-- Go `fieldValue.Addr().Interface().(*T)` on the field, `T` being `string` or `int64`:
the value the call panics with, none when it yields the pointer.  `Interface` panics on
an unexported field, the type assertion panics when the type of the field is a defined
type and not `T` itself. -/
def pointerPanic (field : StructField) (target : String) : Option String :=
  if field.PkgPath ≠ "" then
    some ("reflect.Value.Interface: cannot return value obtained from " ++
      "unexported field or method")
  else if field.TypeName ≠ target then
    some ("interface conversion: interface \x7b\x7d is *" ++ field.TypeName ++ ", not *" ++
      target)
  else none

/-- The body of the field loop of `(*parser).Parse` for the field number `i`. -/
def parser.bindField {φ : Type} (F : FlagPackage φ) (p : parser φ) (h : Heap) (i : Nat)
    (field : StructField) : Outcome (parser φ × Heap) Unit :=
  let usage := field.Tag "usage"
  let flag := field.Tag "arg"
  let env := field.Tag "env"
  match field.Kind with
  | .String =>
    let defaultValue := h.strs i
    match pointerPanic field "string" with
    | some v => .panic (p, h) v
    | none =>
      p.register
        (if flag ≠ "" then F.StringVar p.flagSet i flag defaultValue usage h
          else .ret (p.flagSet, h) ())
        (if env ≠ "" then some (p.envSet.StringVar i env) else none)
  | .Int64 =>
    let defaultValue := h.ints i
    match pointerPanic field "int64" with
    | some v => .panic (p, h) v
    | none =>
      p.register
        (if flag ≠ "" then F.Int64Var p.flagSet i flag defaultValue usage h
          else .ret (p.flagSet, h) ())
        (if env ≠ "" then some (p.envSet.Int64Var i env) else none)
  | .other kind =>
    .panic (p, h) ("parsing environment of type " ++ kind ++ " is not implemented")

/-- The field loop of `(*parser).Parse`, from the field number `i` on. -/
def parser.bindFields {φ : Type} (F : FlagPackage φ) :
    Nat → List StructField → parser φ → Heap → Outcome (parser φ × Heap) Unit
  | _, [], p, h => .ret (p, h) ()
  | i, field :: rest, p, h =>
    match p.bindField F h i field with
    | .ret (p1, h1) _ => parser.bindFields F (i + 1) rest p1 h1
    | .exit out code => .exit out code
    | .panic s v => .panic s v

/-- Go `(*parser).Parse`; `args` is `os.Args[1:]`, `order` the order in which the
environment pass visits the registrations. -/
def parser.Parse {φ : Type} (F : FlagPackage φ) (environ : Environ) (parseInt : ParseIntFn)
    (args : List String) (order : List String) (p : parser φ) (h : Heap) :
    Outcome (parser φ × Heap) (Option Error) :=
  match parser.bindFields F 0 p.config.fields p h with
  | .exit out code => .exit out code
  | .panic s v => .panic s v
  | .ret (p1, h1) _ =>
    match F.Parse p1.flagSet args h1 with
    | .exit out code => .exit out code
    | .panic (fs, h2) v => .panic ({ p1 with flagSet := fs }, h2) v
    | .ret (fs, h2) (some err) => .ret ({ p1 with flagSet := fs }, h2) (some err)
    | .ret (fs, h2) none =>
      match EnvSet.Parse environ parseInt order p1.envSet h2 with
      | .exit out code => .exit out code
      | .panic (es, h3) v => .panic ({ p1 with flagSet := fs, envSet := es }, h3) v
      | .ret (es, h3) err => .ret ({ p1 with flagSet := fs, envSet := es }, h3) err

/-- The bound value the binder registers for the field number `i`. -/
def fieldValue (i : Nat) (field : StructField) : Option Value :=
  match field.Kind with
  | .String => some (.stringValue i)
  | .Int64 => some (.intValue i)
  | .other _ => none

/-- The set `Var` leaves when it returns under `ContinueOnError`: the set with a fresh
Env stored under the name when the name matches the pattern and is not registered yet,
the set itself otherwise. -/
def registered (e : EnvSet) (value : Value) (name : String) : EnvSet :=
  if matchRegexpString name && (e.envs name).isNone then
    { e with envs := mapStore e.envs name (some ⟨name, value, false⟩) }
  else e

/-- Every key of the set is the `env` tag of one of the fields `pre`, and is bound to the
cell of that field. -/
def FromFields (pre : List StructField) (e : EnvSet) : Prop :=
  ∀ n, e.envs n ≠ none → ∃ j f v, pre[j]? = some f ∧ f.Tag "env" = n ∧
    fieldValue j f = some v ∧ boundTo e n = some v

/-! ## Conditions on a set -/

/-- Distinct names are bound to distinct cells. -/
def DistinctCells (e : EnvSet) : Prop :=
  ∀ n m v, n ≠ m → boundTo e n = some v → boundTo e m ≠ some v

/-- No name is mapped to the nil pointer (what `Var` stores under the three defined
policies is never nil). -/
def NoNilEnv (e : EnvSet) : Prop :=
  ∀ n, e.envs n ≠ some none

/-! ## Scenarios of the test suite -/

/-- Memory whose cells hold the Go zero values. -/
def heapZero : Heap := { strs := fun _ => "", ints := fun _ => 0 }

def testInt64Env : Env := { Name := "TEST_INT64", Value := .intValue 0, isSet := false }

def testStringEnv : Env := { Name := "TEST_STRING", Value := .stringValue 0, isSet := false }

/-- The set of `TestEnv` after `Int64Var(&testInt64, "TEST_INT64")` and
`StringVar(&testString, "TEST_STRING")`. -/
def testSet : EnvSet :=
  { name := "test", errorHandling := ContinueOnError,
    envs := mapStore (mapStore (fun _ => none) "TEST_INT64" (some testInt64Env))
      "TEST_STRING" (some testStringEnv),
    pfx := "", parsed := false }

/-- The environment patched by `TestEnv`. -/
def testEnviron : Environ := fun k =>
  if k = "TEST_INT64" then some "42"
  else if k = "TEST_STRING" then some "forty-two" else none

/-- The state `TestEnv` reaches after `Parse`. -/
def testSetParsed : EnvSet × Heap :=
  ({ markSet (markSet testSet "TEST_INT64" testInt64Env) "TEST_STRING" testStringEnv with
      parsed := true },
    (stringValue_Set 0 "forty-two" (intValue_Set parseIntBase0 0 "42" heapZero).1).1)

/-- Memory whose cells hold defaults other than the zero values. -/
def heapDefaults : Heap := { strs := fun _ => "default", ints := fun _ => 7 }

/-- An environment where `TEST_INT64` is unset and `TEST_STRING` is set to the empty
string. -/
def emptyEnviron : Environ := fun k => if k = "TEST_STRING" then some "" else none

/-- The state `testSet` reaches after `Parse` under `emptyEnviron`. -/
def testSetEmptyParsed : EnvSet × Heap :=
  ({ markSet (markSet testSet "TEST_INT64" testInt64Env) "TEST_STRING" testStringEnv with
      parsed := true }, heapDefaults)

def duplicateEnv : Env := { Name := "DUPLICATE", Value := .intValue 2, isSet := false }

/-- The set of `TestEnvWithErrors` when it calls `Parse`: `TEST_INT64` bound to
`testInt64` (cell 0) and `DUPLICATE` bound to `testInt64DefinedTwice` (cell 2). -/
def errorsSet : EnvSet :=
  { name := "testWithErrors", errorHandling := ContinueOnError,
    envs := mapStore (mapStore (fun _ => none) "TEST_INT64" (some testInt64Env))
      "DUPLICATE" (some duplicateEnv),
    pfx := "", parsed := false }

/-- The environment patched by `TestEnvWithErrors`. -/
def errorsEnviron : Environ := fun k =>
  if k = "TEST_INT64" then some "not_a_number" else none

def aliasEnvA : Env := { Name := "A", Value := .intValue 0, isSet := false }

def aliasEnvB : Env := { Name := "B", Value := .intValue 0, isSet := false }

/-- A set after `Int64Var(&x, "A")` and `Int64Var(&x, "B")`: two names bound to the
same cell 0. -/
def aliasSet : EnvSet :=
  { name := "alias", errorHandling := ContinueOnError,
    envs := mapStore (mapStore (fun _ => none) "A" (some aliasEnvA)) "B" (some aliasEnvB),
    pfx := "", parsed := false }

def aliasEnviron : Environ := fun k =>
  if k = "A" then some "5" else if k = "B" then some "not_a_number" else none

/-- The message `Parse` returns in `TestEnvWithErrors`. -/
def errorsMessage : Error :=
  "Parse: error while parsing env: TEST_INT64: error setting int value: " ++
    "strconv.ParseInt: parsing \"not_a_number\": invalid syntax"

/-- The state `errorsSet` is left in when `Parse` visits `DUPLICATE`, then fails on
`TEST_INT64`. -/
def errorsSetFailed : EnvSet × Heap :=
  (markSet errorsSet "DUPLICATE" duplicateEnv, heapZero)

/-- The state `aliasSet` is left in when `Parse` visits `A`, then fails on `B`. -/
def aliasSetFailed : EnvSet × Heap :=
  (markSet aliasSet "A" aliasEnvA, (intValue_Set parseIntBase0 0 "5" heapZero).1)

/-- The set of `TestEnvWithErrors` when it registers `DUPLICATE` a second time. -/
def duplicateSet : EnvSet :=
  { name := "testWithErrors", errorHandling := ContinueOnError,
    envs := mapStore (mapStore (fun _ => none) "TEST_INT64" (some testInt64Env))
      "DUPLICATE" (some duplicateEnv),
    pfx := "", parsed := false }

/-! ## A flag package for the scenario of the binder

A small stand-in for the package `flag` of the standard library: it understands the
arguments `-name=value` and `--name=value` of text and integer flags. -/

/-- A defined flag: its name, whether it is an integer flag, and the cell it sets. -/
structure Flag where
  Name : String
  isInt : Bool
  p : Addr
  deriving DecidableEq, Repr

def Heap.storeString (h : Heap) (p : Addr) (v : String) : Heap :=
  { h with strs := fun a => if a = p then v else h.strs a }

def Heap.storeInt (h : Heap) (p : Addr) (v : Int) : Heap :=
  { h with ints := fun a => if a = p then v else h.ints a }

/-- The name and the value of an argument `-name=value` or `--name=value`. -/
def splitFlagArg (arg : String) : Option (String × String) :=
  let body : Option (List Char) :=
    match arg.data with
    | '-' :: '-' :: cs => some cs
    | '-' :: cs => some cs
    | _ => none
  body.map fun cs =>
    (String.mk (cs.takeWhile (fun c => c != '=')),
      String.mk ((cs.dropWhile (fun c => c != '=')).drop 1))

/-- The pass over the arguments: each flag argument sets the cell of its flag. -/
def simpleFlagParse : List Flag → List String → Heap →
    Outcome (List Flag × Heap) (Option Error)
  | fs, [], h => .ret (fs, h) none
  | fs, arg :: args, h =>
    match splitFlagArg arg with
    | none => .ret (fs, h) none
    | some (name, value) =>
      match fs.find? (fun fl => fl.Name == name) with
      | none => .ret (fs, h) (some ("flag provided but not defined: -" ++ name))
      | some fl =>
        if fl.isInt then
          match ParseInt value 0 64 with
          | (v, none) => simpleFlagParse fs args (h.storeInt fl.p v)
          | (_, some _) =>
            .ret (fs, h) (some ("invalid value \"" ++ value ++ "\" for flag -" ++ name))
        else simpleFlagParse fs args (h.storeString fl.p value)

/-- The stand-in flag package: defining a flag stores its default in the cell and
panics on a name defined twice. -/
def simpleFlag : FlagPackage (List Flag) where
  NewFlagSet := fun _ => []
  StringVar := fun fs p name value _ h =>
    if fs.any (fun fl => fl.Name == name) then .panic (fs, h) ("flag redefined: " ++ name)
    else .ret (fs ++ [⟨name, false, p⟩], h.storeString p value) ()
  Int64Var := fun fs p name value _ h =>
    if fs.any (fun fl => fl.Name == name) then .panic (fs, h) ("flag redefined: " ++ name)
    else .ret (fs ++ [⟨name, true, p⟩], h.storeInt p value) ()
  Parse := simpleFlagParse

/-- The field `X int64` with the tags `arg:"x"` and `env:"X"`. -/
def xField : StructField :=
  { Name := "X", Kind := .Int64,
    Tag := fun k => if k = "arg" then "x" else if k = "env" then "X" else "" }

def xConfig : Config := { Name := "Options", fields := [xField] }

/-- The environment `X=2`. -/
def xEnviron : Environ := fun k => if k = "X" then some "2" else none

/-- Memory after the flag pass of the scenario: default stored, then `--x=1` applied. -/
def xHeapAfterFlags : Heap := (heapZero.storeInt 0 0).storeInt 0 1

/-- The state the binder of the scenario reaches after `Parse`. -/
def xParsed : parser (List Flag) × Heap :=
  ({ flagSet := [⟨"x", true, 0⟩],
     envSet := { markSet (registered (NewEnvSet "Options" ContinueOnError) (.intValue 0) "X")
       "X" ⟨"X", .intValue 0, false⟩ with parsed := true },
     config := xConfig },
    (intValue_Set parseIntBase0 0 "2" xHeapAfterFlags).1)

/-- The outcome with the state it leaves transformed. -/
def Outcome.mapState {σ τ α : Type} (f : σ → τ) : Outcome σ α → Outcome τ α
  | .ret s a => .ret (f s) a
  | .exit out code => .exit out code
  | .panic s v => .panic (f s) v

/-- The set of `TestEnvWithPrefix` when it calls `Parse`: prefix `PREFIX`, and the two
registrations of `testSet`. -/
def prefixSet : EnvSet :=
  { name := "testWithPrefix", errorHandling := ContinueOnError,
    envs := mapStore (mapStore (fun _ => none) "TEST_INT64" (some testInt64Env))
      "TEST_STRING" (some testStringEnv),
    pfx := "PREFIX", parsed := false }

/-- The environment patched by `TestEnvWithPrefix`, with the unprefixed `TEST_STRING`
defined as well. -/
def prefixEnviron : Environ := fun k =>
  if k = "PREFIX_TEST_INT64" then some "42"
  else if k = "PREFIX_TEST_STRING" then some "forty-two"
  else if k = "TEST_STRING" then some "unprefixed" else none

/-- A field `Verbose bool` with the tags `arg:"verbose"` and `env:"VERBOSE"`. -/
def boolField : StructField :=
  { Name := "Verbose", Kind := .other "bool",
    Tag := fun k => if k = "arg" then "verbose" else if k = "env" then "VERBOSE" else "" }

/-- A record with the supported field `X` followed by the unsupported `Verbose`. -/
def boolConfig : Config := { Name := "Options", fields := [xField, boolField] }

/-- The binder state `Parse` panics in on `boolConfig`: `X` is registered for its flag
and its variable, `Verbose` is not. -/
def boolPanicState : parser (List Flag) × Heap :=
  ({ flagSet := [⟨"x", true, 0⟩],
     envSet := registered (NewEnvSet "Options" ContinueOnError) (.intValue 0) "X",
     config := boolConfig },
    heapZero.storeInt 0 0)

/-! ## Sequences of calls on a set -/

/-- One of the three policies the package defines. -/
def DefinedPolicy (errorHandling : ErrorHandling) : Prop :=
  errorHandling = ContinueOnError ∨ errorHandling = ExitOnError ∨
    errorHandling = PanicOnError

/-- A call of a method of `EnvSet`. -/
inductive Call where
  | Var (value : Value) (name : String)
  | Int64Var (p : Addr) (name : String)
  | StringVar (p : Addr) (name : String)
  | SetPrefix (p : String)
  | Init (name : String) (errorHandling : ErrorHandling)
  | Parse (environ : Environ) (order : List String)
  | IsSet (name : String)

/-- A program state around one set: the set, the memory, and the record, in the order
they were made, of the registrations that returned nil (name and value passed). -/
structure Session where
  set : EnvSet
  heap : Heap
  log : List (String × Value)

/-- The session after a registration call that returned; none when it did not return. -/
def Session.afterVar (r : Session) (out : Outcome EnvSet (Option Error)) (name : String)
    (value : Value) : Option Session :=
  match out with
  | .ret e none => some { r with set := e, log := r.log ++ [(name, value)] }
  | .ret e (some _) => some { r with set := e }
  | _ => none

/-- The session after a call that returns; none when the call exits or panics. -/
def Call.step (parseInt : ParseIntFn) (c : Call) (r : Session) : Option Session :=
  match c with
  | .Var value name => r.afterVar (r.set.Var value name) name value
  | .Int64Var p name => r.afterVar (r.set.Int64Var p name) name (.intValue p)
  | .StringVar p name => r.afterVar (r.set.StringVar p name) name (.stringValue p)
  | .SetPrefix p =>
    match r.set.SetPrefix p with
    | .ret e _ => some { r with set := e }
    | _ => none
  | .Init name errorHandling => some { r with set := r.set.Init name errorHandling }
  | .Parse environ order =>
    match EnvSet.Parse environ parseInt order r.set r.heap with
    | .ret (e, h) _ => some { r with set := e, heap := h }
    | _ => none
  | .IsSet _ => some r

/-- A sequence of calls that all return. -/
def runCalls (parseInt : ParseIntFn) : List Call → Session → Option Session
  | [], r => some r
  | c :: cs, r =>
    match c.step parseInt r with
    | some r1 => runCalls parseInt cs r1
    | none => none

/-- A call of `Init` passes a defined policy. -/
def Call.Defined : Call → Prop
  | .Init _ errorHandling => DefinedPolicy errorHandling
  | _ => True

/-- The value passed at the first registration of the name that returned nil. -/
def firstRegistered (log : List (String × Value)) (name : String) : Option Value :=
  (log.find? (fun p => p.1 == name)).map (fun p => p.2)

/-- Well-formedness of the registry against the record of registrations. -/
def WellFormed (r : Session) : Prop :=
  DefinedPolicy r.set.errorHandling ∧
  (r.set.pfx = "" ∨ matchRegexpString r.set.pfx = true) ∧
  ∀ k, (firstRegistered r.log k = none → r.set.envs k = none) ∧
    (∀ v, firstRegistered r.log k = some v → matchRegexpString k = true ∧
      ∃ env, r.set.envs k = some (some env) ∧ env.Name = k ∧ env.Value = v)

/-- Whether the call is a call of `Parse`. -/
def Call.isParse : Call → Bool
  | .Parse _ _ => true
  | _ => false

/-- The calls of `TestEnvWithErrors` on its set, in order. -/
def errorsCalls : List Call :=
  [.SetPrefix "%.?/$", .Int64Var 0 "TEST_INT64", .Int64Var 1 "%.?/$",
    .Int64Var 2 "DUPLICATE", .Int64Var 2 "DUPLICATE", .IsSet "UNDEFINED_ENV",
    .Parse errorsEnviron ["DUPLICATE", "TEST_INT64"]]

/-- The session `TestEnvWithErrors` ends in. -/
def errorsSession : Session :=
  { set := errorsSetFailed.1, heap := errorsSetFailed.2,
    log := [("TEST_INT64", .intValue 0), ("DUPLICATE", .intValue 2)] }

/-- The state left by a second `Parse` after `testSetParsed`, under `errorsEnviron`: it
visits `TEST_STRING`, then fails on `TEST_INT64`. -/
def testSetReparsed : EnvSet × Heap :=
  (markSet testSetParsed.1 "TEST_STRING" { testStringEnv with isSet := true },
    testSetParsed.2)

def partialEnvA : Env := { Name := "A", Value := .intValue 0, isSet := false }

def partialEnvB : Env := { Name := "B", Value := .intValue 1, isSet := false }

def partialEnvC : Env := { Name := "C", Value := .stringValue 0, isSet := false }

/-- A set with three registrations bound to three distinct cells. -/
def partialSet : EnvSet :=
  { name := "partial", errorHandling := ContinueOnError,
    envs := mapStore (mapStore (mapStore (fun _ => none) "A" (some partialEnvA))
      "B" (some partialEnvB)) "C" (some partialEnvC),
    pfx := "", parsed := false }

def partialEnviron : Environ := fun k =>
  if k = "A" then some "5" else if k = "B" then some "not_a_number"
  else if k = "C" then some "later" else none

def sharedEnvC : Env := { Name := "C", Value := .intValue 0, isSet := false }

/-- The set `partialSet` with `C` bound to the cell of `A` instead. -/
def sharedSet : EnvSet :=
  { name := "shared", errorHandling := ContinueOnError,
    envs := mapStore (mapStore (mapStore (fun _ => none) "A" (some partialEnvA))
      "B" (some partialEnvB)) "C" (some sharedEnvC),
    pfx := "", parsed := false }

/-- The state `sharedSet` is left in when `Parse` visits `A`, then fails on `B`. -/
def sharedSetFailed : EnvSet × Heap :=
  (markSet sharedSet "A" partialEnvA, (intValue_Set parseIntBase0 0 "5" heapZero).1)

/-- The field with its `env` tag removed. -/
def withoutEnvTag (f : StructField) : StructField :=
  { f with Tag := fun k => if k = "env" then "" else f.Tag k }

/-- Every key of the set matches the pattern and is the `env` tag of the first of the
fields `pre` that carries it, bound to the cell of that field; and the `env` tag of every
field of `pre`, when it matches the pattern, is a key. -/
def FirstFields (pre : List StructField) (e : EnvSet) : Prop :=
  (∀ n, e.envs n ≠ none → matchRegexpString n = true ∧
    ∃ j f v, pre[j]? = some f ∧ f.Tag "env" = n ∧ fieldValue j f = some v ∧
      boundTo e n = some v ∧ ∀ k g, k < j → pre[k]? = some g → g.Tag "env" ≠ n) ∧
  (∀ (k : Nat) (g : StructField), pre[k]? = some g →
    matchRegexpString (g.Tag "env") = true → e.envs (g.Tag "env") ≠ none)

/-- The field `Y int64` with the tags `arg:"y"` and `env:"X"`, the `env` tag of `X`. -/
def yField : StructField :=
  { Name := "Y", Kind := .Int64,
    Tag := fun k => if k = "arg" then "y" else if k = "env" then "X" else "" }

/-- The field `Z string` with the tags `arg:"z"` and `env:"BAD!NAME"`. -/
def zField : StructField :=
  { Name := "Z", Kind := .String,
    Tag := fun k => if k = "arg" then "z" else if k = "env" then "BAD!NAME" else "" }

def dropConfig : Config := { Name := "Options", fields := [xField, yField, zField] }

/-- The environment `X=2`, `BAD!NAME=ignored`. -/
def dropEnviron : Environ := fun k =>
  if k = "X" then some "2" else if k = "BAD!NAME" then some "ignored" else none

/-- Memory after the flag pass on `dropConfig` with the arguments `--x=1 --y=7`. -/
def dropHeapAfterFlags : Heap :=
  (((((heapZero.storeInt 0 0).storeInt 1 0).storeString 2 "").storeInt 0 1).storeInt 1 7)

/-- The state the binder reaches after `Parse` on `dropConfig`. -/
def dropParsed : parser (List Flag) × Heap :=
  ({ flagSet := [⟨"x", true, 0⟩, ⟨"y", true, 1⟩, ⟨"z", false, 2⟩],
     envSet := { markSet (registered (NewEnvSet "Options" ContinueOnError) (.intValue 0) "X")
       "X" ⟨"X", .intValue 0, false⟩ with parsed := true },
     config := dropConfig },
    (intValue_Set parseIntBase0 0 "2" dropHeapAfterFlags).1)

/-- The registrations of `TestEnvWithErrors` under the stored prefix `PREFIX`. -/
def prefixErrorsSet : EnvSet :=
  { name := "testWithErrors", errorHandling := ContinueOnError,
    envs := mapStore (mapStore (fun _ => none) "TEST_INT64" (some testInt64Env))
      "DUPLICATE" (some duplicateEnv),
    pfx := "PREFIX", parsed := false }

/-- An environment where the prefixed `PREFIX_TEST_INT64` is not a number and the
unprefixed `TEST_INT64` is one. -/
def prefixErrorsEnviron : Environ := fun k =>
  if k = "PREFIX_TEST_INT64" then some "not_a_number"
  else if k = "TEST_INT64" then some "42" else none

/-- The state `prefixErrorsSet` is left in when `Parse` visits `DUPLICATE`, then fails
on `TEST_INT64`. -/
def prefixErrorsFailed : EnvSet × Heap :=
  (markSet prefixErrorsSet "DUPLICATE" duplicateEnv, heapZero)

/-- The set left by `Var(v, "BAD!NAME")` on a set built with the policy value -1. -/
def undefinedPolicySet : EnvSet :=
  { NewEnvSet "test" (-1) with envs := mapStore (fun _ => none) "BAD!NAME" none }

/-- A record in which the flag `x` is defined twice before the unsupported `Verbose`. -/
def redefinedConfig : Config := { Name := "Options", fields := [xField, xField, boolField] }

/-- The binder state `Parse` panics in on `redefinedConfig`: the first `X` is registered,
the second definition of its flag panics. -/
def redefinedPanicState : parser (List Flag) × Heap :=
  ({ flagSet := [⟨"x", true, 0⟩],
     envSet := registered (NewEnvSet "Options" ContinueOnError) (.intValue 0) "X",
     config := redefinedConfig },
    heapZero.storeInt 0 0)

/-! ## Integer literals, after the specification

The specification describes the integer conversion as a base-prefix-sensitive parse
(`0x`, `0` octal, and so on) at the platform integer width, on which any non-numeric or
overflowing input fails. The definitions below state what a valid integer literal is
and the number it denotes, following Go's syntax for integer literals with an optional
sign in front; they are written from that description, independently of the code of
`strconv`, and are compared with `ParseInt` by the theorems on `literalInt`. -/

/-- The value of a character as a digit: `0`-`9`, then the letters in either case
from ten on. -/
def digitValue (c : Char) : Option Nat :=
  if '0'.toNat ≤ c.toNat ∧ c.toNat ≤ '9'.toNat then some (c.toNat - '0'.toNat)
  else if 'a'.toNat ≤ c.toNat ∧ c.toNat ≤ 'z'.toNat then some (c.toNat - 'a'.toNat + 10)
  else if 'A'.toNat ≤ c.toNat ∧ c.toNat ≤ 'Z'.toNat then some (c.toNat - 'A'.toNat + 10)
  else none

/-- The number written by the rest of a run of digits of `base`, a single underscore
being allowed between two digits: `sep` says the last character was an underscore (a
digit has to follow), `n` is the number written so far. -/
def digitsValue (base : Nat) : List Char → Bool → Nat → Option Nat
  | [], sep, n => if sep then none else some n
  | c :: cs, sep, n =>
    if c = '_' then
      if sep then none else digitsValue base cs true n
    else
      match digitValue c with
      | some d => if d < base then digitsValue base cs false (n * base + d) else none
      | none => none

/-- The number an unsigned integer literal denotes: `0b`, `0o` and `0x` (in either
case) introduce binary, octal and hexadecimal digits, of which there is at least one,
a leading `0` introduces octal digits, any other literal is decimal and starts with a
digit. `none` when the text is not a literal. -/
def literalNat : List Char → Option Nat
  | '0' :: c1 :: c2 :: cs =>
    if c1 = 'b' ∨ c1 = 'B' then digitsValue 2 (c2 :: cs) false 0
    else if c1 = 'o' ∨ c1 = 'O' then digitsValue 8 (c2 :: cs) false 0
    else if c1 = 'x' ∨ c1 = 'X' then digitsValue 16 (c2 :: cs) false 0
    else digitsValue 8 (c1 :: c2 :: cs) false 0
  | '0' :: cs => digitsValue 8 cs false 0
  | c :: cs =>
    if c = '_' then none
    else
      match digitValue c with
      | some d => if d < 10 then digitsValue 10 cs false d else none
      | none => none
  | [] => none

/-- The integer a text denotes as an integer literal with an optional sign, `none`
when the text is not one. -/
def literalInt (s : String) : Option Int :=
  match s.data with
  | '-' :: cs => Option.map (fun (n : Nat) => - (n : Int)) (literalNat cs)
  | '+' :: cs => Option.map (fun (n : Nat) => (n : Int)) (literalNat cs)
  | cs => Option.map (fun (n : Nat) => (n : Int)) (literalNat cs)

/-- The integers of the platform integer width (64 bits). -/
def inIntRange (v : Int) : Prop := - 2 ^ 63 ≤ v ∧ v < 2 ^ 63

/-! ## Lemmas on conversion -/

theorem Value.Set_err_indep (parseInt : ParseIntFn) (v : Value) (s : String) (h h0 : Heap) :
    (v.Set parseInt s h).2 = (v.Set parseInt s h0).2 := by
  cases v with
  | stringValue p => rfl
  | intValue p =>
    simp only [Value.Set, intValue_Set]
    cases parseInt s <;> rfl

theorem Value.Set_fail_heap (parseInt : ParseIntFn) (v : Value) (s : String) (h : Heap)
    (hf : (v.Set parseInt s h).2 ≠ none) : (v.Set parseInt s h).1 = h := by
  cases v with
  | stringValue p => simp [Value.Set, stringValue_Set] at hf
  | intValue p =>
    simp only [Value.Set, intValue_Set] at hf ⊢
    cases hp : parseInt s <;> simp_all

theorem Value.Set_frame (parseInt : ParseIntFn) (v w : Value) (s : String) (h : Heap)
    (hne : w ≠ v) : v.Get (w.Set parseInt s h).1 = v.Get h := by
  cases w with
  | stringValue q =>
    cases v with
    | stringValue p =>
      have : p ≠ q := fun hpq => hne (by rw [hpq])
      simp [Value.Set, stringValue_Set, Value.Get, this]
    | intValue p => rfl
  | intValue q =>
    cases v with
    | stringValue p =>
      simp only [Value.Set, intValue_Set, Value.Get]
      cases parseInt s <;> rfl
    | intValue p =>
      have : p ≠ q := fun hpq => hne (by rw [hpq])
      simp only [Value.Set, intValue_Set, Value.Get]
      cases parseInt s <;> simp [this]

/-! ## Lemmas on the loop of `Parse` -/

theorem fullname_markSet (e : EnvSet) (name : String) (env : Env) (n : String) :
    fullname (markSet e name env) n = fullname e n := rfl

theorem boundTo_markSet (e : EnvSet) (name : String) (env : Env)
    (he : e.envs name = some (some env)) : boundTo (markSet e name env) = boundTo e := by
  funext n
  by_cases hn : n = name
  · subst hn; simp [boundTo, markSet, mapStore, he]
  · simp [boundTo, markSet, mapStore, hn]

theorem Parse_nil (environ : Environ) (parseInt : ParseIntFn) (e : EnvSet) (h : Heap) :
    EnvSet.Parse environ parseInt [] e h = .ret ({ e with parsed := true }, h) none := rfl

theorem Parse_cons_absent (environ : Environ) (parseInt : ParseIntFn) (name : String)
    (rest : List String) (e : EnvSet) (h : Heap) (he : e.envs name = none) :
    EnvSet.Parse environ parseInt (name :: rest) e h
      = EnvSet.Parse environ parseInt rest e h := by
  simp [EnvSet.Parse, he]

theorem Parse_cons_nilEnv (environ : Environ) (parseInt : ParseIntFn) (name : String)
    (rest : List String) (e : EnvSet) (h : Heap) (he : e.envs name = some none) :
    EnvSet.Parse environ parseInt (name :: rest) e h = .panic (e, h) nilDereference := by
  simp [EnvSet.Parse, he]

/-- A visit that reads an empty value, or converts successfully: flag set, loop goes on. -/
theorem Parse_cons_ok (environ : Environ) (parseInt : ParseIntFn) (name : String)
    (rest : List String) (e : EnvSet) (h : Heap) (env : Env)
    (he : e.envs name = some (some env))
    (hok : Getenv environ (fullname e name) = "" ∨
      (env.Value.Set parseInt (Getenv environ (fullname e name)) h).2 = none) :
    EnvSet.Parse environ parseInt (name :: rest) e h
      = EnvSet.Parse environ parseInt rest (markSet e name env)
          (if Getenv environ (fullname e name) ≠ "" then
            (env.Value.Set parseInt (Getenv environ (fullname e name)) h).1 else h) := by
  by_cases hv : Getenv environ (fullname e name) = ""
  · simp [EnvSet.Parse, he, hv]
  · have h2 := hok.resolve_left hv
    simp only [EnvSet.Parse, he, ne_eq, hv, not_false_eq_true, if_true]
    generalize env.Value.Set parseInt (Getenv environ (fullname e name)) h = r at h2 ⊢
    obtain ⟨h1, err⟩ := r
    simp only at h2
    subst h2
    rfl

/-- A visit whose conversion fails: the policy decides. -/
theorem Parse_cons_fail (environ : Environ) (parseInt : ParseIntFn) (name : String)
    (rest : List String) (e : EnvSet) (h : Heap) (env : Env) (inner : Error)
    (he : e.envs name = some (some env))
    (hv : Getenv environ (fullname e name) ≠ "")
    (hf : (env.Value.Set parseInt (Getenv environ (fullname e name)) h).2 = some inner) :
    EnvSet.Parse environ parseInt (name :: rest) e h
      = if e.errorHandling = ContinueOnError then
          .ret (e, h)
            (some ("Parse: error while parsing env: " ++ fullname e name ++ ": " ++ inner))
        else if e.errorHandling = ExitOnError then
          .exit ("Parse: error while parsing env: " ++ fullname e name ++ ": " ++ inner
            ++ "\n") 2
        else if e.errorHandling = PanicOnError then
          .panic (e, h)
            ("Parse: error while parsing env: " ++ fullname e name ++ ": " ++ inner)
        else EnvSet.Parse environ parseInt rest e h := by
  have hh := Value.Set_fail_heap parseInt env.Value _ h (by rw [hf]; simp)
  simp only [EnvSet.Parse, he, ne_eq, hv, not_false_eq_true, if_true]
  generalize env.Value.Set parseInt (Getenv environ (fullname e name)) h = r at hf hh ⊢
  obtain ⟨h1, err⟩ := r
  simp only at hf hh
  subst hf hh
  rfl

/-- Cells that no successful conversion of the pass targets keep their content. -/
theorem Parse_frame (environ : Environ) (parseInt : ParseIntFn) (v : Value) (h0 : Heap)
    (order : List String) : ∀ (e : EnvSet) (h : Heap) (s : EnvSet × Heap),
    (∀ m ∈ order, boundTo e m = some v →
      Getenv environ (fullname e m) = "" ∨
      (v.Set parseInt (Getenv environ (fullname e m)) h0).2 ≠ none) →
    (EnvSet.Parse environ parseInt order e h).state? = some s →
    v.Get s.2 = v.Get h := by
  induction order with
  | nil =>
    intro e h s _ hs
    simp only [Parse_nil, Outcome.state?, Option.some.injEq] at hs
    rw [← hs]
  | cons name rest ih =>
    intro e h s hq hs
    have hq' : ∀ m ∈ rest, boundTo e m = some v →
        Getenv environ (fullname e m) = "" ∨
        (v.Set parseInt (Getenv environ (fullname e m)) h0).2 ≠ none :=
      fun m hm => hq m (List.mem_cons_of_mem _ hm)
    cases he : e.envs name with
    | none =>
      rw [Parse_cons_absent _ _ _ _ _ _ he] at hs
      exact ih e h s hq' hs
    | some envp =>
      cases envp with
      | none =>
        rw [Parse_cons_nilEnv _ _ _ _ _ _ he] at hs
        simp only [Outcome.state?, Option.some.injEq] at hs
        rw [← hs]
      | some env =>
        have hq1 : ∀ m ∈ rest, boundTo (markSet e name env) m = some v →
            Getenv environ (fullname (markSet e name env) m) = "" ∨
            (v.Set parseInt (Getenv environ (fullname (markSet e name env) m)) h0).2
              ≠ none := by
          intro m hm hb
          rw [boundTo_markSet e name env he] at hb
          exact hq' m hm hb
        by_cases hv : Getenv environ (fullname e name) = ""
        · rw [Parse_cons_ok _ _ _ _ _ _ env he (Or.inl hv)] at hs
          simp only [ne_eq, hv, not_true_eq_false, if_false] at hs
          exact ih _ h s hq1 hs
        · cases hS : (env.Value.Set parseInt (Getenv environ (fullname e name)) h).2 with
          | none =>
            rw [Parse_cons_ok _ _ _ _ _ _ env he (Or.inr hS)] at hs
            simp only [ne_eq, hv, not_false_eq_true, if_true] at hs
            rw [ih _ _ s hq1 hs]
            apply Value.Set_frame
            intro hev
            have hb : boundTo e name = some v := by simp [boundTo, he, hev]
            rcases hq name (List.mem_cons_self _ _) hb with h1 | h1
            · exact hv h1
            · rw [← hev, Value.Set_err_indep parseInt env.Value _ h0 h, hS] at h1
              exact h1 rfl
          | some inner =>
            rw [Parse_cons_fail _ _ _ _ _ _ env inner he hv hS] at hs
            split at hs
            · simp only [Outcome.state?, Option.some.injEq] at hs
              rw [← hs]
            · split at hs
              · simp [Outcome.state?] at hs
              · split at hs
                · simp only [Outcome.state?, Option.some.injEq] at hs
                  rw [← hs]
                · exact ih e h s hq' hs

/-- What a pass never changes: label, policy, stored prefix, and which value each
name is bound to. -/
theorem Parse_preserves (environ : Environ) (parseInt : ParseIntFn)
    (order : List String) : ∀ (e : EnvSet) (h : Heap) (s : EnvSet × Heap),
    (EnvSet.Parse environ parseInt order e h).state? = some s →
    s.1.name = e.name ∧ s.1.errorHandling = e.errorHandling ∧ s.1.pfx = e.pfx ∧
      boundTo s.1 = boundTo e := by
  induction order with
  | nil =>
    intro e h s hs
    simp only [Parse_nil, Outcome.state?, Option.some.injEq] at hs
    rw [← hs]
    exact ⟨rfl, rfl, rfl, rfl⟩
  | cons name rest ih =>
    intro e h s hs
    cases he : e.envs name with
    | none =>
      rw [Parse_cons_absent _ _ _ _ _ _ he] at hs
      exact ih e h s hs
    | some envp =>
      cases envp with
      | none =>
        rw [Parse_cons_nilEnv _ _ _ _ _ _ he] at hs
        simp only [Outcome.state?, Option.some.injEq] at hs
        rw [← hs]
        exact ⟨rfl, rfl, rfl, rfl⟩
      | some env =>
        by_cases hok : Getenv environ (fullname e name) = "" ∨
            (env.Value.Set parseInt (Getenv environ (fullname e name)) h).2 = none
        · rw [Parse_cons_ok _ _ _ _ _ _ env he hok] at hs
          obtain ⟨h1, h2, h3, h4⟩ := ih _ _ s hs
          exact ⟨h1, h2, h3, by rw [h4, boundTo_markSet e name env he]⟩
        · rw [not_or] at hok
          obtain ⟨hv, hS⟩ := hok
          obtain ⟨inner, hS⟩ := Option.ne_none_iff_exists'.mp hS
          rw [Parse_cons_fail _ _ _ _ _ _ env inner he hv hS] at hs
          split at hs
          · simp only [Outcome.state?, Option.some.injEq] at hs
            rw [← hs]
            exact ⟨rfl, rfl, rfl, rfl⟩
          · split at hs
            · simp [Outcome.state?] at hs
            · split at hs
              · simp only [Outcome.state?, Option.some.injEq] at hs
                rw [← hs]
                exact ⟨rfl, rfl, rfl, rfl⟩
              · exact ih e h s hs

theorem flagOf_markSet_ne (e : EnvSet) (name : String) (env : Env) (n : String)
    (hn : n ≠ name) : flagOf (markSet e name env) n = flagOf e n := by
  simp [flagOf, markSet, mapStore, hn]

theorem flagOf_markSet_self (e : EnvSet) (name : String) (env : Env) :
    flagOf (markSet e name env) name = some true := by
  simp [flagOf, markSet, mapStore]

/-- A flag that is set stays set through a pass. -/
theorem Parse_flag_mono (environ : Environ) (parseInt : ParseIntFn) (n : String)
    (order : List String) : ∀ (e : EnvSet) (h : Heap) (s : EnvSet × Heap),
    flagOf e n = some true →
    (EnvSet.Parse environ parseInt order e h).state? = some s →
    flagOf s.1 n = some true := by
  induction order with
  | nil =>
    intro e h s hf hs
    simp only [Parse_nil, Outcome.state?, Option.some.injEq] at hs
    rw [← hs]
    exact hf
  | cons name rest ih =>
    intro e h s hf hs
    cases he : e.envs name with
    | none =>
      rw [Parse_cons_absent _ _ _ _ _ _ he] at hs
      exact ih e h s hf hs
    | some envp =>
      cases envp with
      | none =>
        rw [Parse_cons_nilEnv _ _ _ _ _ _ he] at hs
        simp only [Outcome.state?, Option.some.injEq] at hs
        rw [← hs]
        exact hf
      | some env =>
        by_cases hok : Getenv environ (fullname e name) = "" ∨
            (env.Value.Set parseInt (Getenv environ (fullname e name)) h).2 = none
        · rw [Parse_cons_ok _ _ _ _ _ _ env he hok] at hs
          refine ih _ _ s ?_ hs
          by_cases hn : n = name
          · rw [hn]; exact flagOf_markSet_self e name env
          · rw [flagOf_markSet_ne e name env n hn]; exact hf
        · rw [not_or] at hok
          obtain ⟨hv, hS⟩ := hok
          obtain ⟨inner, hS⟩ := Option.ne_none_iff_exists'.mp hS
          rw [Parse_cons_fail _ _ _ _ _ _ env inner he hv hS] at hs
          split at hs
          · simp only [Outcome.state?, Option.some.injEq] at hs
            rw [← hs]
            exact hf
          · split at hs
            · simp [Outcome.state?] at hs
            · split at hs
              · simp only [Outcome.state?, Option.some.injEq] at hs
                rw [← hs]
                exact hf
              · exact ih e h s hf hs

/-- A pass that returns nil has set the flag of every visited name whose value was
empty or converted successfully. -/
theorem Parse_marks (environ : Environ) (parseInt : ParseIntFn) (n : String) (v : Value)
    (h0 : Heap) (order : List String) : ∀ (e : EnvSet) (h : Heap) (s : EnvSet × Heap),
    n ∈ order → boundTo e n = some v →
    (Getenv environ (fullname e n) = "" ∨
      (v.Set parseInt (Getenv environ (fullname e n)) h0).2 = none) →
    EnvSet.Parse environ parseInt order e h = .ret s none →
    flagOf s.1 n = some true := by
  induction order with
  | nil => intro e h s hn; simp at hn
  | cons name rest ih =>
    intro e h s hn hb hacc hs
    cases he : e.envs name with
    | none =>
      rw [Parse_cons_absent _ _ _ _ _ _ he] at hs
      have hne : n ≠ name := by
        intro hnn; rw [hnn] at hb; simp [boundTo, he] at hb
      exact ih e h s ((List.mem_cons.mp hn).resolve_left hne) hb hacc hs
    | some envp =>
      cases envp with
      | none =>
        rw [Parse_cons_nilEnv _ _ _ _ _ _ he] at hs
        simp at hs
      | some env =>
        by_cases hok : Getenv environ (fullname e name) = "" ∨
            (env.Value.Set parseInt (Getenv environ (fullname e name)) h).2 = none
        · rw [Parse_cons_ok _ _ _ _ _ _ env he hok] at hs
          by_cases hnn : n = name
          · apply Parse_flag_mono environ parseInt n rest _ _ s _ (by rw [hs]; rfl)
            rw [hnn]; exact flagOf_markSet_self e name env
          · refine ih (markSet e name env) _ s ((List.mem_cons.mp hn).resolve_left hnn)
              ?_ hacc hs
            rw [boundTo_markSet e name env he]; exact hb
        · rw [not_or] at hok
          obtain ⟨hv, hS⟩ := hok
          have hne : n ≠ name := by
            intro hnn
            rw [hnn] at hb hacc
            simp only [boundTo, he, Option.some.injEq] at hb
            rw [← hb, Value.Set_err_indep parseInt env.Value _ h0 h] at hacc
            rcases hacc with h1 | h1
            · exact hv h1
            · exact hS h1
          obtain ⟨inner, hS⟩ := Option.ne_none_iff_exists'.mp hS
          rw [Parse_cons_fail _ _ _ _ _ _ env inner he hv hS] at hs
          split at hs
          · simp at hs
          · split at hs
            · simp at hs
            · split at hs
              · simp at hs
              · exact ih e h s ((List.mem_cons.mp hn).resolve_left hne) hb hacc hs

/-- A name that is not visited, or whose non-empty value is rejected, keeps its flag. -/
theorem Parse_flag_frame (environ : Environ) (parseInt : ParseIntFn) (n : String)
    (h0 : Heap) (order : List String) : ∀ (e : EnvSet) (h : Heap) (s : EnvSet × Heap),
    (n ∈ order → ∃ v, boundTo e n = some v ∧ Getenv environ (fullname e n) ≠ "" ∧
      (v.Set parseInt (Getenv environ (fullname e n)) h0).2 ≠ none) →
    (EnvSet.Parse environ parseInt order e h).state? = some s →
    flagOf s.1 n = flagOf e n := by
  induction order with
  | nil =>
    intro e h s _ hs
    simp only [Parse_nil, Outcome.state?, Option.some.injEq] at hs
    rw [← hs]
    rfl
  | cons name rest ih =>
    intro e h s hq hs
    have hq' : n ∈ rest → ∃ v, boundTo e n = some v ∧ Getenv environ (fullname e n) ≠ "" ∧
        (v.Set parseInt (Getenv environ (fullname e n)) h0).2 ≠ none :=
      fun hm => hq (List.mem_cons_of_mem _ hm)
    cases he : e.envs name with
    | none =>
      rw [Parse_cons_absent _ _ _ _ _ _ he] at hs
      exact ih e h s hq' hs
    | some envp =>
      cases envp with
      | none =>
        rw [Parse_cons_nilEnv _ _ _ _ _ _ he] at hs
        simp only [Outcome.state?, Option.some.injEq] at hs
        rw [← hs]
      | some env =>
        by_cases hok : Getenv environ (fullname e name) = "" ∨
            (env.Value.Set parseInt (Getenv environ (fullname e name)) h).2 = none
        · rw [Parse_cons_ok _ _ _ _ _ _ env he hok] at hs
          have hne : n ≠ name := by
            intro hnn
            obtain ⟨v, hb, hv, hS⟩ := hq (by rw [hnn]; exact List.mem_cons_self _ _)
            rw [hnn] at hb hv hS
            simp only [boundTo, he, Option.some.injEq] at hb
            rw [← hb, Value.Set_err_indep parseInt env.Value _ h0 h] at hS
            rcases hok with h1 | h1
            · exact hv h1
            · exact hS h1
          rw [← flagOf_markSet_ne e name env n hne]
          refine ih (markSet e name env) _ s ?_ hs
          intro hm
          obtain ⟨v, hb, hv, hS⟩ := hq' hm
          exact ⟨v, by rw [boundTo_markSet e name env he]; exact hb, hv, hS⟩
        · rw [not_or] at hok
          obtain ⟨hv, hS⟩ := hok
          obtain ⟨inner, hS⟩ := Option.ne_none_iff_exists'.mp hS
          rw [Parse_cons_fail _ _ _ _ _ _ env inner he hv hS] at hs
          split at hs
          · simp only [Outcome.state?, Option.some.injEq] at hs
            rw [← hs]
          · split at hs
            · simp [Outcome.state?] at hs
            · split at hs
              · simp only [Outcome.state?, Option.some.injEq] at hs
                rw [← hs]
              · exact ih e h s hq' hs

theorem Value.Set_get_indep (parseInt : ParseIntFn) (v : Value) (x : String) (h h0 : Heap)
    (hok : (v.Set parseInt x h).2 = none) :
    v.Get (v.Set parseInt x h).1 = v.Get (v.Set parseInt x h0).1 := by
  cases v with
  | stringValue p => simp [Value.Set, stringValue_Set, Value.Get]
  | intValue p =>
    simp only [Value.Set, intValue_Set, Value.Get] at hok ⊢
    cases hp : parseInt x <;> simp_all

/-- A pass that returns nil leaves in a cell the conversion of the value read for the
only visited name bound to it. -/
theorem Parse_cell (environ : Environ) (parseInt : ParseIntFn) (n : String) (v : Value)
    (h0 : Heap) (order : List String) : ∀ (e : EnvSet) (h : Heap) (s : EnvSet × Heap),
    n ∈ order → boundTo e n = some v → Getenv environ (fullname e n) ≠ "" →
    (v.Set parseInt (Getenv environ (fullname e n)) h0).2 = none →
    (∀ m ∈ order, m ≠ n → boundTo e m ≠ some v) →
    EnvSet.Parse environ parseInt order e h = .ret s none →
    v.Get s.2 = v.Get (v.Set parseInt (Getenv environ (fullname e n)) h0).1 := by
  induction order with
  | nil => intro e h s hn; simp at hn
  | cons name rest ih =>
    intro e h s hn hb hv hacc hd hs
    have hd' : ∀ m ∈ rest, m ≠ n → boundTo e m ≠ some v :=
      fun m hm => hd m (List.mem_cons_of_mem _ hm)
    cases he : e.envs name with
    | none =>
      rw [Parse_cons_absent _ _ _ _ _ _ he] at hs
      have hne : n ≠ name := by
        intro hnn; rw [hnn] at hb; simp [boundTo, he] at hb
      exact ih e h s ((List.mem_cons.mp hn).resolve_left hne) hb hv hacc hd' hs
    | some envp =>
      cases envp with
      | none =>
        rw [Parse_cons_nilEnv _ _ _ _ _ _ he] at hs
        simp at hs
      | some env =>
        have hd1 : ∀ m ∈ rest, m ≠ n → boundTo (markSet e name env) m ≠ some v := by
          intro m hm hmn
          rw [boundTo_markSet e name env he]
          exact hd' m hm hmn
        have hb1 : boundTo (markSet e name env) n = some v := by
          rw [boundTo_markSet e name env he]; exact hb
        by_cases hok : Getenv environ (fullname e name) = "" ∨
            (env.Value.Set parseInt (Getenv environ (fullname e name)) h).2 = none
        · rw [Parse_cons_ok _ _ _ _ _ _ env he hok] at hs
          by_cases hnn : n = name
          · by_cases hnr : n ∈ rest
            · exact ih (markSet e name env) _ s hnr hb1 hv hacc hd1 hs
            · have hev : env.Value = v := by
                rw [hnn] at hb
                simpa [boundTo, he] using hb
              have hfr := Parse_frame environ parseInt v h0 rest (markSet e name env) _ s
                (fun m hm hbm => absurd hbm
                  (hd1 m hm (fun hmn => hnr (by rw [← hmn]; exact hm))))
                (by rw [hs]; rfl)
              rw [hfr, ← hnn, if_pos hv, hev]
              apply Value.Set_get_indep
              rw [Value.Set_err_indep parseInt v _ h h0]
              exact hacc
          · exact ih (markSet e name env) _ s ((List.mem_cons.mp hn).resolve_left hnn)
              hb1 hv hacc hd1 hs
        · rw [not_or] at hok
          obtain ⟨hv1, hS⟩ := hok
          have hne : n ≠ name := by
            intro hnn
            rw [hnn] at hb hacc
            simp only [boundTo, he, Option.some.injEq] at hb
            rw [← hb, Value.Set_err_indep parseInt env.Value _ h0 h] at hacc
            exact hS hacc
          obtain ⟨inner, hS⟩ := Option.ne_none_iff_exists'.mp hS
          rw [Parse_cons_fail _ _ _ _ _ _ env inner he hv1 hS] at hs
          split at hs
          · simp at hs
          · split at hs
            · simp at hs
            · split at hs
              · simp at hs
              · exact ih e h s ((List.mem_cons.mp hn).resolve_left hne) hb hv hacc hd' hs

/-- The flag `parsed`: true after a pass that returns nil, as before the call after
a pass that returns an error. -/
theorem Parse_parsed (environ : Environ) (parseInt : ParseIntFn)
    (order : List String) : ∀ (e : EnvSet) (h : Heap) (s : EnvSet × Heap)
    (a : Option Error), EnvSet.Parse environ parseInt order e h = .ret s a →
    (a = none → s.1.parsed = true) ∧ (a ≠ none → s.1.parsed = e.parsed) := by
  induction order with
  | nil =>
    intro e h s a hs
    simp only [Parse_nil, Outcome.ret.injEq] at hs
    obtain ⟨h1, h2⟩ := hs
    rw [← h1, ← h2]
    simp
  | cons name rest ih =>
    intro e h s a hs
    cases he : e.envs name with
    | none =>
      rw [Parse_cons_absent _ _ _ _ _ _ he] at hs
      exact ih e h s a hs
    | some envp =>
      cases envp with
      | none =>
        rw [Parse_cons_nilEnv _ _ _ _ _ _ he] at hs
        simp at hs
      | some env =>
        by_cases hok : Getenv environ (fullname e name) = "" ∨
            (env.Value.Set parseInt (Getenv environ (fullname e name)) h).2 = none
        · rw [Parse_cons_ok _ _ _ _ _ _ env he hok] at hs
          exact ih (markSet e name env) _ s a hs
        · rw [not_or] at hok
          obtain ⟨hv1, hS⟩ := hok
          obtain ⟨inner, hS⟩ := Option.ne_none_iff_exists'.mp hS
          rw [Parse_cons_fail _ _ _ _ _ _ env inner he hv1 hS] at hs
          split at hs
          · simp only [Outcome.ret.injEq] at hs
            obtain ⟨h1, h2⟩ := hs
            rw [← h1, ← h2]
            simp
          · split at hs
            · simp at hs
            · split at hs
              · simp at hs
              · exact ih e h s a hs

/-- An error returned by a pass comes from a visited name whose non-empty value its
bound value rejects, and its message carries the variable that was read. -/
theorem Parse_error_sound (environ : Environ) (parseInt : ParseIntFn) (h0 : Heap)
    (order : List String) : ∀ (e : EnvSet) (h : Heap) (s : EnvSet × Heap) (msg : Error),
    EnvSet.Parse environ parseInt order e h = .ret s (some msg) →
    ∃ n ∈ order, ∃ v inner, boundTo e n = some v ∧
      Getenv environ (fullname e n) ≠ "" ∧
      (v.Set parseInt (Getenv environ (fullname e n)) h0).2 = some inner ∧
      msg = "Parse: error while parsing env: " ++ fullname e n ++ ": " ++ inner := by
  induction order with
  | nil => intro e h s msg hs; simp [Parse_nil] at hs
  | cons name rest ih =>
    intro e h s msg hs
    have lift : (∃ n ∈ rest, ∃ v inner, boundTo e n = some v ∧
        Getenv environ (fullname e n) ≠ "" ∧
        (v.Set parseInt (Getenv environ (fullname e n)) h0).2 = some inner ∧
        msg = "Parse: error while parsing env: " ++ fullname e n ++ ": " ++ inner) →
        ∃ n ∈ name :: rest, ∃ v inner, boundTo e n = some v ∧
        Getenv environ (fullname e n) ≠ "" ∧
        (v.Set parseInt (Getenv environ (fullname e n)) h0).2 = some inner ∧
        msg = "Parse: error while parsing env: " ++ fullname e n ++ ": " ++ inner := by
      rintro ⟨n, hn, rest1⟩
      exact ⟨n, List.mem_cons_of_mem _ hn, rest1⟩
    cases he : e.envs name with
    | none =>
      rw [Parse_cons_absent _ _ _ _ _ _ he] at hs
      exact lift (ih e h s msg hs)
    | some envp =>
      cases envp with
      | none =>
        rw [Parse_cons_nilEnv _ _ _ _ _ _ he] at hs
        simp at hs
      | some env =>
        by_cases hok : Getenv environ (fullname e name) = "" ∨
            (env.Value.Set parseInt (Getenv environ (fullname e name)) h).2 = none
        · rw [Parse_cons_ok _ _ _ _ _ _ env he hok] at hs
          obtain ⟨n, hn, v, inner, hb, r⟩ := ih (markSet e name env) _ s msg hs
          rw [boundTo_markSet e name env he] at hb
          exact lift ⟨n, hn, v, inner, hb, r⟩
        · rw [not_or] at hok
          obtain ⟨hv1, hS⟩ := hok
          obtain ⟨inner, hS⟩ := Option.ne_none_iff_exists'.mp hS
          rw [Parse_cons_fail _ _ _ _ _ _ env inner he hv1 hS] at hs
          split at hs
          · simp only [Outcome.ret.injEq, Option.some.injEq] at hs
            refine ⟨name, List.mem_cons_self _ _, env.Value, inner, ?_, hv1, ?_, hs.2.symm⟩
            · simp [boundTo, he]
            · rw [Value.Set_err_indep parseInt env.Value _ h0 h]; exact hS
          · split at hs
            · simp at hs
            · split at hs
              · simp at hs
              · exact lift (ih e h s msg hs)

/-- Under `ContinueOnError`, with no nil registration, a pass returns; it returns an
error as soon as some visited name has a non-empty value its bound value rejects. -/
theorem Parse_returns (environ : Environ) (parseInt : ParseIntFn) (h0 : Heap)
    (order : List String) : ∀ (e : EnvSet) (h : Heap),
    e.errorHandling = ContinueOnError →
    (∀ m ∈ order, e.envs m ≠ some none) →
    ∃ s a, EnvSet.Parse environ parseInt order e h = .ret s a ∧
      ((∃ n ∈ order, ∃ v, boundTo e n = some v ∧ Getenv environ (fullname e n) ≠ "" ∧
        (v.Set parseInt (Getenv environ (fullname e n)) h0).2 ≠ none) → a ≠ none) := by
  induction order with
  | nil =>
    intro e h _ _
    exact ⟨_, none, Parse_nil environ parseInt e h, by simp⟩
  | cons name rest ih =>
    intro e h hc hnil
    have hnil' : ∀ m ∈ rest, e.envs m ≠ some none :=
      fun m hm => hnil m (List.mem_cons_of_mem _ hm)
    cases he : e.envs name with
    | none =>
      obtain ⟨s, a, hs, ha⟩ := ih e h hc hnil'
      refine ⟨s, a, by rw [Parse_cons_absent _ _ _ _ _ _ he]; exact hs, ?_⟩
      rintro ⟨n, hn, v, hb, r⟩
      have hne : n ≠ name := by
        intro hnn; rw [hnn] at hb; simp [boundTo, he] at hb
      exact ha ⟨n, (List.mem_cons.mp hn).resolve_left hne, v, hb, r⟩
    | some envp =>
      cases envp with
      | none => exact absurd he (hnil name (List.mem_cons_self _ _))
      | some env =>
        by_cases hok : Getenv environ (fullname e name) = "" ∨
            (env.Value.Set parseInt (Getenv environ (fullname e name)) h).2 = none
        · have hnil1 : ∀ m ∈ rest, (markSet e name env).envs m ≠ some none := by
            intro m hm
            by_cases hmn : m = name
            · simp [markSet, mapStore, hmn]
            · simpa [markSet, mapStore, hmn] using hnil' m hm
          obtain ⟨s, a, hs, ha⟩ := ih (markSet e name env)
            (if Getenv environ (fullname e name) ≠ "" then
              (env.Value.Set parseInt (Getenv environ (fullname e name)) h).1 else h)
            hc hnil1
          refine ⟨s, a, by rw [Parse_cons_ok _ _ _ _ _ _ env he hok]; exact hs, ?_⟩
          rintro ⟨n, hn, v, hb, hv, hS⟩
          have hne : n ≠ name := by
            intro hnn
            rw [hnn] at hb hv hS
            simp only [boundTo, he, Option.some.injEq] at hb
            rw [← hb, Value.Set_err_indep parseInt env.Value _ h0 h] at hS
            rcases hok with h1 | h1
            · exact hv h1
            · exact hS h1
          refine ha ⟨n, (List.mem_cons.mp hn).resolve_left hne, v, ?_, hv, hS⟩
          rw [boundTo_markSet e name env he]; exact hb
        · rw [not_or] at hok
          obtain ⟨hv1, hS⟩ := hok
          obtain ⟨inner, hS⟩ := Option.ne_none_iff_exists'.mp hS
          exact ⟨(e, h),
            some ("Parse: error while parsing env: " ++ fullname e name ++ ": " ++ inner),
            by rw [Parse_cons_fail _ _ _ _ _ _ env inner he hv1 hS, if_pos hc],
            fun _ => Option.some_ne_none _⟩


theorem IsSet_of_flagOf (e : EnvSet) (n : String) (b : Bool) (hf : flagOf e n = some b) :
    e.IsSet n = (b, none) := by
  unfold flagOf at hf
  unfold EnvSet.IsSet
  split at hf
  · next env he =>
    simp only [Option.some.injEq] at hf
    simp [he, Env.IsSet, hf]
  · simp at hf

theorem boundTo_of_envs (e : EnvSet) (n : String) (env : Env)
    (he : e.envs n = some (some env)) : boundTo e n = some env.Value := by
  simp [boundTo, he]

theorem flagOf_of_envs (e : EnvSet) (n : String) (env : Env)
    (he : e.envs n = some (some env)) : flagOf e n = some env.isSet := by
  simp [flagOf, he]

theorem Getenv_of_some (environ : Environ) (k b : String) (hb : environ k = some b) :
    Getenv environ k = b := by
  simp [Getenv, hb]

theorem Getenv_of_absent_or_empty (environ : Environ) (k : String)
    (hb : environ k = none ∨ environ k = some "") : Getenv environ k = "" := by
  rcases hb with hb | hb <;> simp [Getenv, hb]

/-! ## Well-formed sets -/

theorem NewEnvSet_noNilEnv (name : String) (errorHandling : ErrorHandling) :
    NoNilEnv (NewEnvSet name errorHandling) := by
  intro n
  simp [NewEnvSet]

/-- Under the three defined policies `Var` never stores a nil pointer. -/
theorem Var_noNilEnv (e : EnvSet) (value : Value) (name : String) (s : EnvSet)
    (hp : e.errorHandling = ContinueOnError ∨ e.errorHandling = ExitOnError ∨
      e.errorHandling = PanicOnError)
    (hn : NoNilEnv e) (hs : (e.Var value name).state? = some s) : NoNilEnv s := by
  have hstore : NoNilEnv { e with envs := mapStore e.envs name (some ⟨name, value, false⟩) } := by
    intro k
    by_cases hk : k = name
    · simp [mapStore, hk]
    · simpa [mapStore, hk] using hn k
  have herr : ∀ msg, ∃ out, handleErrors e (some msg) = some out ∧
      (out.state? = none ∨ out.state? = some e) := by
    intro msg
    rcases hp with h | h | h
    · exact ⟨.ret e (some msg), by simp [handleErrors, h], Or.inr rfl⟩
    · refine ⟨.exit (msg ++ "\n") 2, ?_, Or.inl rfl⟩
      have h1 : ¬ (ExitOnError = ContinueOnError) := by decide
      simp [handleErrors, h, h1]
    · refine ⟨.panic e msg, ?_, Or.inr rfl⟩
      have h1 : ¬ (PanicOnError = ContinueOnError) := by decide
      have h2 : ¬ (PanicOnError = ExitOnError) := by decide
      simp [handleErrors, h, h1, h2]
  unfold EnvSet.Var at hs
  simp only [isValidEnvironment] at hs
  by_cases hm : matchRegexpString name = true
  · cases hx : e.envs name with
    | none =>
      simp only [hm, hx, Bool.not_true, Bool.false_eq_true, if_false, Option.isSome_none,
        handleErrors, Outcome.state?, Option.some.injEq] at hs
      rw [← hs]; exact hstore
    | some x =>
      obtain ⟨out, ho, hst⟩ := herr (e.name ++ " flag redefined: " ++ name)
      simp only [hm, hx, Bool.not_true, Bool.false_eq_true, if_false, Option.isSome_some,
        if_true, ho] at hs
      rcases hst with h1 | h1
      · rw [h1] at hs; simp at hs
      · rw [h1] at hs; rw [← Option.some.inj hs]; exact hn
  · obtain ⟨out, ho, hst⟩ := herr ("Var: env name " ++ name ++
      " does not conform to regular expression: " ++ regexpString)
    simp only [Bool.not_eq_true] at hm
    simp only [hm, Bool.not_false, if_true, ho] at hs
    rcases hst with h1 | h1
    · rw [h1] at hs; simp at hs
    · rw [h1] at hs; rw [← Option.some.inj hs]; exact hn

/-! ## Lemmas on the binder -/

theorem Var_continue (e : EnvSet) (value : Value) (name : String)
    (hc : e.errorHandling = ContinueOnError) :
    ∃ a, e.Var value name = .ret (registered e value name) a := by
  by_cases hm : matchRegexpString name = true
  · cases hn : e.envs name with
    | none =>
      exact ⟨none, by simp [EnvSet.Var, registered, isValidEnvironment, hm, hn, handleErrors]⟩
    | some x =>
      exact ⟨some (e.name ++ " flag redefined: " ++ name),
        by simp [EnvSet.Var, registered, isValidEnvironment, hm, hn, handleErrors, hc]⟩
  · exact ⟨some ("Var: env name " ++ name ++ " does not conform to regular expression: " ++
        regexpString),
      by simp [EnvSet.Var, registered, isValidEnvironment, hm, handleErrors, hc]⟩

theorem registered_empty (e : EnvSet) (value : Value) : registered e value "" = e := by
  have h0 : matchRegexpString "" = false := by decide
  simp [registered, h0]

theorem registered_errorHandling (e : EnvSet) (value : Value) (name : String) :
    (registered e value name).errorHandling = e.errorHandling := by
  unfold registered; split <;> rfl

theorem registered_pfx (e : EnvSet) (value : Value) (name : String) :
    (registered e value name).pfx = e.pfx := by
  unfold registered; split <;> rfl

theorem registered_keeps (e : EnvSet) (value : Value) (name : String) (k : String)
    (hk : e.envs k ≠ none) : (registered e value name).envs k = e.envs k := by
  unfold registered
  split
  · next hcond =>
    simp only [Bool.and_eq_true, Option.isNone_iff_eq_none] at hcond
    have hne : k ≠ name := fun hkn => hk (by rw [hkn]; exact hcond.2)
    simp [mapStore, hne]
  · rfl

theorem registered_new (e : EnvSet) (value : Value) (name : String)
    (hm : matchRegexpString name = true) (hn : e.envs name = none) :
    boundTo (registered e value name) name = some value := by
  simp [registered, hm, hn, boundTo, mapStore]

theorem registered_key (e : EnvSet) (value : Value) (name : String) (k : String)
    (hk : (registered e value name).envs k ≠ none) :
    e.envs k ≠ none ∨ (k = name ∧ boundTo (registered e value name) k = some value) := by
  unfold registered at hk ⊢
  split at hk
  · next hcond =>
    rw [if_pos hcond]
    by_cases hkn : k = name
    · right
      exact ⟨hkn, by simp [boundTo, mapStore, hkn]⟩
    · left
      simpa [mapStore, hkn] using hk
  · left; exact hk

theorem boundTo_congr (e1 e2 : EnvSet) (k : String) (h : e1.envs k = e2.envs k) :
    boundTo e1 k = boundTo e2 k := by
  simp [boundTo, h]

theorem bindField_spec {φ : Type} (F : FlagPackage φ) (p : parser φ) (h : Heap) (i : Nat)
    (field : StructField) (p1 : parser φ) (h1 : Heap)
    (hc : p.envSet.errorHandling = ContinueOnError)
    (hret : p.bindField F h i field = .ret (p1, h1) ()) :
    ∃ v, fieldValue i field = some v ∧
      p1.envSet = registered p.envSet v (field.Tag "env") := by
  unfold parser.bindField at hret
  cases hk : field.Kind with
  | String =>
    rw [hk] at hret
    refine ⟨.stringValue i, by simp [fieldValue, hk], ?_⟩
    cases hpp : pointerPanic field "string" with
    | some v => simp [hpp] at hret
    | none =>
    simp only [hpp, parser.register] at hret
    split at hret
    · simp at hret
    · simp at hret
    · by_cases henv : field.Tag "env" = ""
      · simp only [henv, ne_eq, not_true_eq_false, if_false] at hret
        simp only [Outcome.ret.injEq, Prod.mk.injEq, and_true] at hret
        rw [henv, registered_empty, ← hret.1]
      · obtain ⟨a, ha⟩ := Var_continue p.envSet (.stringValue i) (field.Tag "env") hc
        simp only [ne_eq, henv, not_false_eq_true, if_true, EnvSet.StringVar, ha] at hret
        simp only [Outcome.ret.injEq, Prod.mk.injEq, and_true] at hret
        rw [← hret.1]
  | Int64 =>
    rw [hk] at hret
    refine ⟨.intValue i, by simp [fieldValue, hk], ?_⟩
    cases hpp : pointerPanic field "int64" with
    | some v => simp [hpp] at hret
    | none =>
    simp only [hpp, parser.register] at hret
    split at hret
    · simp at hret
    · simp at hret
    · by_cases henv : field.Tag "env" = ""
      · simp only [henv, ne_eq, not_true_eq_false, if_false] at hret
        simp only [Outcome.ret.injEq, Prod.mk.injEq, and_true] at hret
        rw [henv, registered_empty, ← hret.1]
      · obtain ⟨a, ha⟩ := Var_continue p.envSet (.intValue i) (field.Tag "env") hc
        simp only [ne_eq, henv, not_false_eq_true, if_true, EnvSet.Int64Var, ha] at hret
        simp only [Outcome.ret.injEq, Prod.mk.injEq, and_true] at hret
        rw [← hret.1]
  | other kind =>
    rw [hk] at hret
    simp at hret

theorem fieldValue_inj (i j : Nat) (f g : StructField) (v : Value)
    (hi : fieldValue i f = some v) (hj : fieldValue j g = some v) : i = j := by
  unfold fieldValue at hi hj
  cases hf : f.Kind <;> cases hg : g.Kind <;> rw [hf] at hi <;> rw [hg] at hj <;>
    simp only [Option.some.injEq, reduceCtorEq] at hi hj
  · rw [← hj] at hi; injection hi
  · rw [← hj] at hi; injection hi
  · rw [← hj] at hi; injection hi
  · rw [← hj] at hi; injection hi

/-- The field loop under `ContinueOnError`: the registrations it leaves come from the
fields, and a field whose `env` tag matches the pattern and repeats no earlier tag is
registered, bound to its own cell. -/
theorem bindFields_spec {φ : Type} (F : FlagPackage φ) (rest : List StructField) :
    ∀ (pre : List StructField) (p : parser φ) (h : Heap) (p1 : parser φ) (h1 : Heap),
    p.envSet.errorHandling = ContinueOnError →
    FromFields pre p.envSet →
    parser.bindFields F pre.length rest p h = .ret (p1, h1) () →
    p1.envSet.errorHandling = ContinueOnError ∧ p1.envSet.pfx = p.envSet.pfx ∧
    FromFields (pre ++ rest) p1.envSet ∧
    (∀ n, p.envSet.envs n ≠ none → p1.envSet.envs n = p.envSet.envs n) ∧
    (∀ j f, rest[j]? = some f → ∃ v, fieldValue (pre.length + j) f = some v ∧
      (matchRegexpString (f.Tag "env") = true →
        (∀ k g, k < pre.length + j → (pre ++ rest)[k]? = some g →
          g.Tag "env" ≠ f.Tag "env") →
        boundTo p1.envSet (f.Tag "env") = some v)) := by
  induction rest with
  | nil =>
    intro pre p h p1 h1 hc hinv hret
    simp only [parser.bindFields, Outcome.ret.injEq, Prod.mk.injEq, and_true] at hret
    obtain ⟨hp, _⟩ := hret
    subst hp
    refine ⟨hc, rfl, by simpa using hinv, fun _ _ => rfl, ?_⟩
    intro j f hj
    simp at hj
  | cons field rest ih =>
    intro pre p h p1 h1 hc hinv hret
    rw [parser.bindFields] at hret
    cases hb : p.bindField F h pre.length field with
    | exit out code => rw [hb] at hret; simp at hret
    | panic st v => rw [hb] at hret; simp at hret
    | ret st u =>
      obtain ⟨p2, h2⟩ := st
      rw [hb] at hret
      simp only at hret
      obtain ⟨v0, hv0, he2⟩ := bindField_spec F p h _ field p2 h2 hc hb
      have hc2 : p2.envSet.errorHandling = ContinueOnError := by
        rw [he2, registered_errorHandling]; exact hc
      have hinv2 : FromFields (pre ++ [field]) p2.envSet := by
        intro n hn
        rw [he2] at hn
        rcases registered_key _ _ _ _ hn with hold | ⟨hkn, hbnd⟩
        · obtain ⟨j, f, v, hj, ht, hfv, hbd⟩ := hinv n hold
          refine ⟨j, f, v, ?_, ht, hfv, ?_⟩
          · rw [List.getElem?_append_left (List.getElem?_eq_some.mp hj).1]; exact hj
          · rw [he2, boundTo_congr _ _ n (registered_keeps _ _ _ n hold)]; exact hbd
        · exact ⟨pre.length, field, v0, List.getElem?_concat_length pre field, hkn.symm,
            hv0, by rw [he2]; exact hbnd⟩
      have hlen : (pre ++ [field]).length = pre.length + 1 := by simp
      rw [← hlen] at hret
      obtain ⟨c1, c2, c3, c4, c5⟩ := ih (pre ++ [field]) p2 h2 p1 h1 hc2 hinv2 hret
      have happ : pre ++ [field] ++ rest = pre ++ field :: rest := by simp
      rw [happ] at c3 c5
      refine ⟨c1, ?_, c3, ?_, ?_⟩
      · rw [c2, he2, registered_pfx]
      · intro n hn
        have hn2 : p2.envSet.envs n = p.envSet.envs n := by
          rw [he2]; exact registered_keeps _ _ _ n hn
        rw [c4 n (by rw [hn2]; exact hn), hn2]
      · intro j f hj
        cases j with
        | zero =>
          simp only [List.getElem?_cons_zero, Option.some.injEq] at hj
          subst hj
          refine ⟨v0, by rw [Nat.add_zero]; exact hv0, fun hm hfirst => ?_⟩
          have hnone : p.envSet.envs (field.Tag "env") = none := by
            by_contra hne
            obtain ⟨j, g, _, hj, ht, _, _⟩ := hinv _ hne
            have hjlt := (List.getElem?_eq_some.mp hj).1
            exact hfirst j g (by omega) (by rw [List.getElem?_append_left hjlt]; exact hj) ht
          have hb2 : boundTo p2.envSet (field.Tag "env") = some v0 := by
            rw [he2]; exact registered_new _ _ _ hm hnone
          have hk2 : p2.envSet.envs (field.Tag "env") ≠ none := by
            intro h0; simp [boundTo, h0] at hb2
          rw [boundTo_congr _ _ _ (c4 _ hk2)]
          exact hb2
        | succ j =>
          obtain ⟨v, hfv, hrest⟩ := c5 j f (by simpa using hj)
          have hidx : (pre ++ [field]).length + j = pre.length + (j + 1) := by
            rw [hlen]; omega
          rw [hidx] at hfv hrest
          exact ⟨v, hfv, hrest⟩

/-! ## The claims -/

/-- C1: when `Parse` returns no error, every registered name whose fully-qualified
variable (`fullname`: stored prefix, underscore, name when a prefix is set, the name
otherwise) holds a non-empty value `b` accepted by the bound value has `IsSet` true
with no error, and its cell holds the conversion of `b`: `b` itself for a text cell,
the integer `strconv.ParseInt` yields for an integer cell; distinct names are bound to
distinct cells.  It holds under every policy and for every visiting order. -/
theorem C1_Parse_binds_present (environ : Environ) (parseInt : ParseIntFn) (e : EnvSet)
    (order : List String) (h : Heap) (s : EnvSet × Heap)
    (horder : RangeOrder e order) (hdist : DistinctCells e)
    (hret : EnvSet.Parse environ parseInt order e h = .ret s none)
    (n : String) (env : Env) (b : String)
    (hreg : e.envs n = some (some env))
    (hval : environ (fullname e n) = some b) (hne : b ≠ "")
    (hacc : (env.Value.Set parseInt b h).2 = none) :
    s.1.IsSet n = (true, none) ∧
      (match env.Value with
        | .stringValue p => s.2.strs p = b
        | .intValue p => parseInt b = .ok (s.2.ints p)) := by
  have hmem : n ∈ order := (horder.2 n).mpr (by simp [hreg])
  have hb := boundTo_of_envs e n env hreg
  have hg := Getenv_of_some environ _ b hval
  constructor
  · apply IsSet_of_flagOf
    exact Parse_marks environ parseInt n env.Value h order e h s hmem hb
      (Or.inr (by rw [hg]; exact hacc)) hret
  · have hcell := Parse_cell environ parseInt n env.Value h order e h s hmem hb
      (by rw [hg]; exact hne) (by rw [hg]; exact hacc)
      (fun m _ hmn hbm => hdist n m env.Value (Ne.symm hmn) hb hbm) hret
    rw [hg] at hcell
    cases hv : env.Value with
    | stringValue p =>
      rw [hv] at hcell
      simpa [Value.Get, Value.Set, stringValue_Set] using hcell
    | intValue p =>
      rw [hv] at hcell hacc
      simp only [Value.Get, Value.Set, intValue_Set] at hcell hacc ⊢
      cases hp : parseInt b with
      | error err => simp [hp] at hacc
      | ok i =>
        simp only [hp, if_true, Any.int64.injEq] at hcell
        rw [hcell]

theorem testSet_rangeOrder : RangeOrder testSet ["TEST_INT64", "TEST_STRING"] := by
  refine ⟨by decide, fun n => ?_⟩
  by_cases h1 : n = "TEST_STRING"
  · simp [h1, testSet, mapStore]
  · by_cases h2 : n = "TEST_INT64"
    · simp [h2, testSet, mapStore]
    · simp [h1, h2, testSet, mapStore]

theorem testSet_distinctCells : DistinctCells testSet := by
  intro n m v hnm hn hm
  by_cases h1 : n = "TEST_STRING" <;> by_cases h2 : n = "TEST_INT64" <;>
    by_cases h3 : m = "TEST_STRING" <;> by_cases h4 : m = "TEST_INT64" <;>
    simp_all [boundTo, testSet, mapStore, testInt64Env, testStringEnv]
  all_goals exact absurd (hn.trans hm.symm) (by decide)

/-- Witness of C1, the scenario of `TestEnv`: with `TEST_INT64=42` and
`TEST_STRING=forty-two`, `Parse` returns nil, `IsSet("TEST_INT64")` is true and the
integer cell holds 42. -/
theorem C1_Parse_binds_present_witness :
    (testSetParsed.1.IsSet "TEST_INT64" = (true, none) ∧
      parseIntBase0 "42" = .ok (testSetParsed.2.ints 0)) ∧
    (testSetParsed.1.IsSet "TEST_STRING" = (true, none) ∧
      testSetParsed.2.strs 0 = "forty-two") :=
  ⟨C1_Parse_binds_present testEnviron parseIntBase0 testSet ["TEST_INT64", "TEST_STRING"]
      heapZero testSetParsed testSet_rangeOrder testSet_distinctCells rfl
      "TEST_INT64" testInt64Env "42" rfl rfl (by decide) rfl,
    C1_Parse_binds_present testEnviron parseIntBase0 testSet ["TEST_INT64", "TEST_STRING"]
      heapZero testSetParsed testSet_rangeOrder testSet_distinctCells rfl
      "TEST_STRING" testStringEnv "forty-two" rfl rfl (by decide) rfl⟩

/-- C2, the code at the failing input: `TEST_INT64` and `TEST_STRING` are registered
and `IsSet("TEST_INT64")` returns false; the environment defines no variable at all
(or only `TEST_STRING`, as the empty string); after `Parse` the queries
`IsSet("TEST_INT64")` and `IsSet("TEST_STRING")` return true. -/
theorem C2_IsSet_true_for_absent_variable :
    testSet.IsSet "TEST_INT64" = (false, none) ∧
    ((EnvSet.Parse (fun _ => none) parseIntBase0 ["TEST_INT64", "TEST_STRING"] testSet
      heapZero).state?.map (fun s => s.1.IsSet "TEST_INT64")) = some (true, none) ∧
    ((EnvSet.Parse emptyEnviron parseIntBase0 ["TEST_INT64", "TEST_STRING"] testSet
      heapZero).state?.map (fun s => s.1.IsSet "TEST_STRING")) = some (true, none) :=
  ⟨rfl, rfl, rfl⟩

theorem Parse_congr_environ (environ environ2 : Environ) (parseInt : ParseIntFn)
    (hG : ∀ k, Getenv environ2 k = Getenv environ k) (order : List String) :
    ∀ (e : EnvSet) (h : Heap),
    EnvSet.Parse environ2 parseInt order e h = EnvSet.Parse environ parseInt order e h := by
  induction order with
  | nil => intro e h; rfl
  | cons name rest ih =>
    intro e h
    simp only [EnvSet.Parse, hG, ih]

/-- C3: a registered name whose fully-qualified variable is absent or empty keeps the
content of its bound cell through `Parse`, whatever the policy, the visiting order and
the way the call ends, distinct names being bound to distinct cells; and an empty value
is treated exactly like an absent one: two environments that differ only in holding
an empty string where the other holds nothing make `Parse` end the same way. -/
theorem C3_Parse_keeps_absent (environ : Environ) (parseInt : ParseIntFn) (e : EnvSet)
    (order : List String) (h : Heap) (s : EnvSet × Heap) (hdist : DistinctCells e)
    (hstate : (EnvSet.Parse environ parseInt order e h).state? = some s)
    (n : String) (env : Env) (hreg : e.envs n = some (some env))
    (habs : environ (fullname e n) = none ∨ environ (fullname e n) = some "") :
    env.Value.Get s.2 = env.Value.Get h ∧
      ∀ environ2 : Environ,
        (∀ k, environ2 k = environ k ∨ (environ2 k = none ∧ environ k = some "") ∨
          (environ2 k = some "" ∧ environ k = none)) →
        EnvSet.Parse environ2 parseInt order e h
          = EnvSet.Parse environ parseInt order e h := by
  constructor
  · have hb := boundTo_of_envs e n env hreg
    have hg := Getenv_of_absent_or_empty environ _ habs
    refine Parse_frame environ parseInt env.Value h order e h s ?_ hstate
    intro m _ hbm
    by_cases hmn : m = n
    · left; rw [hmn]; exact hg
    · exact absurd hbm (hdist n m env.Value (Ne.symm hmn) hb)
  · intro environ2 h2
    apply Parse_congr_environ
    intro k
    rcases h2 k with h3 | ⟨h3, h4⟩ | ⟨h3, h4⟩
    · simp [Getenv, h3]
    · simp [Getenv, h3, h4]
    · simp [Getenv, h3, h4]

/-- Witness of C3: `TEST_INT64` is unset, `TEST_STRING` is set to the empty string,
and both cells keep their defaults through `Parse`. -/
theorem C3_Parse_keeps_absent_witness :
    testSetEmptyParsed.2.strs 0 = "default" ∧ testSetEmptyParsed.2.ints 0 = 7 :=
  ⟨Any.string.inj (C3_Parse_keeps_absent emptyEnviron parseIntBase0 testSet
      ["TEST_INT64", "TEST_STRING"] heapDefaults testSetEmptyParsed testSet_distinctCells
      rfl "TEST_STRING" testStringEnv rfl (Or.inr rfl)).1,
    Any.int64.inj (C3_Parse_keeps_absent emptyEnviron parseIntBase0 testSet
      ["TEST_INT64", "TEST_STRING"] heapDefaults testSetEmptyParsed testSet_distinctCells
      rfl "TEST_INT64" testInt64Env rfl (Or.inl rfl)).1⟩

theorem envs_of_boundTo (e : EnvSet) (n : String) (v : Value) (hb : boundTo e n = some v) :
    ∃ env, e.envs n = some (some env) ∧ env.Value = v := by
  unfold boundTo at hb
  split at hb
  · next env he => exact ⟨env, he, by simpa using hb⟩
  · simp at hb

theorem IsSet_congr (e1 e2 : EnvSet) (n : String) (hf : flagOf e1 n = flagOf e2 n) :
    e1.IsSet n = e2.IsSet n := by
  unfold flagOf at hf
  unfold EnvSet.IsSet
  split at hf <;> split at hf <;> simp_all [Env.IsSet]

theorem noNil_of_fromFields (pre : List StructField) (e : EnvSet) (hinv : FromFields pre e)
    (m : String) : e.envs m ≠ some none := by
  intro hm
  obtain ⟨_, _, _, _, _, _, hb⟩ := hinv m (by rw [hm]; simp)
  simp [boundTo, hm] at hb

/-- C4: a binder as `NewParser` builds it (policy `ContinueOnError`, nothing registered
yet; `SetEnvPrefix` may have been called), whatever the flag package does with the
arguments: when `Parse` returns no error, a field whose `arg` tag names a flag and
whose `env` tag matches the identifier pattern and repeats no earlier field's `env`
tag, the fully-qualified variable holding a non-empty value `b`, ends up holding the
conversion of `b`: `b` itself for a text field, the integer `strconv.ParseInt` yields
for an integer field.  What the flag pass wrote into the field is overwritten.  The
order of the environment pass is any order over the keys of the binder's set. -/
theorem C4_environment_overrides_flag {φ : Type} (F : FlagPackage φ) (environ : Environ)
    (parseInt : ParseIntFn) (args order : List String) (p : parser φ) (h : Heap)
    (p1 : parser φ) (h1 : Heap)
    (hc : p.envSet.errorHandling = ContinueOnError)
    (hfresh : ∀ n, p.envSet.envs n = none)
    (hret : parser.Parse F environ parseInt args order p h = .ret (p1, h1) none)
    (horder : RangeOrder p1.envSet order)
    (i : Nat) (f : StructField) (b : String)
    (hf : p.config.fields[i]? = some f)
    (_hflag : f.Tag "arg" ≠ "")
    (hm : matchRegexpString (f.Tag "env") = true)
    (hfirst : ∀ k g, k < i → p.config.fields[k]? = some g → g.Tag "env" ≠ f.Tag "env")
    (hval : environ (fullname p.envSet (f.Tag "env")) = some b) (hne : b ≠ "") :
    match f.Kind with
    | .String => h1.strs i = b
    | .Int64 => parseInt b = .ok (h1.ints i)
    | .other _ => False := by
  unfold parser.Parse at hret
  cases hb : parser.bindFields F 0 p.config.fields p h with
  | exit out code => rw [hb] at hret; simp at hret
  | panic st v => rw [hb] at hret; simp at hret
  | ret st u =>
    obtain ⟨p2, h2⟩ := st
    rw [hb] at hret
    simp only at hret
    cases hfp : F.Parse p2.flagSet args h2 with
    | exit out code => rw [hfp] at hret; simp at hret
    | panic st v => rw [hfp] at hret; simp at hret
    | ret st a =>
      obtain ⟨fs, h3⟩ := st
      rw [hfp] at hret
      cases a with
      | some err => simp at hret
      | none =>
        simp only at hret
        cases hep : EnvSet.Parse environ parseInt order p2.envSet h3 with
        | exit out code => rw [hep] at hret; simp at hret
        | panic st v => rw [hep] at hret; simp at hret
        | ret st a =>
          obtain ⟨es, h4⟩ := st
          rw [hep] at hret
          simp only [Outcome.ret.injEq, Prod.mk.injEq] at hret
          obtain ⟨⟨hp1, hh1⟩, ha⟩ := hret
          subst ha
          have hes : p1.envSet = es := by rw [← hp1]
          have hinv0 : FromFields [] p.envSet := fun n hn => absurd (hfresh n) hn
          obtain ⟨c1, c2, c3, _, c5⟩ :=
            bindFields_spec F p.config.fields [] p h p2 h2 hc hinv0 hb
          simp only [List.nil_append, List.length_nil, Nat.zero_add] at c3 c5
          obtain ⟨v, hfv, hbound⟩ := c5 i f hf
          have hbt := hbound hm hfirst
          have hfull : fullname p2.envSet (f.Tag "env") = fullname p.envSet (f.Tag "env") := by
            simp only [fullname, c2]
          have hg : Getenv environ (fullname p2.envSet (f.Tag "env")) = b := by
            rw [hfull]; exact Getenv_of_some environ _ b hval
          have hpres := Parse_preserves environ parseInt order p2.envSet h3 (es, h4)
            (by rw [hep]; rfl)
          have hmem : f.Tag "env" ∈ order := by
            apply (horder.2 _).mpr
            have hb4 : boundTo es (f.Tag "env") = some v := by
              have := hpres.2.2.2
              simp only at this
              rw [this]; exact hbt
            rw [hes]
            cases hx : es.envs (f.Tag "env") with
            | none => simp [boundTo, hx] at hb4
            | some x => rfl
          have hacc : (v.Set parseInt (Getenv environ (fullname p2.envSet (f.Tag "env")))
              h3).2 = none := by
            by_contra hrej
            obtain ⟨s, a, hs, hfail⟩ := Parse_returns environ parseInt h3 order p2.envSet h3
              c1 (fun m _ => noNil_of_fromFields _ _ c3 m)
            rw [hep] at hs
            simp only [Outcome.ret.injEq] at hs
            exact hfail ⟨f.Tag "env", hmem, v, hbt, by rw [hg]; exact hne, hrej⟩ hs.2.symm
          have hdist : ∀ m ∈ order, m ≠ f.Tag "env" → boundTo p2.envSet m ≠ some v := by
            intro m _ hmt hbm
            have hk : p2.envSet.envs m ≠ none := by
              intro h0; simp [boundTo, h0] at hbm
            obtain ⟨j, g, w, hj, ht, hgw, hbw⟩ := c3 m hk
            rw [hbm] at hbw
            have hwv : w = v := (Option.some.inj hbw).symm
            rw [hwv] at hgw
            have hji : i = j := fieldValue_inj i j f g v hfv hgw
            rw [← hji, hf] at hj
            rw [← Option.some.inj hj] at ht
            exact hmt ht.symm
          have hcell := Parse_cell environ parseInt (f.Tag "env") v h3 order p2.envSet h3
            (es, h4) hmem hbt (by rw [hg]; exact hne) hacc hdist hep
          rw [hg] at hcell hacc
          rw [← hh1]
          unfold fieldValue at hfv
          cases hk : f.Kind with
          | String =>
            rw [hk] at hfv
            simp only [Option.some.injEq] at hfv
            rw [← hfv] at hcell
            simpa [Value.Get, Value.Set, stringValue_Set] using hcell
          | Int64 =>
            rw [hk] at hfv
            simp only [Option.some.injEq] at hfv
            rw [← hfv] at hcell hacc
            simp only [Value.Get, Value.Set, intValue_Set] at hcell hacc ⊢
            cases hp : parseInt b with
            | error err => simp [hp] at hacc
            | ok x =>
              simp only [hp, if_true, Any.int64.injEq] at hcell
              rw [hcell]
          | other kind =>
            rw [hk] at hfv
            simp at hfv

theorem xParsed_rangeOrder : RangeOrder xParsed.1.envSet ["X"] := by
  refine ⟨by decide, fun n => ?_⟩
  by_cases h1 : n = "X"
  · rw [h1]; simp only [List.mem_singleton, true_iff]; rfl
  · have hx : matchRegexpString "X" = true := by decide
    simp [xParsed, markSet, mapStore, registered, NewEnvSet, h1, hx]

/-- Witness of C4, the scenario of the specification: the field `X` is registered for
the flag `x` and the variable `X`, the arguments are `--x=1`, the environment is `X=2`;
the flag pass leaves 1 in the field, and after `Parse` the field holds 2. -/
theorem C4_environment_overrides_flag_witness :
    xHeapAfterFlags.ints 0 = 1 ∧ parseIntBase0 "2" = .ok (xParsed.2.ints 0) ∧
      xParsed.2.ints 0 = 2 :=
  ⟨rfl,
    C4_environment_overrides_flag simpleFlag xEnviron parseIntBase0 ["--x=1"] ["X"]
      (NewParser simpleFlag xConfig) heapZero xParsed.1 xParsed.2 rfl (fun _ => rfl) rfl
      xParsed_rangeOrder 0 xField "2" rfl (by decide) (by decide)
      (fun k _ hk => absurd hk (Nat.not_lt_zero k)) rfl (by decide),
    rfl⟩

/-- The error of a pass under `ContinueOnError`, stated with `fullname`. -/
theorem Parse_error_iff_rejected (environ : Environ) (parseInt : ParseIntFn) (e : EnvSet)
    (order : List String) (h : Heap)
    (hc : e.errorHandling = ContinueOnError) (hnil : NoNilEnv e)
    (horder : RangeOrder e order) :
    ∃ s a, EnvSet.Parse environ parseInt order e h = .ret s a ∧
      (a ≠ none ↔ ∃ n env, e.envs n = some (some env) ∧
        Getenv environ (fullname e n) ≠ "" ∧
        (env.Value.Set parseInt (Getenv environ (fullname e n)) h).2 ≠ none) ∧
      (∀ msg, a = some msg → ∃ n env inner, e.envs n = some (some env) ∧
        Getenv environ (fullname e n) ≠ "" ∧
        (env.Value.Set parseInt (Getenv environ (fullname e n)) h).2 = some inner ∧
        msg = "Parse: error while parsing env: " ++ fullname e n ++ ": " ++ inner) := by
  obtain ⟨s, a, hs, ha⟩ := Parse_returns environ parseInt h order e h hc (fun m _ => hnil m)
  have sound : ∀ msg, a = some msg → ∃ n env inner, e.envs n = some (some env) ∧
      Getenv environ (fullname e n) ≠ "" ∧
      (env.Value.Set parseInt (Getenv environ (fullname e n)) h).2 = some inner ∧
      msg = "Parse: error while parsing env: " ++ fullname e n ++ ": " ++ inner := by
    intro msg hmsg
    rw [hmsg] at hs
    obtain ⟨n, _, v, inner, hb, hv, hS, hm⟩ :=
      Parse_error_sound environ parseInt h order e h s msg hs
    obtain ⟨env, he, hev⟩ := envs_of_boundTo e n v hb
    exact ⟨n, env, inner, he, hv, by rw [hev]; exact hS, hm⟩
  refine ⟨s, a, hs, ⟨?_, ?_⟩, sound⟩
  · intro hne
    obtain ⟨msg, hmsg⟩ := Option.ne_none_iff_exists'.mp hne
    obtain ⟨n, env, inner, he, hv, hS, _⟩ := sound msg hmsg
    exact ⟨n, env, he, hv, by rw [hS]; simp⟩
  · rintro ⟨n, env, he, hv, hS⟩
    exact ha ⟨n, (horder.2 n).mpr (by simp [he]), env.Value, boundTo_of_envs e n env he,
      hv, hS⟩

/-- C5: under `ContinueOnError`, on a set with no nil registration (`NewEnvSet` builds
such a set and `Var` keeps it so under the three defined policies), `Parse` returns for
every visiting order, and the error it returns is non-nil exactly when some registered
name `n` is bound to a value that rejects the non-empty content of the variable read
for `n`: the stored prefix, an underscore and `n` when a prefix is stored, `n`
otherwise.  The message of the error is `Parse: error while parsing env: `, that
variable with its prefix, `: `, and the error of the conversion.  In particular the
error is non-nil when a registered name is bound to an integer cell and `strconv`
rejects the non-empty content of its variable. -/
theorem C5_Parse_error_iff (environ : Environ) (parseInt : ParseIntFn) (e : EnvSet)
    (order : List String) (h : Heap)
    (hc : e.errorHandling = ContinueOnError) (hnil : NoNilEnv e)
    (horder : RangeOrder e order) :
    ∃ s a, EnvSet.Parse environ parseInt order e h = .ret s a ∧
      (a ≠ none ↔ ∃ n env, e.envs n = some (some env) ∧
        Getenv environ (if e.pfx ≠ "" then e.pfx ++ "_" ++ n else n) ≠ "" ∧
        (env.Value.Set parseInt
          (Getenv environ (if e.pfx ≠ "" then e.pfx ++ "_" ++ n else n)) h).2 ≠ none) ∧
      (∀ msg, a = some msg → ∃ n env inner, e.envs n = some (some env) ∧
        Getenv environ (if e.pfx ≠ "" then e.pfx ++ "_" ++ n else n) ≠ "" ∧
        (env.Value.Set parseInt
          (Getenv environ (if e.pfx ≠ "" then e.pfx ++ "_" ++ n else n)) h).2
            = some inner ∧
        msg = "Parse: error while parsing env: " ++
          (if e.pfx ≠ "" then e.pfx ++ "_" ++ n else n) ++ ": " ++ inner) ∧
      (∀ n env p err, e.envs n = some (some env) → env.Value = .intValue p →
        Getenv environ (if e.pfx ≠ "" then e.pfx ++ "_" ++ n else n) ≠ "" →
        parseInt (Getenv environ (if e.pfx ≠ "" then e.pfx ++ "_" ++ n else n))
          = .error err →
        a ≠ none) := by
  obtain ⟨s, a, hs, hiff, hmsg⟩ :=
    Parse_error_iff_rejected environ parseInt e order h hc hnil horder
  have hfull : ∀ n, fullname e n = (if e.pfx ≠ "" then e.pfx ++ "_" ++ n else n) :=
    fun _ => rfl
  refine ⟨s, a, hs, ⟨fun hne => ?_, fun hex => ?_⟩, fun msg hm => ?_,
    fun n env p err he hev hv hp => ?_⟩
  · obtain ⟨n, env, he, hv, hS⟩ := hiff.mp hne
    rw [hfull] at hv hS
    exact ⟨n, env, he, hv, hS⟩
  · obtain ⟨n, env, he, hv, hS⟩ := hex
    rw [← hfull] at hv hS
    exact hiff.mpr ⟨n, env, he, hv, hS⟩
  · obtain ⟨n, env, inner, he, hv, hS, hmm⟩ := hmsg msg hm
    rw [hfull] at hv hS hmm
    exact ⟨n, env, inner, he, hv, hS, hmm⟩
  · rw [← hfull] at hv hp
    refine hiff.mpr ⟨n, env, he, hv, ?_⟩
    rw [hev]
    simp [Value.Set, intValue_Set, hp]

theorem errorsSet_rangeOrder : RangeOrder errorsSet ["DUPLICATE", "TEST_INT64"] := by
  refine ⟨by decide, fun n => ?_⟩
  by_cases h1 : n = "DUPLICATE"
  · simp [h1, errorsSet, mapStore]
  · by_cases h2 : n = "TEST_INT64"
    · simp [h2, errorsSet, mapStore]
    · simp [h1, h2, errorsSet, mapStore]

theorem errorsSet_noNilEnv : NoNilEnv errorsSet := by
  intro n
  by_cases h1 : n = "DUPLICATE"
  · simp [h1, errorsSet, mapStore]
  · by_cases h2 : n = "TEST_INT64"
    · simp [h2, errorsSet, mapStore]
    · simp [h1, h2, errorsSet, mapStore]

theorem prefixErrorsSet_rangeOrder :
    RangeOrder prefixErrorsSet ["DUPLICATE", "TEST_INT64"] := by
  refine ⟨by decide, fun n => ?_⟩
  by_cases h1 : n = "DUPLICATE"
  · simp [h1, prefixErrorsSet, mapStore]
  · by_cases h2 : n = "TEST_INT64"
    · simp [h2, prefixErrorsSet, mapStore]
    · simp [h1, h2, prefixErrorsSet, mapStore]

theorem prefixErrorsSet_noNilEnv : NoNilEnv prefixErrorsSet := by
  intro n
  by_cases h1 : n = "DUPLICATE"
  · simp [h1, prefixErrorsSet, mapStore]
  · by_cases h2 : n = "TEST_INT64"
    · simp [h2, prefixErrorsSet, mapStore]
    · simp [h1, h2, prefixErrorsSet, mapStore]

/-- Witness of C5: the registrations of `TestEnvWithErrors` under the prefix `PREFIX`;
`PREFIX_TEST_INT64=not_a_number` is read for the integer cell of `TEST_INT64` (the
unprefixed `TEST_INT64=42` is not), `PREFIX_DUPLICATE` is unset.  `Parse` visits
`DUPLICATE`, then returns the error that names `PREFIX_TEST_INT64`. -/
theorem C5_Parse_error_iff_witness :
    EnvSet.Parse prefixErrorsEnviron parseIntBase0 ["DUPLICATE", "TEST_INT64"]
        prefixErrorsSet heapZero
      = .ret prefixErrorsFailed
          (some ("Parse: error while parsing env: PREFIX_TEST_INT64: " ++
            "error setting int value: " ++
            "strconv.ParseInt: parsing \"not_a_number\": invalid syntax")) ∧
    (∃ n env inner, prefixErrorsSet.envs n = some (some env) ∧
      Getenv prefixErrorsEnviron
        (if prefixErrorsSet.pfx ≠ "" then prefixErrorsSet.pfx ++ "_" ++ n else n) ≠ "" ∧
      (env.Value.Set parseIntBase0 (Getenv prefixErrorsEnviron
        (if prefixErrorsSet.pfx ≠ "" then prefixErrorsSet.pfx ++ "_" ++ n else n))
          heapZero).2 = some inner ∧
      "Parse: error while parsing env: PREFIX_TEST_INT64: " ++
          "error setting int value: " ++
          "strconv.ParseInt: parsing \"not_a_number\": invalid syntax"
        = "Parse: error while parsing env: " ++
          (if prefixErrorsSet.pfx ≠ "" then prefixErrorsSet.pfx ++ "_" ++ n else n) ++
          ": " ++ inner) := by
  have heval : EnvSet.Parse prefixErrorsEnviron parseIntBase0 ["DUPLICATE", "TEST_INT64"]
      prefixErrorsSet heapZero
      = .ret prefixErrorsFailed
          (some ("Parse: error while parsing env: PREFIX_TEST_INT64: " ++
            "error setting int value: " ++
            "strconv.ParseInt: parsing \"not_a_number\": invalid syntax")) := rfl
  obtain ⟨s, a, hs, _, hmsg, _⟩ := C5_Parse_error_iff prefixErrorsEnviron parseIntBase0
    prefixErrorsSet ["DUPLICATE", "TEST_INT64"] heapZero rfl prefixErrorsSet_noNilEnv
    prefixErrorsSet_rangeOrder
  rw [heval] at hs
  simp only [Outcome.ret.injEq] at hs
  exact ⟨heval, hmsg _ hs.2.symm⟩

/-! ## The conversion of strconv accepts the integer literals of the integer width -/

theorem lower_ge (n : Nat) (h : 128 ≤ n) : 128 ≤ lower n := by
  obtain ⟨i, hi, hb⟩ := Nat.ge_two_pow_implies_high_bit_true (show n ≥ 2 ^ 7 from h)
  have h2 : (lower n).testBit i = true := by
    unfold lower; rw [Nat.testBit_or, hb]; rfl
  have h3 := Nat.testBit_implies_ge h2
  calc 128 = 2 ^ 7 := rfl
    _ ≤ 2 ^ i := Nat.pow_le_pow_right (by decide) hi
    _ ≤ lower n := h3

theorem lower_small : ∀ n < 128, lower n = (if 65 ≤ n ∧ n ≤ 90 then n + 32 else lower n) ∧
    (97 ≤ lower n ∧ lower n ≤ 122 ↔ (65 ≤ n ∧ n ≤ 90) ∨ (97 ≤ n ∧ n ≤ 122)) ∧
    (97 ≤ n ∧ n ≤ 122 → lower n = n) := by
  decide

theorem digit_agree (c : Char) :
    (if ('0'.toNat ≤ c.toNat && c.toNat ≤ '9'.toNat) = true then some (c.toNat - '0'.toNat)
      else if ('a'.toNat ≤ lower c.toNat && lower c.toNat ≤ 'z'.toNat) = true then
        some (lower c.toNat - 'a'.toNat + 10)
      else none) = digitValue c := by
  unfold digitValue
  have e0 : '0'.toNat = 48 := rfl
  have e9 : '9'.toNat = 57 := rfl
  have ea : 'a'.toNat = 97 := rfl
  have ez : 'z'.toNat = 122 := rfl
  have eA : 'A'.toNat = 65 := rfl
  have eZ : 'Z'.toNat = 90 := rfl
  rw [e0, e9, ea, ez, eA, eZ]
  generalize c.toNat = n
  by_cases hn : n < 128
  · obtain ⟨h1, h2, h3⟩ := lower_small n hn
    simp only [Bool.and_eq_true, decide_eq_true_eq]
    by_cases hd : 48 ≤ n ∧ n ≤ 57
    · simp [hd]
    · rw [if_neg hd, if_neg hd]
      by_cases hl : 97 ≤ n ∧ n ≤ 122
      · rw [if_pos (h2.mpr (Or.inr hl)), if_pos hl, h3 hl]
      · rw [if_neg hl]
        by_cases hu : 65 ≤ n ∧ n ≤ 90
        · rw [if_pos (h2.mpr (Or.inl hu)), if_pos hu]
          rw [h1, if_pos hu]
          congr 1
        · rw [if_neg hu, if_neg]
          intro h; rcases h2.mp h with h | h
          · exact hu h
          · exact hl h
  · have hl := lower_ge n (by omega)
    simp only [Bool.and_eq_true, decide_eq_true_eq]
    rw [if_neg (by omega), if_neg (by omega), if_neg (by omega), if_neg (by omega), if_neg (by omega)]

theorem parseUintLoop_underscore (base cutoff maxVal : Nat) (cs : List Char) (n : Nat) (us : Bool) :
    parseUintLoop base true cutoff maxVal ('_' :: cs) n us =
      parseUintLoop base true cutoff maxVal cs n true := by
  rw [parseUintLoop]; simp

theorem parseUintLoop_cons (base maxVal : Nat) (b0 : Bool) (c : Char) (cs : List Char) (n : Nat)
    (us : Bool) (hc : c ≠ '_') (hbase : base ≤ 36) (hmax : maxVal ≤ 2 ^ 64 - 1) :
    parseUintLoop base b0 ((2 ^ 64 - 1) / base + 1) maxVal (c :: cs) n us =
      match digitValue c with
      | none => .error (0, ErrSyntax)
      | some d =>
        if base ≤ d then .error (0, ErrSyntax)
        else if maxVal < n * base + d then .error (maxVal, ErrRange)
        else parseUintLoop base b0 ((2 ^ 64 - 1) / base + 1) maxVal cs (n * base + d) us := by
  rw [parseUintLoop]
  simp only [hc, decide_False, Bool.false_and, Bool.false_eq_true, if_false]
  rw [digit_agree c]
  cases hd : digitValue c with
  | none => rfl
  | some d =>
    simp only [ge_iff_le]
    by_cases hb : base ≤ d
    · rw [if_pos hb, if_pos hb]
    · rw [if_neg hb, if_neg hb]
      have hpos : 0 < base := by omega
      have hcut : (2 ^ 64 - 1) / base + 1 ≤ n ↔ ¬ n * base ≤ 2 ^ 64 - 1 := by
        rw [← Nat.le_div_iff_mul_le hpos]; omega
      by_cases hn : (2 ^ 64 - 1) / base + 1 ≤ n
      · rw [if_pos hn, if_pos]
        have := hcut.mp hn
        omega
      · rw [if_neg hn]
        have hnb : n * base ≤ 2 ^ 64 - 1 := by
          by_contra h; exact hn (hcut.mpr h)
        generalize n * base = nb at hnb ⊢
        simp only [Bool.or_eq_true, decide_eq_true_eq]
        by_cases hov : maxVal < nb + d
        · rw [if_pos hov, if_pos]
          norm_num at hnb hmax ⊢
          omega
        · rw [if_neg hov, if_neg]
          · congr 1
            norm_num at hnb hmax hov ⊢
            omega
          · norm_num at hnb hmax hov ⊢
            omega

theorem digitValue_cases (c : Char) (d : Nat) (h : digitValue c = some d) :
    (48 ≤ c.toNat ∧ c.toNat ≤ 57 ∧ d = c.toNat - 48) ∨
    (97 ≤ c.toNat ∧ c.toNat ≤ 122 ∧ d = c.toNat - 97 + 10) ∨
    (65 ≤ c.toNat ∧ c.toNat ≤ 90 ∧ d = c.toNat - 65 + 10) := by
  unfold digitValue at h
  have e0 : '0'.toNat = 48 := rfl
  have e9 : '9'.toNat = 57 := rfl
  have ea : 'a'.toNat = 97 := rfl
  have ez : 'z'.toNat = 122 := rfl
  have eA : 'A'.toNat = 65 := rfl
  have eZ : 'Z'.toNat = 90 := rfl
  rw [e0, e9, ea, ez, eA, eZ] at h
  split_ifs at h with h1 h2 h3
  · left; exact ⟨h1.1, h1.2, (Option.some.inj h).symm⟩
  · right; left; exact ⟨h2.1, h2.2, (Option.some.inj h).symm⟩
  · right; right; exact ⟨h3.1, h3.2, (Option.some.inj h).symm⟩

theorem underscoreScan_digit (hex : Bool) (base : Nat) (c : Char) (cs : List Char) (saw : Char) (d : Nat)
    (hd : digitValue c = some d) (hlt : d < base)
    (hhex : base ≤ 10 ∨ (hex = true ∧ base ≤ 16)) :
    underscoreScan hex (c :: cs) saw = underscoreScan hex cs '0' := by
  rw [underscoreScan]
  have e0 : '0'.toNat = 48 := rfl
  have e9 : '9'.toNat = 57 := rfl
  have ea : 'a'.toNat = 97 := rfl
  have ef : 'f'.toNat = 102 := rfl
  rw [e0, e9, ea, ef]
  rw [if_pos]
  simp only [Bool.or_eq_true, Bool.and_eq_true, decide_eq_true_eq]
  rcases digitValue_cases c d hd with ⟨h1, h2, _⟩ | ⟨h1, h2, h3⟩ | ⟨h1, h2, h3⟩
  · left; exact ⟨h1, h2⟩
  · right
    have hb : hex = true ∧ base ≤ 16 := by
      rcases hhex with h | h
      · omega
      · exact h
    have hl := (lower_small c.toNat (by omega)).2.2 ⟨h1, h2⟩
    rw [hl]
    exact ⟨⟨hb.1, h1⟩, by omega⟩
  · right
    have hb : hex = true ∧ base ≤ 16 := by
      rcases hhex with h | h
      · omega
      · exact h
    have hl := (lower_small c.toNat (by omega)).1
    rw [if_pos ⟨h1, h2⟩] at hl
    rw [hl]
    exact ⟨⟨hb.1, by omega⟩, by omega⟩

theorem underscoreScan_underscore (hex : Bool) (cs : List Char) (saw : Char) :
    underscoreScan hex ('_' :: cs) saw =
      if saw != '0' then false else underscoreScan hex cs '_' := by
  rw [underscoreScan]
  have h : lower '_'.toNat = 127 := by decide
  rw [h]
  simp

theorem parseUintLoop_flag (base maxVal : Nat) (hbase : base ≤ 36) (hmax : maxVal ≤ 2 ^ 64 - 1) :
    ∀ (cs : List Char) (n m : Nat) (us1 : Bool),
      parseUintLoop base true ((2 ^ 64 - 1) / base + 1) maxVal cs n true = .ok (m, us1) →
      us1 = true := by
  intro cs
  induction cs with
  | nil =>
    intro n m us1 h
    rw [parseUintLoop] at h
    injection h with h
    exact (congrArg Prod.snd h).symm
  | cons c cs ih =>
    intro n m us1 h
    by_cases hc : c = '_'
    · subst hc
      rw [parseUintLoop_underscore] at h
      exact ih n m us1 h
    · rw [parseUintLoop_cons base maxVal true c cs n true hc hbase hmax] at h
      cases hd : digitValue c with
      | none => rw [hd] at h; simp at h
      | some d =>
        rw [hd] at h
        simp only at h
        split_ifs at h
        exact ih _ m us1 h

theorem parseUintLoop_sound (base maxVal : Nat) (hex : Bool) (hbase : base ≤ 36)
    (hmax : maxVal ≤ 2 ^ 64 - 1) (hhex : base ≤ 10 ∨ (hex = true ∧ base ≤ 16)) :
    ∀ (cs : List Char) (n : Nat) (us : Bool) (saw : Char) (sep : Bool) (m : Nat) (us1 : Bool),
      parseUintLoop base true ((2 ^ 64 - 1) / base + 1) maxVal cs n us = .ok (m, us1) →
      (us1 = true → underscoreScan hex cs saw = true) →
      (sep = false → saw = '0') → (sep = true → saw = '_' ∧ us = true) →
      digitsValue base cs sep n = some m ∧ (n ≤ maxVal → m ≤ maxVal) := by
  intro cs
  induction cs with
  | nil =>
    intro n us saw sep m us1 h hs h0 h1
    rw [parseUintLoop] at h
    injection h with h
    have hm : n = m := congrArg Prod.fst h
    have hu : us = us1 := congrArg Prod.snd h
    subst hm hu
    cases sep with
    | true =>
      obtain ⟨hsaw, hus⟩ := h1 rfl
      have := hs hus
      rw [hsaw] at this
      simp [underscoreScan] at this
    | false => exact ⟨rfl, fun h => h⟩
  | cons c cs ih =>
    intro n us saw sep m us1 h hs h0 h1
    by_cases hc : c = '_'
    · subst hc
      rw [parseUintLoop_underscore] at h
      have hu := parseUintLoop_flag base maxVal hbase hmax cs n m us1 h
      have hsc := hs hu
      rw [underscoreScan_underscore] at hsc
      cases sep with
      | true =>
        obtain ⟨hsaw, _⟩ := h1 rfl
        rw [hsaw] at hsc
        simp at hsc
      | false =>
        have hsaw := h0 rfl
        rw [hsaw] at hsc
        simp at hsc
        have := ih n true '_' true m us1 h (fun _ => hsc) (fun h => by simp at h)
          (fun _ => ⟨rfl, rfl⟩)
        simpa [digitsValue] using this
    · rw [parseUintLoop_cons base maxVal true c cs n us hc hbase hmax] at h
      cases hd : digitValue c with
      | none => rw [hd] at h; simp at h
      | some d =>
        rw [hd] at h
        simp only at h
        split_ifs at h with hb hov
        have hs1 : us1 = true → underscoreScan hex cs '0' = true := by
          intro hu
          have := hs hu
          rwa [underscoreScan_digit hex base c cs saw d hd (by omega) hhex] at this
        have := ih (n * base + d) us '0' false m us1 h hs1 (fun _ => rfl)
          (fun h => by simp at h)
        refine ⟨?_, fun _ => this.2 (by omega)⟩
        rw [digitsValue, if_neg hc, hd]
        simp only
        rw [if_pos (by omega)]
        exact this.1

theorem parseUintLoop_error (base maxVal : Nat) (hbase : base ≤ 36) (hmax : maxVal ≤ 2 ^ 64 - 1) :
    ∀ (cs : List Char) (n : Nat) (us : Bool) (v : Nat) (err : String),
      parseUintLoop base true ((2 ^ 64 - 1) / base + 1) maxVal cs n us = .error (v, err) →
      (v = 0 ∧ err = ErrSyntax) ∨ (v = maxVal ∧ err = ErrRange) := by
  intro cs
  induction cs with
  | nil =>
    intro n us v err h
    rw [parseUintLoop] at h
    simp at h
  | cons c cs ih =>
    intro n us v err h
    by_cases hc : c = '_'
    · subst hc
      rw [parseUintLoop_underscore] at h
      exact ih n true v err h
    · rw [parseUintLoop_cons base maxVal true c cs n us hc hbase hmax] at h
      cases hd : digitValue c with
      | none =>
        rw [hd] at h
        injection h with h
        injection h with h1 h2
        exact Or.inl ⟨h1.symm, h2.symm⟩
      | some d =>
        rw [hd] at h
        simp only at h
        split_ifs at h
        · injection h with h
          injection h with h1 h2
          exact Or.inl ⟨h1.symm, h2.symm⟩
        · injection h with h
          injection h with h1 h2
          exact Or.inr ⟨h1.symm, h2.symm⟩
        · exact ih _ us v err h

theorem ParseUint_unfold (s : String) (hne : s ≠ "") :
    ParseUint s 0 64 =
      match (match s.data with
        | '0' :: c1 :: c2 :: cs =>
          if lower c1.toNat = 'b'.toNat then some (2, c2 :: cs)
          else if lower c1.toNat = 'o'.toNat then some (8, c2 :: cs)
          else if lower c1.toNat = 'x'.toNat then some (16, c2 :: cs)
          else some (8, c1 :: c2 :: cs)
        | '0' :: cs => some (8, cs)
        | cs => (some (10, cs) : Option (Nat × List Char))) with
      | none => (0, some ⟨"ParseUint", s, "invalid base " ++ toString 0⟩)
      | some (b, digits) =>
        match parseUintLoop b true ((2 ^ 64 - 1) / b + 1) (2 ^ 64 - 1) digits 0 false with
        | .error (v, err) => (v, some ⟨"ParseUint", s, err⟩)
        | .ok (n, underscores) =>
          if underscores && !underscoreOK s then (0, some ⟨"ParseUint", s, ErrSyntax⟩)
          else (n, none) := by
  rw [ParseUint, if_neg hne]
  rfl

theorem char_of_toNat (c : Char) (n : Nat) (h : c.toNat = n) : c = Char.ofNat n := by
  rw [← h, Char.ofNat_toNat]

theorem lower_letter : ∀ n < 128, (lower n = 98 ↔ n = 98 ∨ n = 66) ∧
    (lower n = 111 ↔ n = 111 ∨ n = 79) ∧ (lower n = 120 ↔ n = 120 ∨ n = 88) := by
  decide

theorem lower_eq_iff (c : Char) :
    (lower c.toNat = 'b'.toNat ↔ c = 'b' ∨ c = 'B') ∧
    (lower c.toNat = 'o'.toNat ↔ c = 'o' ∨ c = 'O') ∧
    (lower c.toNat = 'x'.toNat ↔ c = 'x' ∨ c = 'X') := by
  have eb : 'b'.toNat = 98 := rfl
  have eo : 'o'.toNat = 111 := rfl
  have ex : 'x'.toNat = 120 := rfl
  rw [eb, eo, ex]
  have key : ∀ (a b : Nat), (a = 98 ∧ b = 66) ∨ (a = 111 ∧ b = 79) ∨ (a = 120 ∧ b = 88) →
      (lower c.toNat = a ↔ c.toNat = a ∨ c.toNat = b) →
      (lower c.toNat = a ↔ c = Char.ofNat a ∨ c = Char.ofNat b) := by
    intro a b hab h
    rw [h]
    constructor
    · rintro (h | h)
      · exact Or.inl (char_of_toNat c a h)
      · exact Or.inr (char_of_toNat c b h)
    · rintro (h | h)
      · left; rw [h]
        rcases hab with ⟨h1, _⟩ | ⟨h1, _⟩ | ⟨h1, _⟩ <;> subst h1 <;> rfl
      · right; rw [h]
        rcases hab with ⟨_, h1⟩ | ⟨_, h1⟩ | ⟨_, h1⟩ <;> subst h1 <;> rfl
  by_cases hn : c.toNat < 128
  · obtain ⟨h1, h2, h3⟩ := lower_letter c.toNat hn
    exact ⟨key 98 66 (by simp) h1, key 111 79 (by simp) h2, key 120 88 (by simp) h3⟩
  · have hl := lower_ge c.toNat (by omega)
    refine ⟨key 98 66 (by simp) ?_, key 111 79 (by simp) ?_, key 120 88 (by simp) ?_⟩ <;>
      constructor <;> intro h <;> omega

theorem literalNat_prefixed (c1 c2 : Char) (cs : List Char) :
    literalNat ('0' :: c1 :: c2 :: cs) =
      if c1 = 'b' ∨ c1 = 'B' then digitsValue 2 (c2 :: cs) false 0
      else if c1 = 'o' ∨ c1 = 'O' then digitsValue 8 (c2 :: cs) false 0
      else if c1 = 'x' ∨ c1 = 'X' then digitsValue 16 (c2 :: cs) false 0
      else digitsValue 8 (c1 :: c2 :: cs) false 0 := by
  rw [literalNat]

theorem literalNat_zero (cs : List Char) (h : ∀ c1 c2 cs1, cs ≠ c1 :: c2 :: cs1) :
    literalNat ('0' :: cs) = digitsValue 8 cs false 0 := by
  match cs, h with
  | [], _ => rfl
  | [c1], _ => rw [literalNat]; intro c1 c2 cs h; simp at h
  | c1 :: c2 :: cs, h => exact absurd rfl (h c1 c2 cs)

theorem literalNat_decimal (c : Char) (cs : List Char) (h : c ≠ '0') :
    literalNat (c :: cs) =
      if c = '_' then none
      else
        match digitValue c with
        | some d => if d < 10 then digitsValue 10 cs false d else none
        | none => none := by
  rw [literalNat]
  · intro c1 c2 cs1 h1 _
    exact h h1
  · intro h1
    exact h h1

theorem digitValue_letter (c : Char)
    (h : lower c.toNat = 'b'.toNat ∨ lower c.toNat = 'o'.toNat ∨ lower c.toNat = 'x'.toNat) :
    c ≠ '_' ∧ ∃ d, digitValue c = some d ∧ 11 ≤ d := by
  obtain ⟨hb, ho, hx⟩ := lower_eq_iff c
  rcases h with h | h | h
  · rcases hb.mp h with h | h <;> subst h
    · exact ⟨by decide, 11, rfl, by decide⟩
    · exact ⟨by decide, 11, rfl, by decide⟩
  · rcases ho.mp h with h | h <;> subst h
    · exact ⟨by decide, 24, rfl, by decide⟩
    · exact ⟨by decide, 24, rfl, by decide⟩
  · rcases hx.mp h with h | h <;> subst h
    · exact ⟨by decide, 33, rfl, by decide⟩
    · exact ⟨by decide, 33, rfl, by decide⟩

theorem underscoreOK_prefixed (s : String) (c1 c2 : Char) (cs : List Char)
    (hs : s.data = '0' :: c1 :: c2 :: cs)
    (hp : lower c1.toNat = 'b'.toNat ∨ lower c1.toNat = 'o'.toNat ∨
      lower c1.toNat = 'x'.toNat) :
    underscoreOK s = underscoreScan (lower c1.toNat = 'x'.toNat) (c2 :: cs) '0' := by
  unfold underscoreOK
  rw [hs]
  have h1 : (('0' : Char) = '-' || ('0' : Char) = '+') = false := by decide
  simp only [h1, Bool.false_eq_true, if_false]
  rw [if_pos]
  simpa [or_assoc] using hp

theorem underscoreOK_plain (s : String) (c : Char) (cs : List Char)
    (hs : s.data = c :: cs) (hm : c ≠ '-') (hp : c ≠ '+')
    (hnp : c = '0' → ∀ c1 cs1, cs = c1 :: cs1 →
      ¬ (lower c1.toNat = 'b'.toNat ∨ lower c1.toNat = 'o'.toNat ∨
        lower c1.toNat = 'x'.toNat)) :
    underscoreOK s = underscoreScan false (c :: cs) '^' := by
  unfold underscoreOK
  rw [hs]
  have h1 : (decide (c = '-') || decide (c = '+')) = false := by simp [hm, hp]
  simp only [h1, Bool.false_eq_true, if_false]
  cases cs with
  | nil => rfl
  | cons c1 cs1 =>
    simp only
    rw [if_neg]
    intro h
    simp only [Bool.and_eq_true, Bool.or_eq_true, decide_eq_true_eq] at h
    exact hnp h.1 c1 cs1 rfl (by
      rcases h.2 with (h | h) | h
      · exact Or.inl h
      · exact Or.inr (Or.inl h)
      · exact Or.inr (Or.inr h))

theorem ParseUint_sound_prefixed (s : String) (c1 c2 : Char) (cs : List Char) (b m : Nat) (us1 : Bool)
    (hs : s.data = '0' :: c1 :: c2 :: cs)
    (hb : (lower c1.toNat = 'b'.toNat ∧ b = 2) ∨ (lower c1.toNat = 'o'.toNat ∧ b = 8) ∨
      (lower c1.toNat = 'x'.toNat ∧ b = 16))
    (hl : parseUintLoop b true ((2 ^ 64 - 1) / b + 1) (2 ^ 64 - 1) (c2 :: cs) 0 false =
      .ok (m, us1))
    (hu : us1 = true → underscoreOK s = true) :
    literalNat s.data = some m ∧ m ≤ 2 ^ 64 - 1 := by
  have hp : lower c1.toNat = 'b'.toNat ∨ lower c1.toNat = 'o'.toNat ∨
      lower c1.toNat = 'x'.toNat := by
    rcases hb with h | h | h
    · exact Or.inl h.1
    · exact Or.inr (Or.inl h.1)
    · exact Or.inr (Or.inr h.1)
  rw [underscoreOK_prefixed s c1 c2 cs hs hp] at hu
  have hhex : b ≤ 10 ∨ (decide (lower c1.toNat = 'x'.toNat) = true ∧ b ≤ 16) := by
    rcases hb with h | h | h
    · left; omega
    · left; omega
    · right; exact ⟨by simpa using h.1, by omega⟩
  have hb36 : b ≤ 36 := by rcases hhex with h | h <;> omega
  have key := parseUintLoop_sound b (2 ^ 64 - 1) (decide (lower c1.toNat = 'x'.toNat)) hb36 le_rfl hhex
    (c2 :: cs) 0 false '0' false m us1 hl hu (fun _ => rfl) (fun h => by simp at h)
  refine ⟨?_, key.2 (Nat.zero_le _)⟩
  rw [hs, literalNat_prefixed]
  obtain ⟨eb, eo, ex⟩ := lower_eq_iff c1
  have e1 : 'b'.toNat = 98 := rfl
  have e2 : 'o'.toNat = 111 := rfl
  have e3 : 'x'.toNat = 120 := rfl
  rcases hb with ⟨h, rfl⟩ | ⟨h, rfl⟩ | ⟨h, rfl⟩
  · rw [if_pos (eb.mp h)]; exact key.1
  · rw [if_neg, if_pos (eo.mp h)]
    · exact key.1
    · intro h1; have := eb.mpr h1; rw [e1] at this; rw [e2] at h; omega
  · rw [if_neg, if_neg, if_pos (ex.mp h)]
    · exact key.1
    · intro h1; have := eo.mpr h1; rw [e2] at this; rw [e3] at h; omega
    · intro h1; have := eb.mpr h1; rw [e1] at this; rw [e3] at h; omega

theorem digitValue_zero : digitValue '0' = some 0 := rfl

theorem ParseUint_sound_octal (s : String) (cs : List Char) (m : Nat) (us1 : Bool)
    (hs : s.data = '0' :: cs)
    (hl : parseUintLoop 8 true ((2 ^ 64 - 1) / 8 + 1) (2 ^ 64 - 1) cs 0 false = .ok (m, us1))
    (hu : us1 = true → underscoreOK s = true) :
    digitsValue 8 cs false 0 = some m ∧ m ≤ 2 ^ 64 - 1 := by
  have hnp : ('0' : Char) = '0' → ∀ c1 cs1, cs = c1 :: cs1 →
      ¬ (lower c1.toNat = 'b'.toNat ∨ lower c1.toNat = 'o'.toNat ∨
        lower c1.toNat = 'x'.toNat) := by
    intro _ c1 cs1 hcs hp
    obtain ⟨hc, d, hd, hge⟩ := digitValue_letter c1 hp
    rw [hcs, parseUintLoop_cons 8 (2 ^ 64 - 1) true c1 cs1 0 false hc (by decide) le_rfl, hd] at hl
    simp only at hl
    rw [if_pos (by omega)] at hl
    simp at hl
  rw [underscoreOK_plain s '0' cs hs (by decide) (by decide) hnp,
    underscoreScan_digit false 8 '0' cs '^' 0 digitValue_zero (by decide) (Or.inl (by decide))] at hu
  have key := parseUintLoop_sound 8 (2 ^ 64 - 1) false (by decide) le_rfl (Or.inl (by decide))
    cs 0 false '0' false m us1 hl hu (fun _ => rfl) (fun h => by simp at h)
  exact ⟨key.1, key.2 (Nat.zero_le _)⟩

theorem ParseUint_sound_decimal (s : String) (c : Char) (cs : List Char) (m : Nat) (us1 : Bool)
    (hs : s.data = c :: cs) (hc : c ≠ '0')
    (hl : parseUintLoop 10 true ((2 ^ 64 - 1) / 10 + 1) (2 ^ 64 - 1) (c :: cs) 0 false =
      .ok (m, us1))
    (hu : us1 = true → underscoreOK s = true) :
    literalNat s.data = some m ∧ m ≤ 2 ^ 64 - 1 := by
  rw [hs, literalNat_decimal c cs hc]
  by_cases h_ : c = '_'
  · subst h_
    rw [parseUintLoop_underscore] at hl
    have h1 := parseUintLoop_flag 10 (2 ^ 64 - 1) (by decide) le_rfl cs 0 m us1 hl
    have h2 := hu h1
    rw [underscoreOK_plain s '_' cs hs (by decide) (by decide) (fun h => absurd h (by decide)),
      underscoreScan_underscore] at h2
    simp at h2
  · rw [if_neg h_]
    rw [parseUintLoop_cons 10 (2 ^ 64 - 1) true c cs 0 false h_ (by decide) le_rfl] at hl
    cases hd : digitValue c with
    | none => rw [hd] at hl; simp at hl
    | some d =>
      rw [hd] at hl
      simp only at hl ⊢
      split_ifs at hl with hb hov
      have hm : c ≠ '-' := by intro h; subst h; simp [digitValue] at hd
      have hp : c ≠ '+' := by intro h; subst h; simp [digitValue] at hd
      rw [underscoreOK_plain s c cs hs hm hp (fun h => absurd h hc),
        underscoreScan_digit false 10 c cs '^' d hd (by omega) (Or.inl le_rfl)] at hu
      have key := parseUintLoop_sound 10 (2 ^ 64 - 1) false (by decide) le_rfl (Or.inl le_rfl)
        cs (0 * 10 + d) false '0' false m us1 hl hu (fun _ => rfl) (fun h => by simp at h)
      rw [if_pos (by omega)]
      rw [Nat.zero_mul, Nat.zero_add] at key
      exact ⟨key.1, key.2 (by omega)⟩

theorem ParseUint_sound (s : String) (n : Nat) (h : ParseUint s 0 64 = (n, none)) :
    literalNat s.data = some n ∧ n ≤ 2 ^ 64 - 1 := by
  by_cases h0 : s = ""
  · subst h0
    simp [ParseUint] at h
  rw [ParseUint_unfold s h0] at h
  split at h
  · simp at h
  rename_i picked b digits heq
  cases hl : parseUintLoop b true ((2 ^ 64 - 1) / b + 1) (2 ^ 64 - 1) digits 0 false with
  | error p => rw [hl] at h; simp at h
  | ok r =>
    obtain ⟨m, us1⟩ := r
    rw [hl] at h
    simp only at h
    split_ifs at h with hu
    · simp at h
    have hm : m = n := congrArg Prod.fst h
    subst hm
    have hu1 : us1 = true → underscoreOK s = true := by
      intro h1; subst h1; simpa using hu
    clear h
    split at heq
    · rename_i c1 c2 cs hs
      split_ifs at heq with hb ho hx
      · injection heq with heq; injection heq with e1 e2; subst e1 e2
        exact ParseUint_sound_prefixed s c1 c2 cs 2 m us1 hs (Or.inl ⟨hb, rfl⟩) hl hu1
      · injection heq with heq; injection heq with e1 e2; subst e1 e2
        exact ParseUint_sound_prefixed s c1 c2 cs 8 m us1 hs (Or.inr (Or.inl ⟨ho, rfl⟩)) hl hu1
      · injection heq with heq; injection heq with e1 e2; subst e1 e2
        exact ParseUint_sound_prefixed s c1 c2 cs 16 m us1 hs (Or.inr (Or.inr ⟨hx, rfl⟩)) hl hu1
      · injection heq with heq; injection heq with e1 e2; subst e1 e2
        have key := ParseUint_sound_octal s (c1 :: c2 :: cs) m us1 hs hl hu1
        refine ⟨?_, key.2⟩
        rw [hs, literalNat_prefixed]
        obtain ⟨eb, eo, ex⟩ := lower_eq_iff c1
        rw [if_neg (fun h => hb (eb.mpr h)), if_neg (fun h => ho (eo.mpr h)),
          if_neg (fun h => hx (ex.mpr h))]
        exact key.1
    · rename_i cs hshort hs
      injection heq with heq; injection heq with e1 e2; subst e1 e2
      have key := ParseUint_sound_octal s cs m us1 hs hl hu1
      refine ⟨?_, key.2⟩
      rw [hs, literalNat_zero cs]
      · exact key.1
      · intro c1 c2 cs1 h
        exact hshort c1 c2 cs1 h
    · rename_i cs h3 h1
      injection heq with heq; injection heq with e1 e2; subst e1 e2
      cases hd : s.data with
      | nil => exact absurd (String.ext hd) h0
      | cons c cs =>
        rw [hd] at hl
        have hc : c ≠ '0' := fun hc => h1 cs (by rw [hd, hc])
        rw [← hd]
        exact ParseUint_sound_decimal s c cs m us1 hd hc hl hu1

theorem ParseUint_range (s : String) (n : Nat) (e : NumError)
    (h : ParseUint s 0 64 = (n, some e)) (he : e.Err = ErrRange) : n = 2 ^ 64 - 1 := by
  by_cases h0 : s = ""
  · subst h0
    simp [ParseUint] at h
    rw [← h.2] at he
    exact absurd he (by decide)
  rw [ParseUint_unfold s h0] at h
  split at h
  · injection h with _ h
    injection h with h
    rw [← h] at he
    simp only at he
    exact absurd he (by decide)
  rename_i picked b digits heq
  have hb : b ≤ 36 := by
    split at heq
    · split_ifs at heq <;> injection heq with heq <;> injection heq with e1 e2 <;> omega
    · injection heq with heq; injection heq with e1 e2; omega
    · injection heq with heq; injection heq with e1 e2; omega
  cases hl : parseUintLoop b true ((2 ^ 64 - 1) / b + 1) (2 ^ 64 - 1) digits 0 false with
  | error p =>
    obtain ⟨v, err⟩ := p
    rw [hl] at h
    simp only at h
    injection h with h1 h2
    injection h2 with h2
    rw [← h2] at he
    simp only at he
    rcases parseUintLoop_error b (2 ^ 64 - 1) hb le_rfl digits 0 false v err hl with ⟨_, h3⟩ | ⟨h3, _⟩
    · rw [h3] at he; exact absurd he (by decide)
    · rw [← h1, h3]
  | ok r =>
    obtain ⟨m, us1⟩ := r
    rw [hl] at h
    simp only at h
    split_ifs at h with hu
    · injection h with _ h
      injection h with h
      rw [← h] at he
      simp only at he
      exact absurd he (by decide)
    · simp at h

theorem literalInt_minus (s : String) (cs : List Char) (hs : s.data = '-' :: cs) :
    literalInt s = Option.map (fun (n : Nat) => - (n : Int)) (literalNat cs) := by
  unfold literalInt; rw [hs]; rfl

theorem literalInt_plus (s : String) (cs : List Char) (hs : s.data = '+' :: cs) :
    literalInt s = Option.map (fun (n : Nat) => (n : Int)) (literalNat cs) := by
  unfold literalInt; rw [hs]; rfl

theorem literalInt_unsigned (s : String) (hm : ∀ cs, s.data ≠ '-' :: cs)
    (hp : ∀ cs, s.data ≠ '+' :: cs) :
    literalInt s = Option.map (fun (n : Nat) => (n : Int)) (literalNat s.data) := by
  unfold literalInt
  split
  · rename_i cs h; exact absurd h (hm cs)
  · rename_i cs h; exact absurd h (hp cs)
  · rfl

theorem ParseInt_sound (s : String) (v : Int) (h : ParseInt s 0 64 = (v, none)) :
    literalInt s = some v ∧ inIntRange v := by
  unfold ParseInt at h
  split at h
  · simp at h
  rename_i c cs hs
  simp only at h
  generalize hr : ParseUint (if (decide (c = '+') || decide (c = '-')) = true then
    ({ data := cs } : String) else s) 0 64 = r at h
  obtain ⟨un, err⟩ := r
  have h63 : 2 ^ ((if 64 = 0 then IntSize else 64) - 1) = 2 ^ 63 := rfl
  simp only [h63] at h
  cases err with
  | some e =>
    by_cases he : e.Err = ErrRange
    · have hun := ParseUint_range _ un e hr he
      simp only [Option.map_some', he, if_true] at h
      subst hun
      by_cases hneg : c = '-'
      · simp [hneg] at h
      · simp [hneg] at h
    · simp [he] at h
  | none =>
    obtain ⟨hlit, hle⟩ := ParseUint_sound _ un hr
    simp only [Option.map_none', ite_self] at h
    by_cases hneg : c = '-'
    · subst hneg
      have hs1 : (if (decide (('-' : Char) = '+') || decide (('-' : Char) = '-')) = true then
          ({ data := cs } : String) else s) = ({ data := cs } : String) := by simp
      rw [hs1] at hlit
      simp only at hlit
      rw [literalInt_minus s cs hs, hlit]
      simp only [decide_True, Bool.not_true, Bool.false_and, Bool.false_eq_true, if_false,
        Bool.true_and, decide_eq_true_eq, if_true] at h
      split_ifs at h with h1
      · simp at h
      injection h with h
      subst h
      unfold toInt64 inIntRange
      simp only [Option.map_some', Option.some.injEq]
      norm_num at h1 hle ⊢
      omega
    · by_cases hpos : c = '+'
      · subst hpos
        have hs1 : (if (decide (('+' : Char) = '+') || decide (('+' : Char) = '-')) = true then
            ({ data := cs } : String) else s) = ({ data := cs } : String) := by simp
        rw [hs1] at hlit
        simp only at hlit
        rw [literalInt_plus s cs hs, hlit]
        simp only [hneg, decide_False, Bool.not_false, Bool.true_and, Bool.false_and,
          Bool.false_eq_true, if_false, decide_eq_true_eq] at h
        split_ifs at h with h1
        · simp at h
        injection h with h
        subst h
        unfold toInt64 inIntRange
        simp only [Option.map_some', Option.some.injEq]
        norm_num at h1 hle ⊢
        omega
      · have hs1 : (if (decide (c = '+') || decide (c = '-')) = true then
            ({ data := cs } : String) else s) = s := by simp [hneg, hpos]
        rw [hs1] at hlit
        rw [literalInt_unsigned s (fun cs1 h => hneg (by rw [hs] at h; injection h))
          (fun cs1 h => hpos (by rw [hs] at h; injection h)), hlit]
        simp only [hneg, decide_False, Bool.not_false, Bool.true_and, Bool.false_and,
          Bool.false_eq_true, if_false, decide_eq_true_eq] at h
        split_ifs at h with h1
        · simp at h
        injection h with h
        subst h
        unfold toInt64 inIntRange
        simp only [Option.map_some', Option.some.injEq]
        norm_num at h1 hle ⊢
        omega

/-- The conversion of `intValue.Set` accepts only integer literals of the integer
width, with the number they denote. -/
theorem parseIntBase0_sound (s : String) (v : Int) (h : parseIntBase0 s = .ok v) :
    literalInt s = some v ∧ inIntRange v := by
  unfold parseIntBase0 at h
  have hi : IntSize = 64 := rfl
  rw [hi] at h
  cases hp : ParseInt s 0 64 with
  | mk w err =>
    rw [hp] at h
    cases err with
    | some e => simp at h
    | none =>
      simp only at h
      injection h with h
      subst h
      exact ParseInt_sound s w hp


theorem digitsValue_le (base : Nat) : ∀ (cs : List Char) (sep : Bool) (n m : Nat),
    digitsValue base cs sep n = some m → n ≤ m := by
  intro cs
  induction cs with
  | nil =>
    intro sep n m h
    cases sep with
    | true => simp [digitsValue] at h
    | false => simp [digitsValue] at h; omega
  | cons c cs ih =>
    intro sep n m h
    rw [digitsValue] at h
    split_ifs at h with hc hsep
    · exact ih true n m h
    · cases hd : digitValue c with
      | none => rw [hd] at h; simp at h
      | some d =>
        rw [hd] at h
        simp only at h
        split_ifs at h with hlt
        have := ih false _ m h
        have h1 : n * 1 ≤ n * base := Nat.mul_le_mul_left n (by omega)
        omega

theorem parseUintLoop_complete (base maxVal : Nat) (hbase : base ≤ 36)
    (hmax : maxVal ≤ 2 ^ 64 - 1) :
    ∀ (cs : List Char) (sep : Bool) (n m : Nat) (us : Bool),
      digitsValue base cs sep n = some m → m ≤ maxVal →
      ∃ us1, parseUintLoop base true ((2 ^ 64 - 1) / base + 1) maxVal cs n us
        = .ok (m, us1) := by
  intro cs
  induction cs with
  | nil =>
    intro sep n m us h _
    cases sep with
    | true => simp [digitsValue] at h
    | false =>
      simp [digitsValue] at h
      subst h
      exact ⟨us, by rw [parseUintLoop]⟩
  | cons c cs ih =>
    intro sep n m us h hm
    rw [digitsValue] at h
    split_ifs at h with hc hsep
    · subst hc
      rw [parseUintLoop_underscore]
      exact ih true n m true h hm
    · cases hd : digitValue c with
      | none => rw [hd] at h; simp at h
      | some d =>
        rw [hd] at h
        simp only at h
        split_ifs at h with hlt
        have hle := digitsValue_le base cs false _ m h
        rw [parseUintLoop_cons base maxVal true c cs n us hc hbase hmax, hd]
        simp only
        rw [if_neg (by omega), if_neg (by omega)]
        exact ih false _ m us h hm

theorem underscoreScan_complete (base : Nat) (hex : Bool)
    (hhex : base ≤ 10 ∨ (hex = true ∧ base ≤ 16)) :
    ∀ (cs : List Char) (sep : Bool) (saw : Char) (n m : Nat),
      digitsValue base cs sep n = some m →
      (sep = false → saw = '0') → (sep = true → saw = '_') →
      underscoreScan hex cs saw = true := by
  intro cs
  induction cs with
  | nil =>
    intro sep saw n m h h0 _
    cases sep with
    | true => simp [digitsValue] at h
    | false => rw [h0 rfl]; rfl
  | cons c cs ih =>
    intro sep saw n m h h0 h1
    rw [digitsValue] at h
    split_ifs at h with hc hsep
    · subst hc
      have hs : sep = false := by simpa using hsep
      rw [underscoreScan_underscore, h0 hs]
      simp only [bne_self_eq_false, Bool.false_eq_true, if_false]
      exact ih true '_' n m h (fun h => by simp at h) (fun _ => rfl)
    · cases hd : digitValue c with
      | none => rw [hd] at h; simp at h
      | some d =>
        rw [hd] at h
        simp only at h
        split_ifs at h with hlt
        rw [underscoreScan_digit hex base c cs saw d hd hlt hhex]
        exact ih false '0' _ m h (fun _ => rfl) (fun h => by simp at h)

theorem ParseUint_finish (s : String) (b : Nat) (digits : List Char) (n : Nat)
    (hl : ∃ us1, parseUintLoop b true ((2 ^ 64 - 1) / b + 1) (2 ^ 64 - 1) digits 0 false
      = .ok (n, us1))
    (hu : underscoreOK s = true) :
    (match parseUintLoop b true ((2 ^ 64 - 1) / b + 1) (2 ^ 64 - 1) digits 0 false with
      | .error (v, err) => (v, some ⟨"ParseUint", s, err⟩)
      | .ok (n, underscores) =>
        if underscores && !underscoreOK s then (0, some ⟨"ParseUint", s, ErrSyntax⟩)
        else (n, none) : Nat × Option NumError) = (n, none) := by
  obtain ⟨us1, hl⟩ := hl
  rw [hl]
  simp [hu]

theorem ParseUint_complete (s : String) (n : Nat) (h : literalNat s.data = some n)
    (hn : n ≤ 2 ^ 64 - 1) : ParseUint s 0 64 = (n, none) := by
  cases hd : s.data with
  | nil => rw [hd] at h; simp [literalNat] at h
  | cons c cs =>
    have hne : s ≠ "" := by
      intro h0; rw [h0] at hd; simp at hd
    rw [ParseUint_unfold s hne, hd]
    rw [hd] at h
    by_cases hc : c = '0'
    · subst hc
      have hoct : ∀ cs1, s.data = '0' :: cs1 → digitsValue 8 cs1 false 0 = some n →
          (∀ c1 cs2, cs1 = c1 :: cs2 →
            ¬ (lower c1.toNat = 'b'.toNat ∨ lower c1.toNat = 'o'.toNat ∨
              lower c1.toNat = 'x'.toNat)) →
          (match parseUintLoop 8 true ((2 ^ 64 - 1) / 8 + 1) (2 ^ 64 - 1) cs1 0 false with
            | .error (v, err) => (v, some ⟨"ParseUint", s, err⟩)
            | .ok (n, underscores) =>
              if underscores && !underscoreOK s then (0, some ⟨"ParseUint", s, ErrSyntax⟩)
              else (n, none) : Nat × Option NumError) = (n, none) := by
        intro cs1 hs1 hv hnp
        apply ParseUint_finish
        · exact parseUintLoop_complete 8 _ (by decide) le_rfl _ false 0 n false hv hn
        · rw [underscoreOK_plain s '0' cs1 hs1 (by decide) (by decide) (fun _ => hnp),
            underscoreScan_digit false 8 '0' cs1 '^' 0 digitValue_zero (by decide)
              (Or.inl (by decide))]
          exact underscoreScan_complete 8 false (Or.inl (by decide)) _ false '0' 0 n hv
            (fun _ => rfl) (fun h => by simp at h)
      match cs, h, hd with
      | [], h, hd =>
        rw [literalNat_zero [] (fun _ _ _ h => by simp at h)] at h
        exact hoct [] hd h (fun _ _ h => by simp at h)
      | [c1], h, hd =>
        rw [literalNat_zero [c1] (fun _ _ _ h => by simp at h)] at h
        refine hoct [c1] hd h ?_
        intro c cs2 hcs hp
        injection hcs with h1 h2
        subst h1
        obtain ⟨hc_, d, hdv, hge⟩ := digitValue_letter c1 hp
        rw [digitsValue, if_neg hc_, hdv] at h
        simp only at h
        rw [if_neg (by omega)] at h
        simp at h
      | c1 :: c2 :: cs, h, hd =>
        rw [literalNat_prefixed] at h
        obtain ⟨eb, eo, ex⟩ := lower_eq_iff c1
        simp only
        split_ifs at h with hb ho hx
        · rw [if_pos (eb.mpr hb)]
          simp only
          apply ParseUint_finish
          · exact parseUintLoop_complete 2 _ (by decide) le_rfl _ false 0 n false h hn
          · rw [underscoreOK_prefixed s c1 c2 cs hd (Or.inl (eb.mpr hb))]
            exact underscoreScan_complete 2 _ (Or.inl (by decide)) _ false '0' 0 n h
              (fun _ => rfl) (fun h => by simp at h)
        · rw [if_neg (fun h => hb (eb.mp h)), if_pos (eo.mpr ho)]
          simp only
          apply ParseUint_finish
          · exact parseUintLoop_complete 8 _ (by decide) le_rfl _ false 0 n false h hn
          · rw [underscoreOK_prefixed s c1 c2 cs hd (Or.inr (Or.inl (eo.mpr ho)))]
            exact underscoreScan_complete 8 _ (Or.inl (by decide)) _ false '0' 0 n h
              (fun _ => rfl) (fun h => by simp at h)
        · rw [if_neg (fun h => hb (eb.mp h)), if_neg (fun h => ho (eo.mp h)),
            if_pos (ex.mpr hx)]
          simp only
          apply ParseUint_finish
          · exact parseUintLoop_complete 16 _ (by decide) le_rfl _ false 0 n false h hn
          · rw [underscoreOK_prefixed s c1 c2 cs hd (Or.inr (Or.inr (ex.mpr hx)))]
            exact underscoreScan_complete 16 _
              (Or.inr ⟨by simpa using ex.mpr hx, by decide⟩) _ false '0' 0 n h
              (fun _ => rfl) (fun h => by simp at h)
        · rw [if_neg (fun h => hb (eb.mp h)), if_neg (fun h => ho (eo.mp h)),
            if_neg (fun h => hx (ex.mp h))]
          simp only
          refine hoct (c1 :: c2 :: cs) hd h ?_
          intro c cs2 hcs hp
          injection hcs with h1 h2
          subst h1
          rcases hp with hp | hp | hp
          · exact hb (eb.mp hp)
          · exact ho (eo.mp hp)
          · exact hx (ex.mp hp)
    · rw [literalNat_decimal c cs hc] at h
      split_ifs at h with h_
      cases hdv : digitValue c with
      | none => rw [hdv] at h; simp at h
      | some d =>
        rw [hdv] at h
        simp only at h
        split_ifs at h with hlt
        have hpick : (match c :: cs with
            | '0' :: c1 :: c2 :: cs =>
              if lower c1.toNat = 'b'.toNat then some (2, c2 :: cs)
              else if lower c1.toNat = 'o'.toNat then some (8, c2 :: cs)
              else if lower c1.toNat = 'x'.toNat then some (16, c2 :: cs)
              else some (8, c1 :: c2 :: cs)
            | '0' :: cs => some (8, cs)
            | cs => (some (10, cs) : Option (Nat × List Char))) = some (10, c :: cs) := by
          split
          · rename_i h1; injection h1 with h1 _; exact absurd h1 hc
          · rename_i h1; injection h1 with h1 _; exact absurd h1 hc
          · rfl
        rw [hpick]
        simp only
        have hm : c ≠ '-' := by intro h; subst h; simp [digitValue] at hdv
        have hp : c ≠ '+' := by intro h; subst h; simp [digitValue] at hdv
        apply ParseUint_finish
        · have := parseUintLoop_complete 10 (2 ^ 64 - 1) (by decide) le_rfl cs false
            (0 * 10 + d) n false (by rw [Nat.zero_mul, Nat.zero_add]; exact h) hn
          rw [parseUintLoop_cons 10 (2 ^ 64 - 1) true c cs 0 false h_ (by decide) le_rfl, hdv]
          simp only
          have hle := digitsValue_le 10 cs false d n h
          rw [if_neg (by omega), if_neg (by omega)]
          exact this
        · rw [underscoreOK_plain s c cs hd hm hp (fun h => absurd h hc),
            underscoreScan_digit false 10 c cs '^' d hdv hlt (Or.inl le_rfl)]
          exact underscoreScan_complete 10 false (Or.inl le_rfl) _ false '0' d n h
            (fun _ => rfl) (fun h => by simp at h)

theorem ParseInt_complete (s : String) (v : Int) (h : literalInt s = some v)
    (hr : inIntRange v) : ParseInt s 0 64 = (v, none) := by
  unfold inIntRange at hr
  have h63 : 2 ^ ((if 64 = 0 then IntSize else 64) - 1) = 2 ^ 63 := rfl
  cases hd : s.data with
  | nil =>
    rw [literalInt_unsigned s (fun cs h => by rw [hd] at h; simp at h)
      (fun cs h => by rw [hd] at h; simp at h), hd] at h
    simp [literalNat] at h
  | cons c cs =>
    unfold ParseInt
    rw [hd]
    simp only [h63]
    by_cases hneg : c = '-'
    · subst hneg
      rw [literalInt_minus s cs hd] at h
      cases hl : literalNat cs with
      | none => rw [hl] at h; simp at h
      | some n =>
        rw [hl] at h
        simp only [Option.map_some', Option.some.injEq] at h
        subst h
        have hs1 : (if (decide (('-' : Char) = '+') || decide (('-' : Char) = '-')) = true then
            ({ data := cs } : String) else s) = ({ data := cs } : String) := by simp
        have hpu := ParseUint_complete ({ data := cs } : String) n hl (by norm_num; omega)
        rw [hs1, hpu]
        simp only [Option.map_none', ite_self, decide_True, Bool.not_true, Bool.false_and,
          Bool.false_eq_true, if_false, Bool.true_and, decide_eq_true_eq, if_true]
        rw [if_neg (by norm_num; omega)]
        unfold toInt64
        refine Prod.ext ?_ rfl
        simp only
        omega
    · by_cases hpos : c = '+'
      · subst hpos
        rw [literalInt_plus s cs hd] at h
        cases hl : literalNat cs with
        | none => rw [hl] at h; simp at h
        | some n =>
          rw [hl] at h
          simp only [Option.map_some', Option.some.injEq] at h
          subst h
          have hs1 : (if (decide (('+' : Char) = '+') || decide (('+' : Char) = '-')) = true
              then ({ data := cs } : String) else s) = ({ data := cs } : String) := by simp
          have hpu := ParseUint_complete ({ data := cs } : String) n hl (by norm_num; omega)
          rw [hs1, hpu]
          simp only [Option.map_none', ite_self, hneg, decide_False, Bool.not_false,
            Bool.true_and, Bool.false_and, Bool.false_eq_true, if_false, decide_eq_true_eq]
          rw [if_neg (by norm_num; omega)]
          unfold toInt64
          refine Prod.ext ?_ rfl
          simp only
          omega
      · rw [literalInt_unsigned s (fun cs1 h => hneg (by rw [hd] at h; injection h))
          (fun cs1 h => hpos (by rw [hd] at h; injection h))] at h
        cases hl : literalNat s.data with
        | none => rw [hl] at h; simp at h
        | some n =>
          rw [hl] at h
          simp only [Option.map_some', Option.some.injEq] at h
          subst h
          have hs1 : (if (decide (c = '+') || decide (c = '-')) = true then
              ({ data := cs } : String) else s) = s := by simp [hneg, hpos]
          have hpu := ParseUint_complete s n hl (by norm_num; omega)
          rw [hs1, hpu]
          simp only [Option.map_none', ite_self, hneg, decide_False, Bool.not_false,
            Bool.true_and, Bool.false_and, Bool.false_eq_true, if_false, decide_eq_true_eq]
          rw [if_neg (by norm_num; omega)]
          unfold toInt64
          refine Prod.ext ?_ rfl
          simp only
          omega

/-- The conversion of `intValue.Set` accepts every integer literal of the integer
width, with the number it denotes. -/
theorem parseIntBase0_complete (s : String) (v : Int) (h : literalInt s = some v)
    (hr : inIntRange v) : parseIntBase0 s = .ok v := by
  unfold parseIntBase0
  have hi : IntSize = 64 := rfl
  rw [hi, ParseInt_complete s v h hr]

/-- C6, counterexample: `A` and `B` are bound to the same integer cell, holding 0;
`A=5` converts, `B=not_a_number` is rejected by `intValue.Set`; `Parse` under
`ContinueOnError` visits `A`, fails on `B`, and the cell bound to `B` holds 5. -/
theorem C6_counterexample_shared_cell :
    aliasSet.errorHandling = ContinueOnError ∧
    aliasSet.envs "B" = some (some aliasEnvB) ∧ aliasEnvB.Value = .intValue 0 ∧
    (intValue_Set parseIntBase0 0 "not_a_number" heapZero).2 ≠ none ∧
    EnvSet.Parse aliasEnviron parseIntBase0 ["A", "B"] aliasSet heapZero
      = .ret aliasSetFailed
          (some ("Parse: error while parsing env: B: error setting int value: " ++
            "strconv.ParseInt: parsing \"not_a_number\": invalid syntax")) ∧
    heapZero.ints 0 = 0 ∧ aliasSetFailed.2.ints 0 = 5 := by
  refine ⟨rfl, rfl, rfl, ?_, rfl, rfl, rfl⟩
  decide

/-- C6, amended: `intValue.Set` on a string that is not a valid integer literal, or
whose literal overflows the integer width, returns an error and leaves memory, so the
cell, as it was; and when `Parse` returns an error (which it does only under
`ContinueOnError`), a registered name bound to an integer cell whose non-empty value
the conversion rejects has its `IsSet` answer as it was before the call, and its cell
as it was before the call provided no other registered name is bound to the same
cell. -/
theorem C6_rejected_value_keeps_cell :
    (∀ (p : Addr) (x : String) (h : Heap),
      (literalInt x = none ∨ ∃ v, literalInt x = some v ∧ ¬ inIntRange v) →
      ∃ err, intValue_Set parseIntBase0 p x h = (h, some err)) ∧
    (∀ (parseInt : ParseIntFn) (environ : Environ) (e : EnvSet) (order : List String)
      (h : Heap) (s : EnvSet × Heap) (msg : Error) (n : String) (env : Env) (p : Addr),
      EnvSet.Parse environ parseInt order e h = .ret s (some msg) →
      e.envs n = some (some env) → env.Value = .intValue p →
      Getenv environ (fullname e n) ≠ "" →
      (intValue_Set parseInt p (Getenv environ (fullname e n)) h).2 ≠ none →
      s.1.IsSet n = e.IsSet n ∧
      ((∀ m, m ≠ n → boundTo e m ≠ some (.intValue p)) → s.2.ints p = h.ints p)) := by
  constructor
  · intro p x h hx
    cases hp : parseIntBase0 x with
    | error err => exact ⟨"error setting int value: " ++ err, by simp [intValue_Set, hp]⟩
    | ok v =>
      obtain ⟨hlit, hr⟩ := parseIntBase0_sound x v hp
      rcases hx with hx | ⟨w, hw, hnr⟩
      · rw [hlit] at hx; simp at hx
      · rw [hlit] at hw
        injection hw with hw
        subst hw
        exact absurd hr hnr
  · intro parseInt environ e order h s msg n env p hret he hev hv hrej0
    have hb : boundTo e n = some (.intValue p) := by
      rw [boundTo_of_envs e n env he, hev]
    have hrej : ((Value.intValue p).Set parseInt (Getenv environ (fullname e n)) h).2
        ≠ none := hrej0
    have hst : (EnvSet.Parse environ parseInt order e h).state? = some s := by
      rw [hret]; rfl
    constructor
    · apply IsSet_congr
      exact Parse_flag_frame environ parseInt n h order e h s
        (fun _ => ⟨.intValue p, hb, hv, hrej⟩) hst
    · intro halone
      have hfr := Parse_frame environ parseInt (.intValue p) h order e h s ?_ hst
      · simpa [Value.Get] using hfr
      · intro m _ hbm
        by_cases hmn : m = n
        · right; rw [hmn]; exact hrej
        · exact absurd hbm (halone m hmn)

/-- Witness of C6: `not_a_number` is not an integer literal and `9223372036854775808`
overflows 64 bits, and the conversion of either leaves memory as it was; in
`TestEnvWithErrors` the `IsSet` answer of `TEST_INT64` and its cell are unchanged by
the failing `Parse`. -/
theorem C6_rejected_value_keeps_cell_witness :
    literalInt "not_a_number" = none ∧
    (∃ err, intValue_Set parseIntBase0 0 "not_a_number" heapDefaults
      = (heapDefaults, some err)) ∧
    literalInt "9223372036854775808" = some 9223372036854775808 ∧
    (∃ err, intValue_Set parseIntBase0 0 "9223372036854775808" heapDefaults
      = (heapDefaults, some err)) ∧
    EnvSet.Parse errorsEnviron parseIntBase0 ["DUPLICATE", "TEST_INT64"] errorsSet heapZero
      = .ret errorsSetFailed (some errorsMessage) ∧
    errorsSetFailed.1.IsSet "TEST_INT64" = errorsSet.IsSet "TEST_INT64" ∧
    errorsSetFailed.2.ints 0 = heapZero.ints 0 :=
  have hparse := C6_rejected_value_keeps_cell.2 parseIntBase0 errorsEnviron errorsSet
    ["DUPLICATE", "TEST_INT64"] heapZero errorsSetFailed errorsMessage "TEST_INT64"
    testInt64Env 0 rfl rfl rfl (by decide) (by decide)
  ⟨rfl, C6_rejected_value_keeps_cell.1 0 "not_a_number" heapDefaults (Or.inl rfl), rfl,
    C6_rejected_value_keeps_cell.1 0 "9223372036854775808" heapDefaults
      (Or.inr ⟨9223372036854775808, rfl, by unfold inIntRange; omega⟩),
    rfl, hparse.1,
    hparse.2 (by
      intro m hm
      by_cases h1 : m = "DUPLICATE"
      · simp [h1, boundTo, errorsSet, mapStore, duplicateEnv]
      · simp [h1, hm, boundTo, errorsSet, mapStore])⟩

/-- C7, counterexample: in `TestEnvWithErrors`, `Parse` under `ContinueOnError` visits
`DUPLICATE`, returns the conversion error of `TEST_INT64`, and `Parsed()` is false
afterwards. -/
theorem C7_counterexample_Parsed_false_after_error :
    errorsSet.errorHandling = ContinueOnError ∧
    EnvSet.Parse errorsEnviron parseIntBase0 ["DUPLICATE", "TEST_INT64"] errorsSet heapZero
      = .ret errorsSetFailed (some errorsMessage) ∧
    errorsSetFailed.1.Parsed = false :=
  ⟨rfl, rfl, rfl⟩

/-- C7, amended: after a call to `Parse` that returns nil, `Parsed()` returns true;
after a call that returns an error, `Parsed()` returns what it returned before the
call. -/
theorem C7_Parsed_after_Parse (environ : Environ) (parseInt : ParseIntFn) (e : EnvSet)
    (order : List String) (h : Heap) (s : EnvSet × Heap) (a : Option Error)
    (hret : EnvSet.Parse environ parseInt order e h = .ret s a) :
    (a = none → s.1.Parsed = true) ∧ (a ≠ none → s.1.Parsed = e.Parsed) :=
  Parse_parsed environ parseInt order e h s a hret

/-- Witness of C7: `Parsed()` is true after the `Parse` of `TestEnv`, and still false
after the failing `Parse` of `TestEnvWithErrors`. -/
theorem C7_Parsed_after_Parse_witness :
    testSetParsed.1.Parsed = true ∧ errorsSetFailed.1.Parsed = errorsSet.Parsed :=
  ⟨(C7_Parsed_after_Parse testEnviron parseIntBase0 testSet ["TEST_INT64", "TEST_STRING"]
      heapZero testSetParsed none rfl).1 rfl,
    (C7_Parsed_after_Parse errorsEnviron parseIntBase0 errorsSet
      ["DUPLICATE", "TEST_INT64"] heapZero errorsSetFailed (some errorsMessage) rfl).2
      (by simp)⟩

/-- C8: under `ContinueOnError`, `Var`, `Int64Var` and `StringVar` called with a name
that is already registered return an error (the redefinition error when the name matches
the identifier pattern) and leave the whole set as it was: the name still maps to the
Env of its first registration and no entry is added or removed. -/
theorem C8_Var_duplicate_name (e : EnvSet) (name : String)
    (hc : e.errorHandling = ContinueOnError) (hreg : (e.envs name).isSome = true) :
    (∀ value : Value, ∃ err, e.Var value name = .ret e (some err) ∧
      (matchRegexpString name = true → err = e.name ++ " flag redefined: " ++ name)) ∧
    (∀ p : Addr, ∃ err, e.Int64Var p name = .ret e (some err)) ∧
    (∀ p : Addr, ∃ err, e.StringVar p name = .ret e (some err)) := by
  have key : ∀ value : Value, ∃ err, e.Var value name = .ret e (some err) ∧
      (matchRegexpString name = true → err = e.name ++ " flag redefined: " ++ name) := by
    intro value
    by_cases hm : matchRegexpString name = true
    · exact ⟨e.name ++ " flag redefined: " ++ name,
        by simp [EnvSet.Var, isValidEnvironment, hm, hreg, handleErrors, hc], fun _ => rfl⟩
    · exact ⟨"Var: env name " ++ name ++ " does not conform to regular expression: " ++
          regexpString,
        by simp [EnvSet.Var, isValidEnvironment, hm, handleErrors, hc],
        fun h => absurd h hm⟩
  refine ⟨key, fun p => ?_, fun p => ?_⟩
  · obtain ⟨err, h1, _⟩ := key (.intValue p)
    exact ⟨err, h1⟩
  · obtain ⟨err, h1, _⟩ := key (.stringValue p)
    exact ⟨err, h1⟩

/-- Witness of C8: the second `Int64Var(&testInt64DefinedTwice, "DUPLICATE")` of
`TestEnvWithErrors`. -/
theorem C8_Var_duplicate_name_witness :
    ∃ err, duplicateSet.Int64Var 2 "DUPLICATE" = .ret duplicateSet (some err) :=
  (C8_Var_duplicate_name duplicateSet "DUPLICATE" rfl rfl).2.1 2

/-- C9: under `ContinueOnError`, `Var` returns an error and leaves the set as it was
whenever the name does not match `^[a-zA-Z_][a-zA-Z0-9_]*$`, the empty name included;
when the name matches and is not yet registered, `Var` returns nil, having stored a
fresh Env under the name. -/
theorem C9_Var_name_pattern (e : EnvSet) (value : Value) (name : String)
    (hc : e.errorHandling = ContinueOnError) :
    (matchRegexpString name = false → ∃ err, e.Var value name = .ret e (some err)) ∧
    (matchRegexpString name = true → e.envs name = none →
      e.Var value name = .ret { e with
        envs := mapStore e.envs name (some ⟨name, value, false⟩) } none) ∧
    matchRegexpString "" = false := by
  refine ⟨fun hm => ?_, fun hm hn => ?_, by decide⟩
  · exact ⟨"Var: env name " ++ name ++ " does not conform to regular expression: " ++
        regexpString,
      by simp [EnvSet.Var, isValidEnvironment, hm, handleErrors, hc]⟩
  · simp [EnvSet.Var, isValidEnvironment, hm, hn, handleErrors]

/-- Witness of C9: in `TestEnvWithErrors`, registering under the name `%.?/$` fails and
registering `TEST_INT64` on the fresh set succeeds. -/
theorem C9_Var_name_pattern_witness :
    (∃ err, duplicateSet.Var (.intValue 1) "%.?/$" = .ret duplicateSet (some err)) ∧
    (NewEnvSet "testWithErrors" ContinueOnError).Var (.intValue 0) "TEST_INT64"
      = .ret { NewEnvSet "testWithErrors" ContinueOnError with
          envs := mapStore (fun _ => none) "TEST_INT64" (some testInt64Env) } none :=
  ⟨(C9_Var_name_pattern duplicateSet (.intValue 1) "%.?/$" rfl).1 (by decide),
    (C9_Var_name_pattern (NewEnvSet "testWithErrors" ContinueOnError) (.intValue 0)
      "TEST_INT64" rfl).2.1 (by decide) rfl⟩

/-- C10: under `ContinueOnError`, `SetPrefix` with a prefix that does not match the
identifier pattern, such as `BAD!NAME` or `%.?/$`, returns an error and the set it
leaves is the set it was called on: stored prefix, registration table and all, so that
every later `Var` and `Parse` gives what it gives without the call. -/
theorem C10_SetPrefix_invalid (e : EnvSet) (p : String)
    (hc : e.errorHandling = ContinueOnError) (hbad : matchRegexpString p = false) :
    (∃ err, e.SetPrefix p = .ret e (some err)) ∧
    (∀ s, (e.SetPrefix p).state? = some s →
      s.pfx = e.pfx ∧ s.envs = e.envs ∧
      (∀ value name, s.Var value name = e.Var value name) ∧
      (∀ environ parseInt order h, EnvSet.Parse environ parseInt order s h
        = EnvSet.Parse environ parseInt order e h)) ∧
    matchRegexpString "BAD!NAME" = false ∧ matchRegexpString "%.?/$" = false := by
  have h1 : e.SetPrefix p = .ret e (some ("SetPrefix: prefix " ++ p ++
      " does not conform to regular expression: " ++ regexpString)) := by
    simp [EnvSet.SetPrefix, isValidEnvironment, hbad, handleErrors, hc]
  refine ⟨⟨_, h1⟩, ?_, by decide, by decide⟩
  intro s hs
  rw [h1] at hs
  simp only [Outcome.state?, Option.some.injEq] at hs
  subst hs
  exact ⟨rfl, rfl, fun _ _ => rfl, fun _ _ _ _ => rfl⟩

/-- Witness of C10: `SetPrefix("%.?/$")` on the fresh set of `TestEnvWithErrors`. -/
theorem C10_SetPrefix_invalid_witness :
    ∃ err, (NewEnvSet "testWithErrors" ContinueOnError).SetPrefix "%.?/$"
      = .ret (NewEnvSet "testWithErrors" ContinueOnError) (some err) :=
  (C10_SetPrefix_invalid (NewEnvSet "testWithErrors" ContinueOnError) "%.?/$" rfl
    (by decide)).1

/-! ## Second part of the claims -/

/-- A pass reads the environment only at the fully-qualified names of the visited
registrations. -/
theorem Parse_congr_read (environ environ2 : Environ) (parseInt : ParseIntFn)
    (order : List String) : ∀ (e : EnvSet) (h : Heap),
    (∀ m ∈ order, (e.envs m).isSome = true →
      Getenv environ2 (fullname e m) = Getenv environ (fullname e m)) →
    EnvSet.Parse environ2 parseInt order e h = EnvSet.Parse environ parseInt order e h := by
  induction order with
  | nil => intro e h _; rfl
  | cons name rest ih =>
    intro e h hq
    have hq' : ∀ m ∈ rest, (e.envs m).isSome = true →
        Getenv environ2 (fullname e m) = Getenv environ (fullname e m) :=
      fun m hm => hq m (List.mem_cons_of_mem _ hm)
    cases he : e.envs name with
    | none =>
      rw [Parse_cons_absent _ _ _ _ _ _ he, Parse_cons_absent _ _ _ _ _ _ he]
      exact ih e h hq'
    | some envp =>
      cases envp with
      | none => rw [Parse_cons_nilEnv _ _ _ _ _ _ he, Parse_cons_nilEnv _ _ _ _ _ _ he]
      | some env =>
        have hhead := hq name (List.mem_cons_self _ _) (by simp [he])
        have ih1 : ∀ h1, EnvSet.Parse environ2 parseInt rest (markSet e name env) h1
            = EnvSet.Parse environ parseInt rest (markSet e name env) h1 := by
          intro h1
          apply ih
          intro m hm hsome
          apply hq' m hm
          by_cases hmn : m = name
          · rw [hmn, he]; rfl
          · simpa [markSet, mapStore, hmn] using hsome
        have ih2 : ∀ h1, EnvSet.Parse environ2 parseInt rest e h1
            = EnvSet.Parse environ parseInt rest e h1 := fun h1 => ih e h1 hq'
        simp only [EnvSet.Parse, he, hhead, ih1, ih2]

/-- C11: for a prefix `p` matching the identifier pattern, `SetPrefix(p)` stores `p`
under every policy; with `p` stored, the variable `Parse` reads for the registration `n`
is `p`, underscore, `n`, and the outcome of `Parse` depends on the environment only
through these prefixed variables of the registered names; a registration does not
record the prefix, so `SetPrefix(p)` then `Var(v, n)` and `Var(v, n)` then
`SetPrefix(p)` end in the same set with the same error, hence in the same `Parse`. -/
theorem C11_prefix_read_at_Parse (e : EnvSet) (p : String)
    (hp : matchRegexpString p = true) :
    e.SetPrefix p = .ret { e with pfx := p } none ∧
    (∀ n, fullname { e with pfx := p } n = p ++ "_" ++ n) ∧
    (∀ (environ environ2 : Environ) (parseInt : ParseIntFn) (order : List String)
      (h : Heap),
      (∀ m, (e.envs m).isSome = true →
        Getenv environ2 (p ++ "_" ++ m) = Getenv environ (p ++ "_" ++ m)) →
      EnvSet.Parse environ2 parseInt order { e with pfx := p } h
        = EnvSet.Parse environ parseInt order { e with pfx := p } h) ∧
    (∀ (value : Value) (n : String) (e1 : EnvSet) (a : Option Error),
      e.Var value n = .ret e1 a →
      ({ e with pfx := p } : EnvSet).Var value n = .ret { e1 with pfx := p } a ∧
      e1.SetPrefix p = .ret { e1 with pfx := p } none) := by
  have hne : p ≠ "" := by
    intro h0
    rw [h0] at hp
    exact absurd hp (by decide)
  have hset : ∀ e0 : EnvSet, e0.SetPrefix p = .ret { e0 with pfx := p } none := by
    intro e0
    simp [EnvSet.SetPrefix, isValidEnvironment, hp, handleErrors]
  have hfull : ∀ n, fullname { e with pfx := p } n = p ++ "_" ++ n := by
    intro n
    simp [fullname, hne]
  refine ⟨hset e, hfull, ?_, ?_⟩
  · intro environ environ2 parseInt order h hq
    apply Parse_congr_read
    intro m _ hm
    rw [hfull m]
    exact hq m hm
  · intro value n e1 a hv
    refine ⟨?_, hset e1⟩
    have hmap : ({ e with pfx := p } : EnvSet).Var value n
        = (e.Var value n).mapState (fun s => { s with pfx := p }) := by
      simp only [EnvSet.Var, isValidEnvironment, handleErrors]
      by_cases hm : matchRegexpString n = true
      · cases hx : e.envs n with
        | none => simp [hm, hx, Outcome.mapState]
        | some x =>
          simp only [hm, hx, Bool.not_true, Bool.false_eq_true, if_false,
            Option.isSome_some, if_true]
          split_ifs <;> rfl
      · simp only [Bool.not_eq_true] at hm
        simp only [hm, Bool.not_false, if_true]
        split_ifs <;> rfl
    rw [hmap, hv]
    rfl

/-- Witness of C11, the scenario of `TestEnvWithPrefix`: the prefix `PREFIX` is stored,
`PREFIX_TEST_STRING=forty-two` is what `Parse` reads for `TEST_STRING`, and the
unprefixed `TEST_STRING=unprefixed` is not. -/
theorem C11_prefix_read_at_Parse_witness :
    (NewEnvSet "testWithPrefix" ContinueOnError).SetPrefix "PREFIX"
      = .ret { NewEnvSet "testWithPrefix" ContinueOnError with pfx := "PREFIX" } none ∧
    fullname { prefixSet with pfx := "PREFIX" } "TEST_STRING"
      = "PREFIX" ++ "_" ++ "TEST_STRING" ∧
    ((EnvSet.Parse prefixEnviron parseIntBase0 ["TEST_INT64", "TEST_STRING"] prefixSet
      heapZero).state?.map (fun s => (s.2.strs 0, s.2.ints 0))) = some ("forty-two", 42) :=
  ⟨(C11_prefix_read_at_Parse (NewEnvSet "testWithPrefix" ContinueOnError) "PREFIX"
      (by decide)).1,
    (C11_prefix_read_at_Parse prefixSet "PREFIX" (by decide)).2.1 "TEST_STRING", rfl⟩

/-- The diagnostic label plays no part in a pass. -/
theorem Parse_label (environ : Environ) (parseInt : ParseIntFn) (nm : String)
    (order : List String) : ∀ (e : EnvSet) (h : Heap),
    EnvSet.Parse environ parseInt order { e with name := nm } h
      = (EnvSet.Parse environ parseInt order e h).mapState
          (fun s => ({ s.1 with name := nm }, s.2)) := by
  induction order with
  | nil => intro e h; rfl
  | cons name rest ih =>
    intro e h
    cases he : e.envs name with
    | none =>
      rw [Parse_cons_absent _ _ _ _ { e with name := nm } h he,
        Parse_cons_absent _ _ _ _ e h he]
      exact ih e h
    | some envp =>
      cases envp with
      | none =>
        rw [Parse_cons_nilEnv _ _ _ _ { e with name := nm } h he,
          Parse_cons_nilEnv _ _ _ _ e h he]
        rfl
      | some env =>
        by_cases hok : Getenv environ (fullname e name) = "" ∨
            (env.Value.Set parseInt (Getenv environ (fullname e name)) h).2 = none
        · rw [Parse_cons_ok _ _ _ _ { e with name := nm } h env he hok,
            Parse_cons_ok _ _ _ _ e h env he hok]
          exact ih (markSet e name env) _
        · rw [not_or] at hok
          obtain ⟨hv, hS⟩ := hok
          obtain ⟨inner, hS⟩ := Option.ne_none_iff_exists'.mp hS
          rw [Parse_cons_fail _ _ _ _ { e with name := nm } h env inner he hv hS,
            Parse_cons_fail _ _ _ _ e h env inner he hv hS]
          by_cases h1 : e.errorHandling = ContinueOnError
          · rw [if_pos h1, if_pos h1]; rfl
          · rw [if_neg h1, if_neg h1]
            by_cases h2 : e.errorHandling = ExitOnError
            · rw [if_pos h2, if_pos h2]; rfl
            · rw [if_neg h2, if_neg h2]
              by_cases h3 : e.errorHandling = PanicOnError
              · rw [if_pos h3, if_pos h3]; rfl
              · rw [if_neg h3, if_neg h3]
                exact ih e h

/-- C16: `Init(name, errorHandling)` sets the diagnostic label and the policy and
nothing else: the registration table (names, bound values, isSet flags), the stored
prefix and the flag `parsed` are as before, so the same visiting orders are possible
and a `Parse` after `Init` is, the label aside, the `Parse` of the same set under the
new policy. -/
theorem C16_Init_keeps_registrations (e : EnvSet) (name : String)
    (errorHandling : ErrorHandling) :
    (e.Init name errorHandling).name = name ∧
    (e.Init name errorHandling).errorHandling = errorHandling ∧
    (e.Init name errorHandling).envs = e.envs ∧
    (e.Init name errorHandling).pfx = e.pfx ∧
    (e.Init name errorHandling).Parsed = e.Parsed ∧
    (∀ n, (e.Init name errorHandling).IsSet n = e.IsSet n) ∧
    (∀ order, RangeOrder (e.Init name errorHandling) order ↔ RangeOrder e order) ∧
    (∀ (environ : Environ) (parseInt : ParseIntFn) (order : List String) (h : Heap),
      EnvSet.Parse environ parseInt order (e.Init name errorHandling) h
        = (EnvSet.Parse environ parseInt order
            { e with errorHandling := errorHandling } h).mapState
            (fun s => ({ s.1 with name := name }, s.2))) := by
  refine ⟨rfl, rfl, rfl, rfl, rfl, fun _ => rfl, fun _ => Iff.rfl, ?_⟩
  intro environ parseInt order h
  exact Parse_label environ parseInt name order { e with errorHandling := errorHandling } h

/-- A pass returns an error only under `ContinueOnError`. -/
theorem Parse_error_policy (environ : Environ) (parseInt : ParseIntFn)
    (order : List String) : ∀ (e : EnvSet) (h : Heap) (s : EnvSet × Heap) (msg : Error),
    EnvSet.Parse environ parseInt order e h = .ret s (some msg) →
    e.errorHandling = ContinueOnError := by
  induction order with
  | nil => intro e h s msg hs; simp [Parse_nil] at hs
  | cons name rest ih =>
    intro e h s msg hs
    cases he : e.envs name with
    | none =>
      rw [Parse_cons_absent _ _ _ _ _ _ he] at hs
      exact ih e h s msg hs
    | some envp =>
      cases envp with
      | none =>
        rw [Parse_cons_nilEnv _ _ _ _ _ _ he] at hs
        simp at hs
      | some env =>
        by_cases hok : Getenv environ (fullname e name) = "" ∨
            (env.Value.Set parseInt (Getenv environ (fullname e name)) h).2 = none
        · rw [Parse_cons_ok _ _ _ _ _ _ env he hok] at hs
          exact ih (markSet e name env) _ s msg hs
        · rw [not_or] at hok
          obtain ⟨hv, hS⟩ := hok
          obtain ⟨inner, hS⟩ := Option.ne_none_iff_exists'.mp hS
          rw [Parse_cons_fail _ _ _ _ _ _ env inner he hv hS] at hs
          split at hs
          · assumption
          · split at hs
            · simp at hs
            · split at hs
              · simp at hs
              · exact ih e h s msg hs

/-- The three operations with a policy switch, `Var`, `SetPrefix` and `Parse`, return
an error only under `ContinueOnError`. -/
theorem errors_returned_only_under_ContinueOnError (e : EnvSet) :
    (∀ value name s msg, e.Var value name = .ret s (some msg) →
      e.errorHandling = ContinueOnError) ∧
    (∀ p s msg, e.SetPrefix p = .ret s (some msg) → e.errorHandling = ContinueOnError) ∧
    (∀ environ parseInt order h s msg,
      EnvSet.Parse environ parseInt order e h = .ret s (some msg) →
      e.errorHandling = ContinueOnError) := by
  refine ⟨?_, ?_, fun environ parseInt order h s msg hs =>
    Parse_error_policy environ parseInt order e h s msg hs⟩
  · intro value name s msg hs
    by_contra hc
    simp only [EnvSet.Var, isValidEnvironment, handleErrors, hc, if_false] at hs
    by_cases hm : matchRegexpString name = true
    · cases hx : e.envs name with
      | none => simp [hm, hx] at hs
      | some x =>
        simp only [hm, hx, Bool.not_true, Bool.false_eq_true, if_false, Option.isSome_some,
          if_true] at hs
        split_ifs at hs
        all_goals simp at hs
    · simp only [Bool.not_eq_true] at hm
      simp only [hm, Bool.not_false, if_true] at hs
      split_ifs at hs
      all_goals simp at hs
  · intro p s msg hs
    by_contra hc
    simp only [EnvSet.SetPrefix, isValidEnvironment, handleErrors, hc, if_false] at hs
    by_cases hm : matchRegexpString p = true
    · simp [hm] at hs
    · simp only [Bool.not_eq_true] at hm
      simp only [hm, Bool.not_false, if_true] at hs
      split_ifs at hs
      all_goals simp at hs

/-- C14, the code at the failing input: on a set with policy `ExitOnError`, or with
policy `PanicOnError`, `IsSet` of a name that was never registered returns its error to
the caller; on the same sets a failing `Var` and a failing `SetPrefix` exit with
status 2, or panic. -/
theorem C14_IsSet_error_bypasses_policy :
    (NewEnvSet "test" ExitOnError).IsSet "UNDEFINED_ENV"
      = (false, some "IsSet: env not defined: UNDEFINED_ENV") ∧
    (NewEnvSet "test" PanicOnError).IsSet "UNDEFINED_ENV"
      = (false, some "IsSet: env not defined: UNDEFINED_ENV") ∧
    (NewEnvSet "test" ExitOnError).Var (.intValue 0) "BAD!NAME"
      = .exit ("Var: env name BAD!NAME does not conform to regular expression: " ++
          regexpString ++ "\n") 2 ∧
    (NewEnvSet "test" PanicOnError).SetPrefix "BAD!NAME"
      = .panic (NewEnvSet "test" PanicOnError)
          ("SetPrefix: prefix BAD!NAME does not conform to regular expression: " ++
            regexpString) :=
  ⟨rfl, rfl, rfl, rfl⟩

/-- C15, counterexample: for a record whose second field is a `bool`, `NewParser`
returns a binder; the schema error is the panic of that binder's `Parse`, raised in the
field loop after the first field has been registered. -/
theorem C15_counterexample_schema_error_at_Parse :
    (NewParser simpleFlag boolConfig).config = boolConfig ∧
    (NewParser simpleFlag boolConfig).envSet = NewEnvSet "Options" ContinueOnError ∧
    parser.Parse simpleFlag xEnviron parseIntBase0 ["--x=1"] ["X"]
        (NewParser simpleFlag boolConfig) heapZero
      = .panic boolPanicState "parsing environment of type bool is not implemented" :=
  ⟨rfl, rfl, rfl⟩

theorem bindFields_unsupported {φ : Type} (F : FlagPackage φ) (f : StructField)
    (kind : String) (hk : f.Kind = .other kind) (fields : List StructField) :
    ∀ (i j : Nat) (p : parser φ) (h : Heap) (s : parser φ × Heap),
    fields[i]? = some f → parser.bindFields F j fields p h ≠ .ret s () := by
  induction fields with
  | nil => intro i j p h s hf; simp at hf
  | cons g rest ih =>
    intro i j p h s hf hret
    rw [parser.bindFields] at hret
    cases i with
    | zero =>
      simp only [List.getElem?_cons_zero, Option.some.injEq] at hf
      subst hf
      simp [parser.bindField, hk] at hret
    | succ i =>
      simp only [List.getElem?_cons_succ] at hf
      cases hb : p.bindField F h j g with
      | exit out code => rw [hb] at hret; simp at hret
      | panic st v => rw [hb] at hret; simp at hret
      | ret st u =>
        obtain ⟨p2, h2⟩ := st
        rw [hb] at hret
        exact ih i (j + 1) p2 h2 s hf hret

/-- The field loop over a list of fields followed by others: the loop over the first
ones, then, if it returns, the loop over the others. -/
theorem bindFields_append {φ : Type} (F : FlagPackage φ) (rest : List StructField)
    (pre : List StructField) : ∀ (j : Nat) (p : parser φ) (h : Heap),
    parser.bindFields F j (pre ++ rest) p h
      = match parser.bindFields F j pre p h with
        | .ret (p1, h1) _ => parser.bindFields F (j + pre.length) rest p1 h1
        | .exit out code => .exit out code
        | .panic s v => .panic s v := by
  induction pre with
  | nil => intro j p h; rfl
  | cons g pre ih =>
    intro j p h
    rw [List.cons_append, parser.bindFields, parser.bindFields]
    cases hb : p.bindField F h j g with
    | exit out code => rfl
    | panic st v => rfl
    | ret st u =>
      obtain ⟨p2, h2⟩ := st
      simp only
      rw [ih (j + 1) p2 h2]
      have hidx : j + 1 + pre.length = j + (g :: pre).length := by
        simp only [List.length_cons]; omega
      rw [hidx]

/-- C15, amended: for a record with a field whose kind is neither text nor 64-bit
integer, `NewParser` builds the binder, with a fresh set, without looking at the fields;
the schema error is deferred to `Parse`.  `Parse` never returns: when the field loop
over the fields before that field returns, `Parse` panics on that field with the message
naming its kind, in the state the earlier fields have been registered in; when the
loop over the earlier fields exits or panics, `Parse` ends the same way. -/
theorem C15_schema_error_raised_by_Parse {φ : Type} (F : FlagPackage φ) (config : Config)
    (pre : List StructField) (f : StructField) (rest : List StructField) (kind : String)
    (hfields : config.fields = pre ++ f :: rest) (hk : f.Kind = .other kind) :
    (NewParser F config).config = config ∧
    (NewParser F config).envSet = NewEnvSet config.Name ContinueOnError ∧
    (∀ (p : parser φ) (h : Heap) (j : Nat), p.bindField F h j f
      = .panic (p, h) ("parsing environment of type " ++ kind ++ " is not implemented")) ∧
    (∀ (environ : Environ) (parseInt : ParseIntFn) (args order : List String)
      (p : parser φ) (h : Heap), p.config = config →
      (∀ (s : parser φ × Heap) (a : Option Error),
        parser.Parse F environ parseInt args order p h ≠ .ret s a) ∧
      (∀ (p1 : parser φ) (h1 : Heap), parser.bindFields F 0 pre p h = .ret (p1, h1) () →
        parser.Parse F environ parseInt args order p h
          = .panic (p1, h1)
              ("parsing environment of type " ++ kind ++ " is not implemented")) ∧
      (∀ (out : String) (code : Int), parser.bindFields F 0 pre p h = .exit out code →
        parser.Parse F environ parseInt args order p h = .exit out code) ∧
      (∀ (st : parser φ × Heap) (v : String), parser.bindFields F 0 pre p h = .panic st v →
        parser.Parse F environ parseInt args order p h = .panic st v)) := by
  have hbody : ∀ (p : parser φ) (h : Heap) (j : Nat), p.bindField F h j f
      = .panic (p, h) ("parsing environment of type " ++ kind ++ " is not implemented") := by
    intro p h j
    simp [parser.bindField, hk]
  refine ⟨rfl, rfl, hbody, ?_⟩
  intro environ parseInt args order p h hp
  have hloop : parser.bindFields F 0 p.config.fields p h
      = match parser.bindFields F 0 pre p h with
        | .ret (p1, h1) _ => .panic (p1, h1)
            ("parsing environment of type " ++ kind ++ " is not implemented")
        | .exit out code => .exit out code
        | .panic s v => .panic s v := by
    rw [hp, hfields, bindFields_append]
    cases hb : parser.bindFields F 0 pre p h with
    | exit out code => rfl
    | panic st v => rfl
    | ret st u =>
      obtain ⟨p1, h1⟩ := st
      simp only
      rw [parser.bindFields, hbody]
  refine ⟨?_, ?_, ?_, ?_⟩
  · intro s a hret
    unfold parser.Parse at hret
    rw [hloop] at hret
    cases hb : parser.bindFields F 0 pre p h with
    | exit out code => rw [hb] at hret; simp at hret
    | panic st v => rw [hb] at hret; simp at hret
    | ret st u => rw [hb] at hret; simp at hret
  · intro p1 h1 hb
    unfold parser.Parse
    rw [hloop, hb]
  · intro out code hb
    unfold parser.Parse
    rw [hloop, hb]
  · intro st v hb
    unfold parser.Parse
    rw [hloop, hb]

/-- Witness of C15: in the record `X int64`, `Verbose bool`, `Parse` panics on `Verbose`
once `X` is registered; in the record `X int64`, `X int64`, `Verbose bool`, the second
definition of the flag `x` panics in the flag package and ends `Parse` before. -/
theorem C15_schema_error_raised_by_Parse_witness :
    parser.Parse simpleFlag xEnviron parseIntBase0 ["--x=1"] ["X"]
        (NewParser simpleFlag boolConfig) heapZero
      = .panic boolPanicState
          ("parsing environment of type " ++ "bool" ++ " is not implemented") ∧
    parser.Parse simpleFlag xEnviron parseIntBase0 ["--x=1"] ["X"]
        (NewParser simpleFlag redefinedConfig) heapZero
      = .panic redefinedPanicState "flag redefined: x" :=
  ⟨((C15_schema_error_raised_by_Parse simpleFlag boolConfig [xField] boolField [] "bool"
      rfl rfl).2.2.2 xEnviron parseIntBase0 ["--x=1"] ["X"]
      (NewParser simpleFlag boolConfig) heapZero rfl).2.1 boolPanicState.1 boolPanicState.2
      rfl,
    ((C15_schema_error_raised_by_Parse simpleFlag redefinedConfig [xField, xField] boolField
      [] "bool" rfl rfl).2.2.2 xEnviron parseIntBase0 ["--x=1"] ["X"]
      (NewParser simpleFlag redefinedConfig) heapZero rfl).2.2.2 redefinedPanicState
      "flag redefined: x" rfl⟩

/-! ## Lemmas on sequences of calls -/

/-- What `Var` returns under a defined policy: nil after storing a fresh Env under a
matching, unregistered name; or an error, the set untouched. -/
theorem Var_defined_ret (e : EnvSet) (value : Value) (name : String) (e1 : EnvSet)
    (a : Option Error) (hd : DefinedPolicy e.errorHandling)
    (hret : e.Var value name = .ret e1 a) :
    (a = none ∧ matchRegexpString name = true ∧ e.envs name = none ∧
      e1 = { e with envs := mapStore e.envs name (some ⟨name, value, false⟩) }) ∨
    (a ≠ none ∧ e1 = e) := by
  have hE : ¬ (ExitOnError = ContinueOnError) := by decide
  have hP1 : ¬ (PanicOnError = ContinueOnError) := by decide
  have hP2 : ¬ (PanicOnError = ExitOnError) := by decide
  simp only [EnvSet.Var, isValidEnvironment, handleErrors] at hret
  by_cases hm : matchRegexpString name = true
  · cases hx : e.envs name with
    | none =>
      left
      simp only [hm, hx, Bool.not_true, Bool.false_eq_true, if_false, Option.isSome_none,
        Outcome.ret.injEq] at hret
      exact ⟨hret.2.symm, hm, rfl, hret.1.symm⟩
    | some x =>
      right
      simp only [hm, hx, Bool.not_true, Bool.false_eq_true, if_false, Option.isSome_some,
        if_true] at hret
      rcases hd with h | h | h
      · simp only [h, if_true, Outcome.ret.injEq] at hret
        exact ⟨by rw [← hret.2]; simp, hret.1.symm⟩
      · simp [h, hE] at hret
      · simp [h, hP1, hP2] at hret
  · right
    simp only [Bool.not_eq_true] at hm
    simp only [hm, Bool.not_false, if_true] at hret
    rcases hd with h | h | h
    · simp only [h, if_true, Outcome.ret.injEq] at hret
      exact ⟨by rw [← hret.2]; simp, hret.1.symm⟩
    · simp [h, hE] at hret
    · simp [h, hP1, hP2] at hret

/-- What `SetPrefix` returns under a defined policy. -/
theorem SetPrefix_defined_ret (e : EnvSet) (p : String) (e1 : EnvSet) (a : Option Error)
    (hd : DefinedPolicy e.errorHandling) (hret : e.SetPrefix p = .ret e1 a) :
    (a = none ∧ matchRegexpString p = true ∧ e1 = { e with pfx := p }) ∨
    (a ≠ none ∧ e1 = e) := by
  have hE : ¬ (ExitOnError = ContinueOnError) := by decide
  have hP1 : ¬ (PanicOnError = ContinueOnError) := by decide
  have hP2 : ¬ (PanicOnError = ExitOnError) := by decide
  simp only [EnvSet.SetPrefix, isValidEnvironment, handleErrors] at hret
  by_cases hm : matchRegexpString p = true
  · left
    simp only [hm, Bool.not_true, Bool.false_eq_true, if_false, Outcome.ret.injEq] at hret
    exact ⟨hret.2.symm, hm, hret.1.symm⟩
  · right
    simp only [Bool.not_eq_true] at hm
    simp only [hm, Bool.not_false, if_true] at hret
    rcases hd with h | h | h
    · simp only [h, if_true, Outcome.ret.injEq] at hret
      exact ⟨by rw [← hret.2]; simp, hret.1.symm⟩
    · simp [h, hE] at hret
    · simp [h, hP1, hP2] at hret

/-- A pass changes an entry of the table only by setting its flag. -/
theorem Parse_envs (environ : Environ) (parseInt : ParseIntFn)
    (order : List String) : ∀ (e : EnvSet) (h : Heap) (s : EnvSet × Heap),
    (EnvSet.Parse environ parseInt order e h).state? = some s →
    ∀ k, s.1.envs k = e.envs k ∨
      ∃ env, e.envs k = some (some env) ∧
        s.1.envs k = some (some { env with isSet := true }) := by
  induction order with
  | nil =>
    intro e h s hs k
    simp only [Parse_nil, Outcome.state?, Option.some.injEq] at hs
    rw [← hs]
    exact Or.inl rfl
  | cons name rest ih =>
    intro e h s hs k
    cases he : e.envs name with
    | none =>
      rw [Parse_cons_absent _ _ _ _ _ _ he] at hs
      exact ih e h s hs k
    | some envp =>
      cases envp with
      | none =>
        rw [Parse_cons_nilEnv _ _ _ _ _ _ he] at hs
        simp only [Outcome.state?, Option.some.injEq] at hs
        rw [← hs]
        exact Or.inl rfl
      | some env =>
        by_cases hok : Getenv environ (fullname e name) = "" ∨
            (env.Value.Set parseInt (Getenv environ (fullname e name)) h).2 = none
        · rw [Parse_cons_ok _ _ _ _ _ _ env he hok] at hs
          by_cases hk : k = name
          · right
            refine ⟨env, by rw [hk]; exact he, ?_⟩
            rcases ih (markSet e name env) _ s hs k with h1 | ⟨env1, h1, h2⟩
            · rw [h1]; simp [markSet, mapStore, hk]
            · simp only [markSet, mapStore, hk, if_true, Option.some.injEq] at h1
              rw [h2, ← h1]
          · rcases ih (markSet e name env) _ s hs k with h1 | ⟨env1, h1, h2⟩
            · left; rw [h1]; simp [markSet, mapStore, hk]
            · right
              simp only [markSet, mapStore, hk, if_false] at h1
              exact ⟨env1, h1, h2⟩
        · rw [not_or] at hok
          obtain ⟨hv, hS⟩ := hok
          obtain ⟨inner, hS⟩ := Option.ne_none_iff_exists'.mp hS
          rw [Parse_cons_fail _ _ _ _ _ _ env inner he hv hS] at hs
          split at hs
          · simp only [Outcome.state?, Option.some.injEq] at hs
            rw [← hs]
            exact Or.inl rfl
          · split at hs
            · simp [Outcome.state?] at hs
            · split at hs
              · simp only [Outcome.state?, Option.some.injEq] at hs
                rw [← hs]
                exact Or.inl rfl
              · exact ih e h s hs k

theorem firstRegistered_append (log : List (String × Value)) (n : String) (v : Value)
    (k : String) :
    firstRegistered (log ++ [(n, v)]) k
      = match firstRegistered log k with
        | some w => some w
        | none => if n = k then some v else none := by
  unfold firstRegistered
  rw [List.find?_append]
  cases hf : List.find? (fun p => p.1 == k) log with
  | some x => simp
  | none =>
    by_cases hnk : n = k
    · simp [hnk]
    · simp [hnk]

theorem firstRegistered_eq_none (log : List (String × Value)) (k : String) :
    firstRegistered log k = none ↔ ∀ v, (k, v) ∉ log := by
  unfold firstRegistered
  rw [Option.map_eq_none', List.find?_eq_none]
  constructor
  · intro h v hv
    exact h (k, v) hv (by simp)
  · intro h x hx hk
    simp only [beq_iff_eq] at hk
    exact h x.2 (by rw [← hk]; exact hx)

theorem afterVar_wellFormed (r r1 : Session) (value : Value) (name : String)
    (hw : WellFormed r)
    (hstep : r.afterVar (r.set.Var value name) name value = some r1) : WellFormed r1 := by
  obtain ⟨hd, hpfx, hreg⟩ := hw
  cases hout : r.set.Var value name with
  | exit out code => rw [hout] at hstep; simp [Session.afterVar] at hstep
  | panic st v => rw [hout] at hstep; simp [Session.afterVar] at hstep
  | ret e a =>
    rw [hout] at hstep
    rcases Var_defined_ret r.set value name e a hd hout with ⟨ha, hm, hx, he⟩ | ⟨ha, he⟩
    · subst ha
      simp only [Session.afterVar, Option.some.injEq] at hstep
      rw [← hstep, he]
      have hfirst : firstRegistered r.log name = none := by
        cases hf : firstRegistered r.log name with
        | none => rfl
        | some w =>
          obtain ⟨_, env, henv, _⟩ := (hreg name).2 w hf
          rw [hx] at henv
          exact absurd henv (by simp)
      refine ⟨hd, hpfx, fun k => ?_⟩
      simp only [firstRegistered_append]
      cases hf : firstRegistered r.log k with
      | some w =>
        have hkn : k ≠ name := by
          intro hkn; rw [hkn, hfirst] at hf; exact absurd hf (by simp)
        simp only [reduceCtorEq, false_implies, Option.some.injEq, mapStore, hkn, if_false,
          true_and]
        intro v hv
        rw [← hv]
        exact (hreg k).2 w hf
      | none =>
        by_cases hnk : name = k
        · simp only [hnk, if_true, reduceCtorEq, false_implies, Option.some.injEq, true_and]
          intro v hv
          rw [← hnk]
          exact ⟨hm, ⟨name, value, false⟩, by simp [mapStore], rfl, hv⟩
        · have hkn : k ≠ name := fun h => hnk h.symm
          simp only [hnk, if_false, mapStore, hkn, reduceCtorEq, false_implies, implies_true,
            and_true, true_implies]
          exact (hreg k).1 hf
    · obtain ⟨msg, hmsg⟩ := Option.ne_none_iff_exists'.mp ha
      rw [hmsg] at hstep
      simp only [Session.afterVar, Option.some.injEq] at hstep
      rw [← hstep, he]
      exact ⟨hd, hpfx, hreg⟩

/-- Every call that returns keeps the registry well-formed. -/
theorem step_wellFormed (parseInt : ParseIntFn) (c : Call) (r r1 : Session)
    (hw : WellFormed r) (hc : c.Defined) (hstep : c.step parseInt r = some r1) :
    WellFormed r1 := by
  cases c with
  | Var value name => exact afterVar_wellFormed r r1 value name hw hstep
  | Int64Var p name => exact afterVar_wellFormed r r1 (.intValue p) name hw hstep
  | StringVar p name => exact afterVar_wellFormed r r1 (.stringValue p) name hw hstep
  | SetPrefix p =>
    obtain ⟨hd, hpfx, hreg⟩ := hw
    simp only [Call.step] at hstep
    cases hout : r.set.SetPrefix p with
    | exit out code => rw [hout] at hstep; simp at hstep
    | panic st v => rw [hout] at hstep; simp at hstep
    | ret e a =>
      rw [hout] at hstep
      simp only [Option.some.injEq] at hstep
      rw [← hstep]
      rcases SetPrefix_defined_ret r.set p e a hd hout with ⟨_, hm, he⟩ | ⟨_, he⟩
      · rw [he]; exact ⟨hd, Or.inr hm, hreg⟩
      · rw [he]; exact ⟨hd, hpfx, hreg⟩
  | Init name errorHandling =>
    obtain ⟨_, hpfx, hreg⟩ := hw
    simp only [Call.step, Option.some.injEq] at hstep
    rw [← hstep]
    exact ⟨hc, hpfx, hreg⟩
  | Parse environ order =>
    obtain ⟨hd, hpfx, hreg⟩ := hw
    simp only [Call.step] at hstep
    cases hout : EnvSet.Parse environ parseInt order r.set r.heap with
    | exit out code => rw [hout] at hstep; simp at hstep
    | panic st v => rw [hout] at hstep; simp at hstep
    | ret st a =>
      obtain ⟨e, h⟩ := st
      rw [hout] at hstep
      simp only [Option.some.injEq] at hstep
      rw [← hstep]
      have hst : (EnvSet.Parse environ parseInt order r.set r.heap).state? = some (e, h) := by
        rw [hout]; rfl
      obtain ⟨_, hpol, hpf, _⟩ := Parse_preserves environ parseInt order r.set r.heap (e, h) hst
      have henvs := Parse_envs environ parseInt order r.set r.heap (e, h) hst
      simp only at hpol hpf henvs
      refine ⟨by rw [hpol]; exact hd, by rw [hpf]; exact hpfx, fun k => ⟨?_, ?_⟩⟩
      · intro hf
        have h0 := (hreg k).1 hf
        rcases henvs k with h1 | ⟨env, h1, _⟩
        · rw [h1]; exact h0
        · rw [h0] at h1; exact absurd h1 (by simp)
      · intro v hf
        obtain ⟨hm, env, h0, hn, hv⟩ := (hreg k).2 v hf
        refine ⟨hm, ?_⟩
        rcases henvs k with h1 | ⟨env1, h1, h2⟩
        · exact ⟨env, by rw [h1]; exact h0, hn, hv⟩
        · rw [h0] at h1
          simp only [Option.some.injEq] at h1
          rw [← h1] at h2
          exact ⟨_, h2, hn, hv⟩
  | IsSet name =>
    simp only [Call.step, Option.some.injEq] at hstep
    rw [← hstep]
    exact hw

theorem runCalls_wellFormed (parseInt : ParseIntFn) (calls : List Call) :
    ∀ (r r1 : Session), WellFormed r → (∀ c ∈ calls, c.Defined) →
    runCalls parseInt calls r = some r1 → WellFormed r1 := by
  induction calls with
  | nil =>
    intro r r1 hw _ hrun
    simp only [runCalls, Option.some.injEq] at hrun
    rw [← hrun]; exact hw
  | cons c cs ih =>
    intro r r1 hw hc hrun
    rw [runCalls] at hrun
    cases hs : c.step parseInt r with
    | none => rw [hs] at hrun; simp at hrun
    | some r2 =>
      rw [hs] at hrun
      exact ih r2 r1 (step_wellFormed parseInt c r r2 hw (hc c (List.mem_cons_self _ _)) hs)
        (fun c1 h1 => hc c1 (List.mem_cons_of_mem _ h1)) hrun

theorem wellFormed_new (name : String) (errorHandling : ErrorHandling) (h : Heap)
    (hd : DefinedPolicy errorHandling) :
    WellFormed ⟨NewEnvSet name errorHandling, h, []⟩ := by
  refine ⟨hd, Or.inl rfl, fun k => ⟨fun _ => rfl, fun v hv => ?_⟩⟩
  simp [firstRegistered] at hv

theorem errorsCalls_defined : ∀ c ∈ errorsCalls, c.Defined := by
  intro c hc
  simp only [errorsCalls, List.mem_cons, List.mem_singleton, List.not_mem_nil, or_false] at hc
  rcases hc with h | h | h | h | h | h | h <;> rw [h] <;> trivial

theorem errorsCalls_run :
    runCalls parseIntBase0 errorsCalls ⟨NewEnvSet "testWithErrors" ContinueOnError, heapZero, []⟩
      = some errorsSession := rfl

/-- C19: on a set built by `NewEnvSet` with one of the three defined policies, after
any sequence of calls of `Var`, `Int64Var`, `StringVar`, `SetPrefix`, `Init` (with a
defined policy), `Parse` and `IsSet` that all return, every key of the registration
table matches the identifier pattern and maps to a non-nil Env whose `Name` is the key
and whose `Value` is the value passed at the first registration of the key that returned
nil; and the stored prefix is empty or matches the pattern. -/
theorem C19_registry_wellFormed (parseInt : ParseIntFn) (name : String)
    (errorHandling : ErrorHandling) (h0 : Heap) (calls : List Call) (r : Session)
    (hd : DefinedPolicy errorHandling) (hcalls : ∀ c ∈ calls, c.Defined)
    (hrun : runCalls parseInt calls ⟨NewEnvSet name errorHandling, h0, []⟩ = some r) :
    (∀ k, (r.set.envs k).isSome = true → matchRegexpString k = true ∧
      ∃ env, r.set.envs k = some (some env) ∧ env.Name = k ∧
        firstRegistered r.log k = some env.Value) ∧
    (r.set.pfx = "" ∨ matchRegexpString r.set.pfx = true) := by
  obtain ⟨_, hpfx, hreg⟩ := runCalls_wellFormed parseInt calls _ r
    (wellFormed_new name errorHandling h0 hd) hcalls hrun
  refine ⟨fun k hk => ?_, hpfx⟩
  cases hf : firstRegistered r.log k with
  | none =>
    rw [(hreg k).1 hf] at hk
    simp at hk
  | some v =>
    obtain ⟨hm, env, he, hn, hv⟩ := (hreg k).2 v hf
    exact ⟨hm, env, he, hn, by rw [hv]⟩

/-- Witness of C19: the calls of `TestEnvWithErrors`, among them a rejected prefix, a
rejected name, a duplicate registration and a failing `Parse`. -/
theorem C19_registry_wellFormed_witness :
    (∀ k, (errorsSession.set.envs k).isSome = true → matchRegexpString k = true ∧
      ∃ env, errorsSession.set.envs k = some (some env) ∧ env.Name = k ∧
        firstRegistered errorsSession.log k = some env.Value) ∧
    (errorsSession.set.pfx = "" ∨ matchRegexpString errorsSession.set.pfx = true) :=
  C19_registry_wellFormed parseIntBase0 "testWithErrors" ContinueOnError heapZero
    errorsCalls errorsSession (Or.inl rfl) errorsCalls_defined errorsCalls_run

/-- C12, counterexample: on a set built with the policy value -1, which is none of the
three defined policies, `Var` with the name `BAD!NAME` falls through the policy switch,
stores a nil Env under the name and returns nil; `IsSet("BAD!NAME")` then returns an
error although the registration returned nil. -/
theorem C12_counterexample_undefined_policy :
    ¬ DefinedPolicy (-1) ∧
    (NewEnvSet "test" (-1)).Var (.intValue 0) "BAD!NAME" = .ret undefinedPolicySet none ∧
    undefinedPolicySet.envs "BAD!NAME" = some none ∧
    undefinedPolicySet.IsSet "BAD!NAME"
      = (false, some "IsSet: env not defined: BAD!NAME") := by
  refine ⟨?_, rfl, rfl, rfl⟩
  unfold DefinedPolicy
  decide

/-- C12, amended: on a set built by `NewEnvSet` with one of the three defined policies,
after any sequence of calls that return (`Parse` and `SetPrefix` among them or not,
`Init` with a defined policy), `IsSet(name)` returns an error exactly when no
registration under that very name has returned nil; otherwise it returns the isSet flag
of the Env registered under the name, with no error. -/
theorem C12_IsSet_error_iff_unregistered (parseInt : ParseIntFn) (name : String)
    (errorHandling : ErrorHandling) (h0 : Heap) (calls : List Call) (r : Session)
    (hd : DefinedPolicy errorHandling) (hcalls : ∀ c ∈ calls, c.Defined)
    (hrun : runCalls parseInt calls ⟨NewEnvSet name errorHandling, h0, []⟩ = some r)
    (n : String) :
    ((r.set.IsSet n).2 ≠ none ↔ ∀ v, (n, v) ∉ r.log) ∧
    ((∀ v, (n, v) ∉ r.log) →
      r.set.IsSet n = (false, some ("IsSet: env not defined: " ++ n))) ∧
    ((∃ v, (n, v) ∈ r.log) →
      ∃ env, r.set.envs n = some (some env) ∧ r.set.IsSet n = (env.isSet, none)) := by
  obtain ⟨_, _, hreg⟩ := runCalls_wellFormed parseInt calls _ r
    (wellFormed_new name errorHandling h0 hd) hcalls hrun
  have hnone : (∀ v, (n, v) ∉ r.log) →
      r.set.IsSet n = (false, some ("IsSet: env not defined: " ++ n)) := by
    intro hlog
    have h1 := (hreg n).1 ((firstRegistered_eq_none r.log n).mpr hlog)
    simp [EnvSet.IsSet, h1]
  have hsome : (∃ v, (n, v) ∈ r.log) →
      ∃ env, r.set.envs n = some (some env) ∧ r.set.IsSet n = (env.isSet, none) := by
    rintro ⟨v, hv⟩
    cases hf : firstRegistered r.log n with
    | none => exact absurd hv ((firstRegistered_eq_none r.log n).mp hf v)
    | some w =>
      obtain ⟨_, env, he, _, _⟩ := (hreg n).2 w hf
      exact ⟨env, he, by simp [EnvSet.IsSet, he, Env.IsSet]⟩
  refine ⟨⟨fun herr => ?_, fun hlog => by rw [hnone hlog]; simp⟩, hnone, hsome⟩
  by_contra hex
  push_neg at hex
  obtain ⟨env, _, h2⟩ := hsome hex
  rw [h2] at herr
  exact herr rfl

/-- Witness of C12: at the end of `TestEnvWithErrors`, `IsSet("UNDEFINED_ENV")` returns
an error; so does `IsSet("duplicate")`, the name being taken case-sensitively;
`IsSet("DUPLICATE")` returns the flag of the registration. -/
theorem C12_IsSet_error_iff_unregistered_witness :
    errorsSession.set.IsSet "UNDEFINED_ENV"
      = (false, some ("IsSet: env not defined: " ++ "UNDEFINED_ENV")) ∧
    errorsSession.set.IsSet "duplicate"
      = (false, some ("IsSet: env not defined: " ++ "duplicate")) ∧
    (∃ env, errorsSession.set.envs "DUPLICATE" = some (some env) ∧
      errorsSession.set.IsSet "DUPLICATE" = (env.isSet, none)) :=
  ⟨(C12_IsSet_error_iff_unregistered parseIntBase0 "testWithErrors" ContinueOnError heapZero
      errorsCalls errorsSession (Or.inl rfl) errorsCalls_defined errorsCalls_run
      "UNDEFINED_ENV").2.1
      ((firstRegistered_eq_none errorsSession.log "UNDEFINED_ENV").mp (by decide)),
    (C12_IsSet_error_iff_unregistered parseIntBase0 "testWithErrors" ContinueOnError heapZero
      errorsCalls errorsSession (Or.inl rfl) errorsCalls_defined errorsCalls_run
      "duplicate").2.1
      ((firstRegistered_eq_none errorsSession.log "duplicate").mp (by decide)),
    (C12_IsSet_error_iff_unregistered parseIntBase0 "testWithErrors" ContinueOnError heapZero
      errorsCalls errorsSession (Or.inl rfl) errorsCalls_defined errorsCalls_run
      "DUPLICATE").2.2 ⟨.intValue 2, by decide⟩⟩

/-- What `Var` may leave behind, under any policy value: the set untouched, the set with
a fresh Env stored under the name, or, for a name that does not match the pattern, the
set with nil stored under the name. -/
theorem Var_state (e : EnvSet) (value : Value) (name : String) (s : EnvSet)
    (hs : (e.Var value name).state? = some s) :
    s.name = e.name ∧ s.errorHandling = e.errorHandling ∧ s.pfx = e.pfx ∧
    s.parsed = e.parsed ∧
    (s.envs = e.envs ∨ s.envs = mapStore e.envs name (some ⟨name, value, false⟩) ∨
      (matchRegexpString name = false ∧ s.envs = mapStore e.envs name none)) := by
  simp only [EnvSet.Var, isValidEnvironment, handleErrors] at hs
  by_cases hm : matchRegexpString name = true
  · cases hx : e.envs name with
    | none =>
      simp only [hm, hx, Bool.not_true, Bool.false_eq_true, if_false, Option.isSome_none,
        Outcome.state?, Option.some.injEq] at hs
      rw [← hs]
      exact ⟨rfl, rfl, rfl, rfl, Or.inr (Or.inl rfl)⟩
    | some x =>
      simp only [hm, hx, Bool.not_true, Bool.false_eq_true, if_false, Option.isSome_some,
        if_true] at hs
      split_ifs at hs
      · simp only [Outcome.state?, Option.some.injEq] at hs
        rw [← hs]; exact ⟨rfl, rfl, rfl, rfl, Or.inl rfl⟩
      · simp [Outcome.state?] at hs
      · simp only [Outcome.state?, Option.some.injEq] at hs
        rw [← hs]; exact ⟨rfl, rfl, rfl, rfl, Or.inl rfl⟩
      · simp only [Outcome.state?, Option.some.injEq] at hs
        rw [← hs]; exact ⟨rfl, rfl, rfl, rfl, Or.inr (Or.inl rfl)⟩
  · simp only [Bool.not_eq_true] at hm
    simp only [hm, Bool.not_false, if_true] at hs
    split_ifs at hs
    · simp only [Outcome.state?, Option.some.injEq] at hs
      rw [← hs]; exact ⟨rfl, rfl, rfl, rfl, Or.inl rfl⟩
    · simp [Outcome.state?] at hs
    · simp only [Outcome.state?, Option.some.injEq] at hs
      rw [← hs]; exact ⟨rfl, rfl, rfl, rfl, Or.inl rfl⟩
    · simp only [Outcome.state?, Option.some.injEq] at hs
      rw [← hs]; exact ⟨rfl, rfl, rfl, rfl, Or.inr (Or.inr ⟨hm, rfl⟩)⟩

/-- What `SetPrefix` may leave behind, under any policy value. -/
theorem SetPrefix_state (e : EnvSet) (p : String) (s : EnvSet)
    (hs : (e.SetPrefix p).state? = some s) :
    s.name = e.name ∧ s.errorHandling = e.errorHandling ∧ s.envs = e.envs ∧
    s.parsed = e.parsed ∧ (s.pfx = e.pfx ∨ s.pfx = p) := by
  simp only [EnvSet.SetPrefix, isValidEnvironment, handleErrors] at hs
  by_cases hm : matchRegexpString p = true
  · simp only [hm, Bool.not_true, Bool.false_eq_true, if_false, Outcome.state?,
      Option.some.injEq] at hs
    rw [← hs]; exact ⟨rfl, rfl, rfl, rfl, Or.inr rfl⟩
  · simp only [Bool.not_eq_true] at hm
    simp only [hm, Bool.not_false, if_true] at hs
    split_ifs at hs
    · simp only [Outcome.state?, Option.some.injEq] at hs
      rw [← hs]; exact ⟨rfl, rfl, rfl, rfl, Or.inl rfl⟩
    · simp [Outcome.state?] at hs
    · simp only [Outcome.state?, Option.some.injEq] at hs
      rw [← hs]; exact ⟨rfl, rfl, rfl, rfl, Or.inl rfl⟩
    · simp only [Outcome.state?, Option.some.injEq] at hs
      rw [← hs]; exact ⟨rfl, rfl, rfl, rfl, Or.inr rfl⟩

/-- A pass leaves the flag `parsed` true, or as it was. -/
theorem Parse_parsed_state (environ : Environ) (parseInt : ParseIntFn)
    (order : List String) : ∀ (e : EnvSet) (h : Heap) (s : EnvSet × Heap),
    (EnvSet.Parse environ parseInt order e h).state? = some s →
    s.1.parsed = true ∨ s.1.parsed = e.parsed := by
  induction order with
  | nil =>
    intro e h s hs
    simp only [Parse_nil, Outcome.state?, Option.some.injEq] at hs
    rw [← hs]
    exact Or.inl rfl
  | cons name rest ih =>
    intro e h s hs
    cases he : e.envs name with
    | none =>
      rw [Parse_cons_absent _ _ _ _ _ _ he] at hs
      exact ih e h s hs
    | some envp =>
      cases envp with
      | none =>
        rw [Parse_cons_nilEnv _ _ _ _ _ _ he] at hs
        simp only [Outcome.state?, Option.some.injEq] at hs
        rw [← hs]
        exact Or.inr rfl
      | some env =>
        by_cases hok : Getenv environ (fullname e name) = "" ∨
            (env.Value.Set parseInt (Getenv environ (fullname e name)) h).2 = none
        · rw [Parse_cons_ok _ _ _ _ _ _ env he hok] at hs
          exact ih (markSet e name env) _ s hs
        · rw [not_or] at hok
          obtain ⟨hv, hS⟩ := hok
          obtain ⟨inner, hS⟩ := Option.ne_none_iff_exists'.mp hS
          rw [Parse_cons_fail _ _ _ _ _ _ env inner he hv hS] at hs
          split at hs
          · simp only [Outcome.state?, Option.some.injEq] at hs
            rw [← hs]
            exact Or.inr rfl
          · split at hs
            · simp [Outcome.state?] at hs
            · split at hs
              · simp only [Outcome.state?, Option.some.injEq] at hs
                rw [← hs]
                exact Or.inr rfl
              · exact ih e h s hs

theorem afterVar_state (r r1 : Session) (out : Outcome EnvSet (Option Error))
    (name : String) (value : Value) (hstep : r.afterVar out name value = some r1) :
    out.state? = some r1.set ∧ r1.heap = r.heap := by
  cases out with
  | exit o c => simp [Session.afterVar] at hstep
  | panic st v => simp [Session.afterVar] at hstep
  | ret e a =>
    cases a with
    | none =>
      simp only [Session.afterVar, Option.some.injEq] at hstep
      rw [← hstep]; exact ⟨rfl, rfl⟩
    | some msg =>
      simp only [Session.afterVar, Option.some.injEq] at hstep
      rw [← hstep]; exact ⟨rfl, rfl⟩

/-- No call other than `Parse` sets the flag of a name that matches the pattern. -/
theorem step_flag_false (parseInt : ParseIntFn) (n : String)
    (hm : matchRegexpString n = true) (c : Call) (r r1 : Session)
    (hc : c.isParse = false) (hf : flagOf r.set n = some false)
    (hstep : c.step parseInt r = some r1) : flagOf r1.set n = some false := by
  have hvar : ∀ value name, r.afterVar (r.set.Var value name) name value = some r1 →
      flagOf r1.set n = some false := by
    intro value name hst
    obtain ⟨hs, _⟩ := afterVar_state r r1 _ name value hst
    obtain ⟨_, _, _, _, henv⟩ := Var_state r.set value name r1.set hs
    rcases henv with h1 | h1 | ⟨hbad, h1⟩
    · simp only [flagOf, h1] at hf ⊢; exact hf
    · by_cases hnn : n = name
      · simp [flagOf, h1, mapStore, hnn]
      · simp only [flagOf, h1, mapStore, hnn, if_false] at hf ⊢; exact hf
    · have hnn : n ≠ name := by
        intro hnn; rw [hnn, hbad] at hm; exact absurd hm (by simp)
      simp only [flagOf, h1, mapStore, hnn, if_false] at hf ⊢; exact hf
  cases c with
  | Var value name => exact hvar value name hstep
  | Int64Var p name => exact hvar (.intValue p) name hstep
  | StringVar p name => exact hvar (.stringValue p) name hstep
  | SetPrefix p =>
    simp only [Call.step] at hstep
    cases hout : r.set.SetPrefix p with
    | exit out code => rw [hout] at hstep; simp at hstep
    | panic st v => rw [hout] at hstep; simp at hstep
    | ret e a =>
      rw [hout] at hstep
      simp only [Option.some.injEq] at hstep
      obtain ⟨_, _, henv, _, _⟩ := SetPrefix_state r.set p e (by rw [hout]; rfl)
      rw [← hstep]
      simp only [flagOf, henv] at hf ⊢
      exact hf
  | Init name errorHandling =>
    simp only [Call.step, Option.some.injEq] at hstep
    rw [← hstep]; exact hf
  | Parse environ order => simp [Call.isParse] at hc
  | IsSet name =>
    simp only [Call.step, Option.some.injEq] at hstep
    rw [← hstep]; exact hf

/-- C13: for a name that matches the identifier pattern and is not registered yet,
`Var` (and `Int64Var`, `StringVar`, which call it) returns nil, and `IsSet` with the same
name then returns false with no error; so it does after any further calls other than
`Parse`.  This holds under every policy. -/
theorem C13_IsSet_false_before_Parse (parseInt : ParseIntFn) (e : EnvSet) (value : Value)
    (name : String) (hm : matchRegexpString name = true) (hn : e.envs name = none) :
    e.Var value name
      = .ret { e with envs := mapStore e.envs name (some ⟨name, value, false⟩) } none ∧
    (∀ p, e.Int64Var p name = e.Var (.intValue p) name ∧
      e.StringVar p name = e.Var (.stringValue p) name) ∧
    ({ e with envs := mapStore e.envs name (some ⟨name, value, false⟩) } : EnvSet).IsSet name
      = (false, none) ∧
    (∀ (calls : List Call) (h : Heap) (log : List (String × Value)) (r : Session),
      (∀ c ∈ calls, c.isParse = false) →
      runCalls parseInt calls
        ⟨{ e with envs := mapStore e.envs name (some ⟨name, value, false⟩) }, h, log⟩
        = some r →
      r.set.IsSet name = (false, none)) := by
  refine ⟨?_, fun p => ⟨rfl, rfl⟩, ?_, ?_⟩
  · simp [EnvSet.Var, isValidEnvironment, hm, hn, handleErrors]
  · simp [EnvSet.IsSet, mapStore, Env.IsSet]
  · intro calls h log r hcalls hrun
    apply IsSet_of_flagOf
    have key : ∀ (cs : List Call) (r0 r1 : Session), (∀ c ∈ cs, c.isParse = false) →
        flagOf r0.set name = some false → runCalls parseInt cs r0 = some r1 →
        flagOf r1.set name = some false := by
      intro cs
      induction cs with
      | nil =>
        intro r0 r1 _ hf hr
        simp only [runCalls, Option.some.injEq] at hr
        rw [← hr]; exact hf
      | cons c cs ih =>
        intro r0 r1 hcs hf hr
        rw [runCalls] at hr
        cases hs : c.step parseInt r0 with
        | none => rw [hs] at hr; simp at hr
        | some r2 =>
          rw [hs] at hr
          exact ih r2 r1 (fun c1 h1 => hcs c1 (List.mem_cons_of_mem _ h1))
            (step_flag_false parseInt name hm c r0 r2 (hcs c (List.mem_cons_self _ _)) hf hs)
            hr
    exact key calls _ r hcalls (by simp [flagOf, mapStore]) hrun

/-- Witness of C13: `Int64Var(&testInt64, "TEST_INT64")` on the fresh set of
`TestEnvWithErrors`, then `IsSet("TEST_INT64")`. -/
theorem C13_IsSet_false_before_Parse_witness :
    (NewEnvSet "testWithErrors" ContinueOnError).Int64Var 0 "TEST_INT64"
      = (NewEnvSet "testWithErrors" ContinueOnError).Var (.intValue 0) "TEST_INT64" ∧
    ({ NewEnvSet "testWithErrors" ContinueOnError with
        envs := mapStore (NewEnvSet "testWithErrors" ContinueOnError).envs "TEST_INT64"
          (some ⟨"TEST_INT64", .intValue 0, false⟩) } : EnvSet).IsSet "TEST_INT64"
      = (false, none) :=
  ⟨((C13_IsSet_false_before_Parse parseIntBase0 (NewEnvSet "testWithErrors" ContinueOnError)
      (.intValue 0) "TEST_INT64" (by decide) rfl).2.1 0).1,
    (C13_IsSet_false_before_Parse parseIntBase0 (NewEnvSet "testWithErrors" ContinueOnError)
      (.intValue 0) "TEST_INT64" (by decide) rfl).2.2.1⟩

/-- C17: the flag `parsed` is false on a set returned by `NewEnvSet` and true after a
`Parse` that returns nil; once it is true, it is true in whatever state a call of
`Var`, `SetPrefix` or `Parse` leaves, failing or not (`IsSet` changes no state), hence
after any sequence of calls that return. -/
theorem C17_parsed_monotonic (parseInt : ParseIntFn) :
    (∀ name errorHandling, (NewEnvSet name errorHandling).Parsed = false) ∧
    (∀ (environ : Environ) (order : List String) (e : EnvSet) (h : Heap)
      (s : EnvSet × Heap),
      EnvSet.Parse environ parseInt order e h = .ret s none → s.1.Parsed = true) ∧
    (∀ e : EnvSet, e.Parsed = true →
      (∀ value name s, (e.Var value name).state? = some s → s.Parsed = true) ∧
      (∀ p s, (e.SetPrefix p).state? = some s → s.Parsed = true) ∧
      (∀ (environ : Environ) (order : List String) (h : Heap) (s : EnvSet × Heap),
        (EnvSet.Parse environ parseInt order e h).state? = some s → s.1.Parsed = true)) ∧
    (∀ (calls : List Call) (r r1 : Session), r.set.Parsed = true →
      runCalls parseInt calls r = some r1 → r1.set.Parsed = true) := by
  have hvar : ∀ (e : EnvSet), e.Parsed = true → ∀ value name s,
      (e.Var value name).state? = some s → s.Parsed = true := by
    intro e he value name s hs
    obtain ⟨_, _, _, hp, _⟩ := Var_state e value name s hs
    simp only [EnvSet.Parsed] at he ⊢
    rw [hp]; exact he
  have hpre : ∀ (e : EnvSet), e.Parsed = true → ∀ p s,
      (e.SetPrefix p).state? = some s → s.Parsed = true := by
    intro e he p s hs
    obtain ⟨_, _, _, hp, _⟩ := SetPrefix_state e p s hs
    simp only [EnvSet.Parsed] at he ⊢
    rw [hp]; exact he
  have hparse : ∀ (e : EnvSet), e.Parsed = true → ∀ (environ : Environ)
      (order : List String) (h : Heap) (s : EnvSet × Heap),
      (EnvSet.Parse environ parseInt order e h).state? = some s → s.1.Parsed = true := by
    intro e he environ order h s hs
    simp only [EnvSet.Parsed] at he ⊢
    rcases Parse_parsed_state environ parseInt order e h s hs with h1 | h1
    · exact h1
    · rw [h1]; exact he
  refine ⟨fun _ _ => rfl, ?_, fun e he => ⟨hvar e he, hpre e he, hparse e he⟩, ?_⟩
  · intro environ order e h s hs
    exact (Parse_parsed environ parseInt order e h s none hs).1 rfl
  · intro calls
    induction calls with
    | nil =>
      intro r r1 hp hr
      simp only [runCalls, Option.some.injEq] at hr
      rw [← hr]; exact hp
    | cons c cs ih =>
      intro r r1 hp hr
      rw [runCalls] at hr
      cases hs : c.step parseInt r with
      | none => rw [hs] at hr; simp at hr
      | some r2 =>
        rw [hs] at hr
        refine ih r2 r1 ?_ hr
        cases c with
        | Var value name =>
          exact hvar r.set hp value name r2.set (afterVar_state r r2 _ name value hs).1
        | Int64Var p name =>
          exact hvar r.set hp (.intValue p) name r2.set
            (afterVar_state r r2 _ name (.intValue p) hs).1
        | StringVar p name =>
          exact hvar r.set hp (.stringValue p) name r2.set
            (afterVar_state r r2 _ name (.stringValue p) hs).1
        | SetPrefix p =>
          simp only [Call.step] at hs
          cases hout : r.set.SetPrefix p with
          | exit out code => rw [hout] at hs; simp at hs
          | panic st v => rw [hout] at hs; simp at hs
          | ret e a =>
            rw [hout] at hs
            simp only [Option.some.injEq] at hs
            rw [← hs]
            exact hpre r.set hp p e (by rw [hout]; rfl)
        | Init name errorHandling =>
          simp only [Call.step, Option.some.injEq] at hs
          rw [← hs]; exact hp
        | Parse environ order =>
          simp only [Call.step] at hs
          cases hout : EnvSet.Parse environ parseInt order r.set r.heap with
          | exit out code => rw [hout] at hs; simp at hs
          | panic st v => rw [hout] at hs; simp at hs
          | ret st a =>
            obtain ⟨e, h⟩ := st
            rw [hout] at hs
            simp only [Option.some.injEq] at hs
            rw [← hs]
            exact hparse r.set hp environ order r.heap (e, h) (by rw [hout]; rfl)
        | IsSet name =>
          simp only [Call.step, Option.some.injEq] at hs
          rw [← hs]; exact hp

/-- Witness of C17: `Parsed()` is true after the `Parse` of `TestEnv`, and stays true
through a further `Parse` that fails on `TEST_INT64=not_a_number`. -/
theorem C17_parsed_monotonic_witness :
    testSetParsed.1.Parsed = true ∧ testSetReparsed.1.Parsed = true :=
  ⟨(C17_parsed_monotonic parseIntBase0).2.1 testEnviron ["TEST_INT64", "TEST_STRING"] testSet
      heapZero testSetParsed rfl,
    ((C17_parsed_monotonic parseIntBase0).2.2.1 testSetParsed.1 rfl).2.2
      errorsEnviron ["TEST_STRING", "TEST_INT64"] testSetParsed.2 testSetReparsed rfl⟩

/-- A pass over a list of names that returns nil is the beginning of every pass over a
longer list. -/
theorem Parse_append (environ : Environ) (parseInt : ParseIntFn) (rest : List String)
    (pre : List String) : ∀ (e : EnvSet) (h : Heap) (s : EnvSet × Heap),
    EnvSet.Parse environ parseInt pre e h = .ret s none →
    EnvSet.Parse environ parseInt (pre ++ rest) e h
      = EnvSet.Parse environ parseInt rest { s.1 with parsed := e.parsed } s.2 := by
  induction pre with
  | nil =>
    intro e h s hs
    simp only [Parse_nil, Outcome.ret.injEq, and_true] at hs
    rw [← hs]
    rfl
  | cons name pre ih =>
    intro e h s hs
    rw [List.cons_append]
    cases he : e.envs name with
    | none =>
      rw [Parse_cons_absent _ _ _ _ _ _ he] at hs ⊢
      exact ih e h s hs
    | some envp =>
      cases envp with
      | none =>
        rw [Parse_cons_nilEnv _ _ _ _ _ _ he] at hs
        simp at hs
      | some env =>
        by_cases hok : Getenv environ (fullname e name) = "" ∨
            (env.Value.Set parseInt (Getenv environ (fullname e name)) h).2 = none
        · rw [Parse_cons_ok _ _ _ _ _ _ env he hok] at hs ⊢
          exact ih (markSet e name env) _ s hs
        · rw [not_or] at hok
          obtain ⟨hv, hS⟩ := hok
          obtain ⟨inner, hS⟩ := Option.ne_none_iff_exists'.mp hS
          rw [Parse_cons_fail _ _ _ _ _ _ env inner he hv hS] at hs ⊢
          by_cases h1 : e.errorHandling = ContinueOnError
          · rw [if_pos h1] at hs; simp at hs
          · rw [if_neg h1] at hs ⊢
            by_cases h2 : e.errorHandling = ExitOnError
            · rw [if_pos h2] at hs; simp at hs
            · rw [if_neg h2] at hs ⊢
              by_cases h3 : e.errorHandling = PanicOnError
              · rw [if_pos h3] at hs; simp at hs
              · rw [if_neg h3] at hs ⊢
                exact ih e h s hs

/-- C18, counterexample: `A` and `C` are bound to the same integer cell, holding 0, and
`B` to another; with `A=5` and `B=not_a_number`, `Parse` under `ContinueOnError` visiting
`A`, `B`, `C` fails at `B`, and the cell of `C`, which comes after `B`, holds 5. -/
theorem C18_counterexample_shared_cell :
    sharedSet.errorHandling = ContinueOnError ∧
    (intValue_Set parseIntBase0 0 "5" heapZero).2 = none ∧
    (intValue_Set parseIntBase0 1 "not_a_number" heapZero).2 ≠ none ∧
    EnvSet.Parse partialEnviron parseIntBase0 ["A", "B", "C"] sharedSet heapZero
      = .ret sharedSetFailed
          (some ("Parse: error while parsing env: B: error setting int value: " ++
            "strconv.ParseInt: parsing \"not_a_number\": invalid syntax")) ∧
    sharedSet.envs "C" = some (some sharedEnvC) ∧
    sharedEnvC.Value.Get heapZero = .int64 0 ∧
    sharedEnvC.Value.Get sharedSetFailed.2 = .int64 5 := by
  refine ⟨rfl, rfl, ?_, rfl, rfl, rfl, rfl⟩
  decide

/-- C18, amended: under `ContinueOnError`, on a set with no nil registration and with
distinct names bound to distinct cells, for a visiting order `pre`, `n`, `post` where
`n` is the first name whose non-empty value is rejected: `Parse` returns the error of
`n`, whatever comes after `n` in the order; the cell of every name of `pre` with a
non-empty value holds the content its conversion writes; the names `n` and those of
`post` have their cell and their `IsSet` answer as before the call. -/
theorem C18_partial_application (environ : Environ) (parseInt : ParseIntFn) (e : EnvSet)
    (pre : List String) (n : String) (post : List String) (h : Heap)
    (envn : Env) (inner : Error)
    (hc : e.errorHandling = ContinueOnError) (hnil : NoNilEnv e)
    (horder : RangeOrder e (pre ++ n :: post)) (hdist : DistinctCells e)
    (hpre : ∀ m ∈ pre, ∀ env, e.envs m = some (some env) →
      Getenv environ (fullname e m) = "" ∨
      (env.Value.Set parseInt (Getenv environ (fullname e m)) h).2 = none)
    (hn : e.envs n = some (some envn)) (hv : Getenv environ (fullname e n) ≠ "")
    (hrej : (envn.Value.Set parseInt (Getenv environ (fullname e n)) h).2 = some inner) :
    ∃ s, (∀ post2, EnvSet.Parse environ parseInt (pre ++ n :: post2) e h
        = .ret s (some ("Parse: error while parsing env: " ++ fullname e n ++ ": " ++
            inner))) ∧
      (∀ m ∈ pre, ∀ env, e.envs m = some (some env) →
        Getenv environ (fullname e m) ≠ "" →
        env.Value.Get s.2
          = env.Value.Get (env.Value.Set parseInt (Getenv environ (fullname e m)) h).1) ∧
      (∀ m, m = n ∨ m ∈ post → ∀ env, e.envs m = some (some env) →
        env.Value.Get s.2 = env.Value.Get h ∧ s.1.IsSet m = e.IsSet m) := by
  -- the pass over `pre` returns nil
  obtain ⟨s0, a, hs0, _⟩ := Parse_returns environ parseInt h pre e h hc (fun m _ => hnil m)
  have ha : a = none := by
    cases a with
    | none => rfl
    | some msg =>
      obtain ⟨m, hm, v, inner1, hb, hv1, hS1, _⟩ :=
        Parse_error_sound environ parseInt h pre e h s0 msg hs0
      obtain ⟨env, he, hev⟩ := envs_of_boundTo e m v hb
      rcases hpre m hm env he with h1 | h1
      · exact absurd h1 hv1
      · rw [hev, hS1] at h1; exact absurd h1 (by simp)
  subst ha
  have hst0 : (EnvSet.Parse environ parseInt pre e h).state? = some s0 := by rw [hs0]; rfl
  obtain ⟨_, hpol, hpf, hbt⟩ := Parse_preserves environ parseInt pre e h s0 hst0
  -- the visit of `n`
  have hbn : boundTo { s0.1 with parsed := e.parsed } n = some envn.Value := by
    have h1 : boundTo { s0.1 with parsed := e.parsed } n = boundTo s0.1 n := rfl
    rw [h1, hbt]; exact boundTo_of_envs e n envn hn
  obtain ⟨env1, he1, hev1⟩ := envs_of_boundTo _ n _ hbn
  have hfull : ∀ m, fullname { s0.1 with parsed := e.parsed } m = fullname e m := by
    intro m; simp only [fullname, hpf]
  have hnodup := horder.1
  have hnotin : ∀ m, m = n ∨ m ∈ post → m ∉ pre := by
    intro m hm hmp
    have hdj := (List.nodup_append.mp hnodup).2.2
    rcases hm with h1 | h1
    · exact hdj hmp (by rw [h1]; exact List.mem_cons_self _ _)
    · exact hdj hmp (List.mem_cons_of_mem _ h1)
  refine ⟨({ s0.1 with parsed := e.parsed }, s0.2), ?_, ?_, ?_⟩
  · intro post2
    rw [Parse_append environ parseInt (n :: post2) pre e h s0 hs0,
      Parse_cons_fail environ parseInt n post2 _ s0.2 env1 inner he1
        (by rw [hfull]; exact hv)
        (by rw [hfull, hev1, Value.Set_err_indep parseInt envn.Value _ s0.2 h]; exact hrej),
      if_pos (by simp only; rw [hpol]; exact hc), hfull]
  · intro m hm env he hvm
    have hb := boundTo_of_envs e m env he
    have hacc := (hpre m hm env he).resolve_left hvm
    exact Parse_cell environ parseInt m env.Value h pre e h s0 hm hb hvm hacc
      (fun m1 _ hm1 hb1 => hdist m m1 env.Value (Ne.symm hm1) hb hb1) hs0
  · intro m hm env he
    have hmp := hnotin m hm
    have hb := boundTo_of_envs e m env he
    constructor
    · refine Parse_frame environ parseInt env.Value h pre e h s0 ?_ hst0
      intro m1 hm1 hb1
      have hne : m ≠ m1 := fun h1 => hmp (by rw [h1]; exact hm1)
      exact absurd hb1 (hdist m m1 env.Value hne hb)
    · apply IsSet_congr
      have h1 : flagOf { s0.1 with parsed := e.parsed } m = flagOf s0.1 m := rfl
      rw [h1]
      exact Parse_flag_frame environ parseInt m h pre e h s0 (fun hin => absurd hin hmp)
        hst0

theorem partialSet_envs (k : String) :
    partialSet.envs k
      = if k = "C" then some (some partialEnvC)
        else if k = "B" then some (some partialEnvB)
        else if k = "A" then some (some partialEnvA) else none := rfl

theorem partialSet_rangeOrder : RangeOrder partialSet (["A"] ++ "B" :: ["C"]) := by
  refine ⟨by decide, fun k => ?_⟩
  rw [partialSet_envs]
  by_cases h1 : k = "C"
  · simp [h1]
  · by_cases h2 : k = "B"
    · simp [h2]
    · by_cases h3 : k = "A"
      · simp [h3]
      · simp [h1, h2, h3]

theorem partialSet_noNilEnv : NoNilEnv partialSet := by
  intro k
  rw [partialSet_envs]
  split_ifs <;> simp

theorem partialSet_distinctCells : DistinctCells partialSet := by
  intro k m v hkm hk hm
  simp only [boundTo, partialSet_envs] at hk hm
  split_ifs at hk hm <;>
    simp_all [partialEnvA, partialEnvB, partialEnvC]
  all_goals exact absurd (hk.trans hm.symm) (by decide)

/-- Witness of C18: `A=5`, `B=not_a_number`, `C=later` bound to three distinct cells,
visited in this order. -/
theorem C18_partial_application_witness :
    ∃ s, (∀ post2, EnvSet.Parse partialEnviron parseIntBase0 (["A"] ++ "B" :: post2)
          partialSet heapZero
        = .ret s (some ("Parse: error while parsing env: " ++ fullname partialSet "B" ++
            ": " ++ ("error setting int value: " ++
              "strconv.ParseInt: parsing \"not_a_number\": invalid syntax")))) ∧
      (∀ m ∈ ["A"], ∀ env, partialSet.envs m = some (some env) →
        Getenv partialEnviron (fullname partialSet m) ≠ "" →
        env.Value.Get s.2
          = env.Value.Get (env.Value.Set parseIntBase0
              (Getenv partialEnviron (fullname partialSet m)) heapZero).1) ∧
      (∀ m, m = "B" ∨ m ∈ ["C"] → ∀ env, partialSet.envs m = some (some env) →
        env.Value.Get s.2 = env.Value.Get heapZero ∧
          s.1.IsSet m = partialSet.IsSet m) :=
  C18_partial_application partialEnviron parseIntBase0 partialSet ["A"] "B" ["C"] heapZero
    partialEnvB _ rfl partialSet_noNilEnv partialSet_rangeOrder partialSet_distinctCells
    (by
      intro m hm env he
      simp only [List.mem_singleton] at hm
      subst hm
      have henv : env = partialEnvA := by
        have h1 : partialSet.envs "A" = some (some partialEnvA) := rfl
        rw [h1] at he
        simpa using he.symm
      subst henv
      right
      rfl)
    rfl (by decide) rfl

theorem registered_same (e : EnvSet) (value : Value) (name : String)
    (hbad : matchRegexpString name = false ∨ (e.envs name).isSome = true) :
    registered e value name = e := by
  unfold registered
  rcases hbad with h | h
  · simp [h]
  · cases hx : e.envs name with
    | none => rw [hx] at h; simp at h
    | some x => simp

theorem registered_new_key (e : EnvSet) (value : Value) (name : String) (k : String)
    (hk : (registered e value name).envs k ≠ none) (hold : e.envs k = none) :
    k = name ∧ matchRegexpString name = true ∧
      boundTo (registered e value name) k = some value := by
  unfold registered at hk ⊢
  split at hk
  · next hcond =>
    rw [if_pos hcond]
    simp only [Bool.and_eq_true] at hcond
    by_cases hkn : k = name
    · exact ⟨hkn, hcond.1, by simp [boundTo, mapStore, hkn]⟩
    · simp only [mapStore, hkn, if_false] at hk
      exact absurd hold hk
  · exact absurd hold hk

theorem registered_valid_key (e : EnvSet) (value : Value) (name : String)
    (hm : matchRegexpString name = true) : (registered e value name).envs name ≠ none := by
  unfold registered
  cases hx : e.envs name with
  | none => simp [hm, mapStore]
  | some x => simp [hx]

/-- The field loop under `ContinueOnError` registers a variable for the first field
carrying a given matching `env` tag, and for no other field. -/
theorem bindFields_first {φ : Type} (F : FlagPackage φ) (rest : List StructField) :
    ∀ (pre : List StructField) (p : parser φ) (h : Heap) (p1 : parser φ) (h1 : Heap),
    p.envSet.errorHandling = ContinueOnError →
    FirstFields pre p.envSet →
    parser.bindFields F pre.length rest p h = .ret (p1, h1) () →
    FirstFields (pre ++ rest) p1.envSet := by
  induction rest with
  | nil =>
    intro pre p h p1 h1 _ hinv hret
    simp only [parser.bindFields, Outcome.ret.injEq, Prod.mk.injEq, and_true] at hret
    obtain ⟨hp, _⟩ := hret
    subst hp
    simpa using hinv
  | cons field rest ih =>
    intro pre p h p1 h1 hc hinv hret
    rw [parser.bindFields] at hret
    cases hb : p.bindField F h pre.length field with
    | exit out code => rw [hb] at hret; simp at hret
    | panic st v => rw [hb] at hret; simp at hret
    | ret st u =>
      obtain ⟨p2, h2⟩ := st
      rw [hb] at hret
      simp only at hret
      obtain ⟨v0, hv0, he2⟩ := bindField_spec F p h _ field p2 h2 hc hb
      have hc2 : p2.envSet.errorHandling = ContinueOnError := by
        rw [he2, registered_errorHandling]; exact hc
      have hinv2 : FirstFields (pre ++ [field]) p2.envSet := by
        obtain ⟨hkeys, htags⟩ := hinv
        constructor
        · intro n hn
          rw [he2] at hn
          by_cases hold : p.envSet.envs n = none
          · obtain ⟨hkn, hm, hbnd⟩ := registered_new_key _ _ _ _ hn hold
            refine ⟨by rw [hkn]; exact hm, pre.length, field, v0,
              List.getElem?_concat_length pre field, hkn.symm, hv0, by rw [he2]; exact hbnd,
              ?_⟩
            intro k g hk hg ht
            rw [List.getElem?_append_left hk] at hg
            have := htags k g hg (by rw [ht, hkn]; exact hm)
            rw [ht] at this
            exact this hold
          · obtain ⟨hm, j, f, v, hj, ht, hfv, hbd, hfirst⟩ := hkeys n hold
            have hjlt := (List.getElem?_eq_some.mp hj).1
            refine ⟨hm, j, f, v, by rw [List.getElem?_append_left hjlt]; exact hj, ht, hfv,
              by rw [he2, boundTo_congr _ _ n (registered_keeps _ _ _ n hold)]; exact hbd, ?_⟩
            intro k g hk hg
            rw [List.getElem?_append_left (by omega)] at hg
            exact hfirst k g hk hg
        · intro k g hg hm
          rw [he2]
          by_cases hk : k < pre.length
          · rw [List.getElem?_append_left hk] at hg
            have hold := htags k g hg hm
            rw [registered_keeps _ _ _ _ hold]
            exact hold
          · have hlen := (List.getElem?_eq_some.mp hg).1
            simp only [List.length_append, List.length_singleton] at hlen
            have hkeq : k = pre.length := by omega
            rw [hkeq, List.getElem?_concat_length] at hg
            simp only [Option.some.injEq] at hg
            rw [← hg] at hm ⊢
            by_cases hold : p.envSet.envs (field.Tag "env") = none
            · exact registered_valid_key _ _ _ hm
            · rw [registered_keeps _ _ _ _ hold]; exact hold
      have hlen : (pre ++ [field]).length = pre.length + 1 := by simp
      rw [← hlen] at hret
      have c3 := ih (pre ++ [field]) p2 h2 p1 h1 hc2 hinv2 hret
      have happ : pre ++ [field] ++ rest = pre ++ field :: rest := by simp
      rw [happ] at c3
      exact c3

/-- A field whose `env` tag fails the pattern, or is registered already, is bound like
the field without its `env` tag: the error of the registration is dropped. -/
theorem bindField_dropped {φ : Type} (F : FlagPackage φ) (p : parser φ) (h : Heap) (i : Nat)
    (f : StructField) (hc : p.envSet.errorHandling = ContinueOnError)
    (hbad : matchRegexpString (f.Tag "env") = false ∨
      (p.envSet.envs (f.Tag "env")).isSome = true) :
    p.bindField F h i f = p.bindField F h i (withoutEnvTag f) := by
  have h1 : ¬ ("usage" = "env") := by decide
  have h2 : ¬ ("arg" = "env") := by decide
  have hvar : ∀ value, ∃ a, p.envSet.Var value (f.Tag "env") = .ret p.envSet a := by
    intro value
    obtain ⟨a, ha⟩ := Var_continue p.envSet value (f.Tag "env") hc
    rw [registered_same _ _ _ hbad] at ha
    exact ⟨a, ha⟩
  have hreg : ∀ (fo : Outcome (φ × Heap) Unit) (a : Option Error),
      p.register fo (some (.ret p.envSet a)) = p.register fo none := by
    intro fo a
    cases fo with
    | exit out code => rfl
    | panic st v => rfl
    | ret st u => rfl
  simp only [parser.bindField, withoutEnvTag, pointerPanic, h1, h2, if_false, if_true,
    ne_eq, not_true_eq_false]
  cases hk : f.Kind with
  | String =>
    simp only
    by_cases henv : f.Tag "env" = ""
    · simp only [henv, not_true_eq_false, if_false]
    · obtain ⟨a, ha⟩ := hvar (.stringValue i)
      simp only [henv, not_false_eq_true, if_true, EnvSet.StringVar, ha, hreg]
  | Int64 =>
    simp only
    by_cases henv : f.Tag "env" = ""
    · simp only [henv, not_true_eq_false, if_false]
    · obtain ⟨a, ha⟩ := hvar (.intValue i)
      simp only [henv, not_false_eq_true, if_true, EnvSet.Int64Var, ha, hreg]
  | other kind => rfl

/-- C20: the binder, whose set has the policy `ContinueOnError`, drops the errors of
its set at registration time.  `SetEnvPrefix` with a prefix that does not match the
pattern returns the binder it was called on, so that with no prefix stored `Parse`
reads the unprefixed names.  A field whose `env` tag does not match the pattern, or
is registered already, goes through the field loop like the field without `env` tag.
And after the field loop of a fresh binder, no registration is bound to the cell of a
field whose `env` tag does not match the pattern or repeats the tag of an earlier
field, so the environment pass leaves that cell as the flag pass left it. -/
theorem C20_binder_drops_registration_errors {φ : Type} (F : FlagPackage φ) (p : parser φ)
    (hc : p.envSet.errorHandling = ContinueOnError) :
    (∀ pre, matchRegexpString pre = false → p.SetEnvPrefix pre = .ret p ()) ∧
    (p.envSet.pfx = "" → ∀ n, fullname p.envSet n = n) ∧
    (∀ (h : Heap) (i : Nat) (f : StructField),
      (matchRegexpString (f.Tag "env") = false ∨
        (p.envSet.envs (f.Tag "env")).isSome = true) →
      p.bindField F h i f = p.bindField F h i (withoutEnvTag f)) ∧
    ((∀ n, p.envSet.envs n = none) →
      ∀ (h : Heap) (p2 : parser φ) (h2 : Heap),
      parser.bindFields F 0 p.config.fields p h = .ret (p2, h2) () →
      ∀ (i : Nat) (f : StructField), p.config.fields[i]? = some f →
      (matchRegexpString (f.Tag "env") = false ∨
        ∃ k g, k < i ∧ p.config.fields[k]? = some g ∧ g.Tag "env" = f.Tag "env") →
      ∃ v, fieldValue i f = some v ∧ (∀ n, boundTo p2.envSet n ≠ some v) ∧
        ∀ (environ : Environ) (parseInt : ParseIntFn) (order : List String) (h3 : Heap)
          (s : EnvSet × Heap),
          (EnvSet.Parse environ parseInt order p2.envSet h3).state? = some s →
          v.Get s.2 = v.Get h3) := by
  refine ⟨?_, ?_, fun h i f hbad => bindField_dropped F p h i f hc hbad, ?_⟩
  · intro pre hbad
    have h1 : p.envSet.SetPrefix pre = .ret p.envSet (some ("SetPrefix: prefix " ++ pre ++
        " does not conform to regular expression: " ++ regexpString)) := by
      simp [EnvSet.SetPrefix, isValidEnvironment, hbad, handleErrors, hc]
    simp only [parser.SetEnvPrefix, h1]
  · intro hp n
    simp [fullname, hp]
  · intro hfresh h p2 h2 hb i f hf hbad
    have hinv0 : FromFields [] p.envSet := fun n hn => absurd (hfresh n) hn
    have hfirst0 : FirstFields [] p.envSet :=
      ⟨fun n hn => absurd (hfresh n) hn, fun k g hg => by simp at hg⟩
    obtain ⟨_, _, _, _, c5⟩ := bindFields_spec F p.config.fields [] p h p2 h2 hc hinv0 hb
    have hff := bindFields_first F p.config.fields [] p h p2 h2 hc hfirst0 hb
    simp only [List.nil_append, List.length_nil, Nat.zero_add] at c5 hff
    obtain ⟨v, hfv, _⟩ := c5 i f hf
    have hnone : ∀ n, boundTo p2.envSet n ≠ some v := by
      intro n hbn
      have hk : p2.envSet.envs n ≠ none := by
        intro h0; simp [boundTo, h0] at hbn
      obtain ⟨hm, j, g, w, hj, ht, hgw, hbw, hfirst⟩ := hff.1 n hk
      rw [hbn] at hbw
      have hwv : w = v := (Option.some.inj hbw).symm
      rw [hwv] at hgw
      have hji : i = j := fieldValue_inj i j f g v hfv hgw
      rw [← hji, hf] at hj
      have hfg : f = g := Option.some.inj hj
      rw [← hfg] at ht
      rcases hbad with hinvalid | ⟨k, g1, hk1, hg1, ht1⟩
      · rw [ht, hm] at hinvalid
        exact absurd hinvalid (by simp)
      · exact hfirst k g1 (by rw [← hji]; exact hk1) hg1 (by rw [ht1, ht])
    refine ⟨v, hfv, hnone, ?_⟩
    intro environ parseInt order h3 s hs
    exact Parse_frame environ parseInt v h3 order p2.envSet h3 s
      (fun m _ hbm => absurd hbm (hnone m)) hs

/-- Witness of C20: the record with `X` (`env:"X"`), `Y` (`env:"X"` again) and `Z`
(`env:"BAD!NAME"`), the arguments `--x=1 --y=7`, the environment `X=2`,
`BAD!NAME=ignored`.  The rejected prefix is dropped, `Z` is bound like a field with no
`env` tag, and `Parse` returns nil with `X` holding 2, `Y` holding 7 and `Z` its
default. -/
theorem C20_binder_drops_registration_errors_witness :
    (NewParser simpleFlag dropConfig).SetEnvPrefix "%.?/$"
      = .ret (NewParser simpleFlag dropConfig) () ∧
    fullname (NewParser simpleFlag dropConfig).envSet "X" = "X" ∧
    (NewParser simpleFlag dropConfig).bindField simpleFlag heapZero 2 zField
      = (NewParser simpleFlag dropConfig).bindField simpleFlag heapZero 2
          (withoutEnvTag zField) ∧
    parser.Parse simpleFlag dropEnviron parseIntBase0 ["--x=1", "--y=7"] ["X"]
        (NewParser simpleFlag dropConfig) heapZero = .ret dropParsed none ∧
    dropParsed.2.ints 0 = 2 ∧ dropParsed.2.ints 1 = 7 ∧ dropParsed.2.strs 2 = "" :=
  ⟨(C20_binder_drops_registration_errors simpleFlag (NewParser simpleFlag dropConfig)
      rfl).1 "%.?/$" (by decide),
    (C20_binder_drops_registration_errors simpleFlag (NewParser simpleFlag dropConfig)
      rfl).2.1 rfl "X",
    (C20_binder_drops_registration_errors simpleFlag (NewParser simpleFlag dropConfig)
      rfl).2.2.1 heapZero 2 zField (Or.inl (by decide)),
    rfl, rfl, rfl, rfl⟩

end simpleconf
